import Mathlib

/-!
# The file-tailing engine of agenx: state store, registry, worker

A shallow embedding of `src/deamon/state.go`, `src/deamon/stamp.go`,
`src/deamon/registry.go`, `src/deamon/log/scanner.go` and the reader stack under
`src/deamon/log/reader/`, with the properties of the specification stated
over it.

Conventions.  A Go `string` that is a path, a type tag or an identity is a
Lean `String`, which stands for the Go strings that are valid UTF-8; file
content and message content are byte sequences, a byte being kept as its
numeric value (`Nat`).  An instant (`time.Time`) is the
number of nanoseconds since the epoch, a `time.Duration` a number of
nanoseconds, both `Int`.  Calls to `time.Now()` read an explicit clock.
-/

namespace Agenx

/-! ## Time -/

/-- The largest `time.Duration`, `1<<63 - 1` nanoseconds. -/
def maxDuration : Int := 9223372036854775807

/-- The smallest `time.Duration`, `-1 << 63` nanoseconds. -/
def minDuration : Int := -9223372036854775808

/-- Go's `Time.Sub`: the duration `t - u`, saturated to the range of `time.Duration`. -/
def timeSub (t u : Int) : Int :=
  if t - u > maxDuration then maxDuration
  else if t - u < minDuration then minDuration
  else t - u

/-! ## stamp.go -/

/-- The part of an `os.FileInfo` (with its `syscall.Stat_t`) the engine reads. -/
structure FileInfo where
  Name : String
  Size : Int
  ModTime : Int
  Ino : Nat
  Dev : Nat
  deriving DecidableEq, Repr

/-- The struct `StateOS` of stamp.go. -/
structure StateOS where
  Inode : Nat
  Device : Nat
  deriving DecidableEq, Repr

/-- The function `GetOSState` of stamp.go. -/
def GetOSState (info : FileInfo) : StateOS :=
  { Inode := info.Ino, Device := info.Dev }

/-- The method `StateOS.IsSame` of stamp.go. -/
def StateOS.IsSame (fs state : StateOS) : Bool :=
  fs.Inode == state.Inode && fs.Device == state.Device

/-- The method `StateOS.String` of stamp.go: `fmt.Sprintf("%d-%d", fs.Inode, fs.Device)`. -/
def StateOS.String (fs : StateOS) : String :=
  Nat.repr fs.Inode ++ "-" ++ Nat.repr fs.Device

/-! ## state.go -/

/-- The struct `State` of state.go (`Type_` is its field `Type`). -/
structure State where
  Id : String
  Finished : Bool
  Fileinfo : Option FileInfo
  Source : String
  Offset : Int
  Timestamp : Int
  TTL : Int
  Type_ : String
  FileStateOS : StateOS
  deriving DecidableEq, Repr

/-- The zero value `State{}`. -/
def State.zero : State :=
  { Id := "", Finished := false, Fileinfo := none, Source := "", Offset := 0,
    Timestamp := 0, TTL := 0, Type_ := "", FileStateOS := { Inode := 0, Device := 0 } }

/-- The function `NewState` of state.go; `now` is the reading of `time.Now()`. -/
def NewState (fileInfo : FileInfo) (path : String) (t : String) (now : Int) : State :=
  { Id := "", Finished := false, Fileinfo := some fileInfo, Source := path, Offset := 0,
    Timestamp := now, TTL := -1, Type_ := t, FileStateOS := GetOSState fileInfo }

/-- The method `State.ID` of state.go: the identity string, and the receiver with
its `Id` cache filled in. -/
def State.ID (s : State) : String × State :=
  if s.Id = "" then
    let s1 := { s with Id := s.FileStateOS.String }
    (s1.Id, s1)
  else (s.Id, s)

/-- The method `State.IsEqual` of state.go: the result, and both states after
the two `ID()` calls. -/
def State.IsEqual (s c : State) : Bool × State × State :=
  let (a, s1) := s.ID
  let (b, c1) := c.ID
  (a == b, s1, c1)

/-- The method `State.IsEmpty` of state.go. -/
def State.IsEmpty (s : State) : Bool := s == State.zero

/-- The loop of `States.findPrevious`: `index` is the range index of the head
of the remaining states; `newState` is the callee's copy, whose `Id` cache the
comparisons fill in. -/
def findPreviousLoop : List State → Int → State → Int × State
  | [], _, _ => (-1, State.zero)
  | oldState :: rest, index, newState =>
    match oldState.IsEqual newState with
    | (true, oldState1, _) => (index, oldState1)
    | (false, _, newState1) => findPreviousLoop rest (index + 1) newState1

/-- The method `States.findPrevious` of state.go. -/
def States.findPrevious (states : List State) (newState : State) : Int × State :=
  findPreviousLoop states 0 newState

/-- The method `States.FindPrevious` of state.go. -/
def States.FindPrevious (states : List State) (newState : State) : State :=
  (States.findPrevious states newState).2

/-- The method `States.Update` of state.go; `now` is the reading of `time.Now()`. -/
def States.Update (states : List State) (newState : State) (now : Int) : List State :=
  let index := (States.findPrevious states newState).1
  let newState := { newState with Timestamp := now }
  if index ≥ 0 then states.set index.toNat newState
  else states ++ [newState]

/-- The loop of `States.Cleanup`.  `states := s.states[:0]` shares the backing
array of `s.states`, so the loop reads and writes one array `arr`: `i` is the
range index, `k` is `len(states)`, and `append(states, state)` stores at `k`.
The first argument counts the iterations left. -/
def cleanupLoop (currentTime : Int) : Nat → Nat → Nat → List State → Nat × List State
  | 0, _, k, arr => (k, arr)
  | n + 1, i, k, arr =>
    match arr[i]? with
    | none => (k, arr)
    | some state =>
      let expired := decide (state.TTL > 0) &&
        decide (timeSub currentTime state.Timestamp > state.TTL)
      if state.TTL == 0 || expired then
        if state.Finished then
          cleanupLoop currentTime n (i + 1) k arr
        else
          cleanupLoop currentTime n (i + 1) (k + 1) (arr.set k state)
      else
        cleanupLoop currentTime n (i + 1) (k + 1) (arr.set k state)

/-- The method `States.Cleanup` of state.go: the new content of the store and
the returned count; `currentTime` is the reading of `time.Now()`. -/
def States.Cleanup (states : List State) (currentTime : Int) : List State × Int :=
  let statesBefore : Int := states.length
  let (k, arr) := cleanupLoop currentTime states.length 0 0 states
  let states1 := arr.take k
  (states1, statesBefore - states1.length)

/-- The method `States.Count` of state.go. -/
def States.Count (states : List State) : Int := states.length

/-- The method `States.GetStates` of state.go: a copy of the stored slice. -/
def States.GetStates (states : List State) : List State := states

/-- The method `States.SetStates` of state.go. -/
def States.SetStates (_old : List State) (states : List State) : List State := states

/-! ## registry.go: resetStates -/

/-- The loop of `resetStates`: `key` runs over the indices of the slice, which
is updated in place. -/
def resetStatesLoop : Nat → Nat → List State → List State
  | 0, _, states => states
  | n + 1, key, states =>
    match states[key]? with
    | none => states
    | some state =>
      let state := { state with Finished := true }
      let state := { state with TTL := -2 }
      resetStatesLoop n (key + 1) (states.set key state)

/-- The function `resetStates` of registry.go. -/
def resetStates (states : List State) : List State :=
  resetStatesLoop states.length 0 states

/-! ## registry.go: the registry file -/

/-- The largest `int64`. -/
def maxInt64 : Int := 9223372036854775807

/-- The smallest `int64`. -/
def minInt64 : Int := -9223372036854775808

/-- The largest `uint64`. -/
def maxUint64 : Int := 18446744073709551615

/-- The UTF-8 encoding of the code point `c`. -/
def utf8EncodeChar (c : Nat) : List Nat :=
  if c < 0x80 then [c]
  else if c < 0x800 then [0xC0 + c / 0x40, 0x80 + c % 0x40]
  else if c < 0x10000 then [0xE0 + c / 0x1000, 0x80 + c / 0x40 % 0x40, 0x80 + c % 0x40]
  else [0xF0 + c / 0x40000, 0x80 + c / 0x1000 % 0x40, 0x80 + c / 0x40 % 0x40, 0x80 + c % 0x40]

/-- The bytes of the Go string whose text is the given characters. -/
def goBytesOf : List Char → List Nat
  | [] => []
  | c :: rest => utf8EncodeChar c.toNat ++ goBytesOf rest

/-- The bytes of the Go string that a Lean `String` stands for.  A Go string
is any sequence of bytes; those that are not valid UTF-8 have no `String`. -/
def goBytes (s : String) : List Nat := goBytesOf s.data

/-- The function `utf8.DecodeRune`: the first code point of the bytes and its
width; a byte that starts no valid encoding gives `RuneError` (U+FFFD) with
the width 1. -/
def decodeRune : List Nat → Nat × Nat
  | [] => (0xFFFD, 0)
  | b0 :: rest =>
    if b0 < 0x80 then (b0, 1)
    else if 0xC2 ≤ b0 ∧ b0 ≤ 0xDF then
      match rest with
      | b1 :: _ =>
        if 0x80 ≤ b1 ∧ b1 ≤ 0xBF then ((b0 - 0xC0) * 0x40 + (b1 - 0x80), 2) else (0xFFFD, 1)
      | _ => (0xFFFD, 1)
    else if 0xE0 ≤ b0 ∧ b0 ≤ 0xEF then
      match rest with
      | b1 :: b2 :: _ =>
        if (if b0 = 0xE0 then 0xA0 else 0x80) ≤ b1 ∧ b1 ≤ (if b0 = 0xED then 0x9F else 0xBF) ∧
            0x80 ≤ b2 ∧ b2 ≤ 0xBF then
          ((b0 - 0xE0) * 0x1000 + (b1 - 0x80) * 0x40 + (b2 - 0x80), 3)
        else (0xFFFD, 1)
      | _ => (0xFFFD, 1)
    else if 0xF0 ≤ b0 ∧ b0 ≤ 0xF4 then
      match rest with
      | b1 :: b2 :: b3 :: _ =>
        if (if b0 = 0xF0 then 0x90 else 0x80) ≤ b1 ∧ b1 ≤ (if b0 = 0xF4 then 0x8F else 0xBF) ∧
            0x80 ≤ b2 ∧ b2 ≤ 0xBF ∧ 0x80 ≤ b3 ∧ b3 ≤ 0xBF then
          ((b0 - 0xF0) * 0x40000 + (b1 - 0x80) * 0x1000 + (b2 - 0x80) * 0x40 + (b3 - 0x80), 4)
        else (0xFFFD, 1)
      | _ => (0xFFFD, 1)
    else (0xFFFD, 1)

/-- The loop in which `encoding/json` writes a Go string: code point after
code point as `utf8.DecodeRune` finds them, a byte that is no valid UTF-8
written as U+FFFD. -/
def jsonTextLoop : Nat → List Nat → List Char
  | 0, _ => []
  | _ + 1, [] => []
  | fuel + 1, b0 :: rest =>
    Char.ofNat (decodeRune (b0 :: rest)).1 ::
      jsonTextLoop fuel ((b0 :: rest).drop (decodeRune (b0 :: rest)).2)

/-- The text of the JSON string that `encoding/json` writes for the Go string
with the given bytes. -/
def jsonText (bytes : List Nat) : String := String.mk (jsonTextLoop bytes.length bytes)

/-- A JSON document as `encoding/json` writes and reads it.  `str` holds the
text of a JSON string, `num` is a number written as an integer, `float` any
other number. -/
inductive Json where
  | null : Json
  | bool : Bool → Json
  | num : Int → Json
  | float : Json
  | str : String → Json
  | arr : List Json → Json
  | obj : List (String × Json) → Json

/-- Whether `Time.MarshalJSON` accepts the instant: its year is in [0, 9999]
(the bounds are those of the years in UTC). -/
def timeInRange (t : Int) : Bool :=
  decide (-62167219200000000000 ≤ t ∧ t < 253402300800000000000)

/-- What `encoding/json` writes for a `StateOS`, from the tags of its fields. -/
def encodeStateOS (fs : StateOS) : Json :=
  Json.obj [("inode", Json.num fs.Inode), ("device", Json.num fs.Device)]

/-- What `encoding/json` writes for a `State`, from the tags of its fields:
`Id`, `Finished` and `Fileinfo` are tagged `json:"-"` and are left out.
`format` is the RFC 3339 rendering of an instant by `Time.MarshalJSON`, of the
package `time`; an instant out of its range is an error, the `none`. -/
def encodeState (format : Int → String) (s : State) : Option Json :=
  if timeInRange s.Timestamp then
    some (Json.obj [("source", Json.str (jsonText (goBytes s.Source))),
      ("offset", Json.num s.Offset), ("timestamp", Json.str (format s.Timestamp)),
      ("ttl", Json.num s.TTL), ("type", Json.str (jsonText (goBytes s.Type_))),
      ("FileStateOS", encodeStateOS s.FileStateOS)])
  else none

/-- The elements of the array, encoded in order; the first error ends the encoding. -/
def encodeStateList (format : Int → String) : List State → Option (List Json)
  | [] => some []
  | s :: rest =>
    match encodeState format s, encodeStateList format rest with
    | some j, some l => some (j :: l)
    | _, _ => none

/-- The document `encoder.Encode(states)` writes in `writeRegistrar`, `none`
when it returns an error. -/
def encodeStates (format : Int → String) (states : List State) : Option Json :=
  (encodeStateList format states).map Json.arr

/-- The folding under which `encoding/json` compares an object key with the
name of a field when they are not equal: letters without regard to case, the
Kelvin sign as `k` and the long s as `s`. -/
def foldChar (c : Char) : Nat :=
  if 65 ≤ c.toNat ∧ c.toNat ≤ 90 then c.toNat + 32
  else if c.toNat = 0x212A then 107
  else if c.toNat = 0x17F then 115
  else c.toNat

/-- Whether the object key `key` is for the field with the name `name`. -/
def keyMatches (name key : String) : Bool :=
  key.data.map foldChar == name.data.map foldChar

/-- Decoding into an `int64` field: `null` leaves the field as it is, an
integer in the range of `int64` sets it, anything else is an error. -/
def decodeInt (old : Int) : Json → Option Int
  | Json.null => some old
  | Json.num n => if minInt64 ≤ n ∧ n ≤ maxInt64 then some n else none
  | _ => none

/-- Decoding into a `uint64` field: as `decodeInt`, with the range of `uint64`. -/
def decodeUint (old : Nat) : Json → Option Nat
  | Json.null => some old
  | Json.num n => if 0 ≤ n ∧ n ≤ maxUint64 then some n.toNat else none
  | _ => none

/-- Decoding into a `string` field. -/
def decodeString (old : String) : Json → Option String
  | Json.null => some old
  | Json.str s => some s
  | _ => none

/-- Decoding into a `time.Time` field: `parse` is the parsing of an RFC 3339
text by `Time.UnmarshalJSON`, `none` when it returns an error. -/
def decodeTime (parse : String → Option Int) (old : Int) : Json → Option Int
  | Json.null => some old
  | Json.str s => parse s
  | _ => none

/-- The members of an object decoded into a value one after the other, in the
order of the document; the first error ends the decoding. -/
def decodeMembers {α : Type} (member : α → String → Json → Option α) :
    α → List (String × Json) → Option α
  | a, [] => some a
  | a, (key, v) :: rest =>
    match member a key v with
    | none => none
    | some a1 => decodeMembers member a1 rest

/-- One member of an object decoded into a `StateOS`; a key that is for no
field is skipped. -/
def decodeStateOSMember (fs : StateOS) (key : String) (v : Json) : Option StateOS :=
  if keyMatches "inode" key then (decodeUint fs.Inode v).map (fun n => { fs with Inode := n })
  else if keyMatches "device" key then
    (decodeUint fs.Device v).map (fun n => { fs with Device := n })
  else some fs

/-- Decoding into a `StateOS` field. -/
def decodeStateOS (old : StateOS) : Json → Option StateOS
  | Json.null => some old
  | Json.obj members => decodeMembers decodeStateOSMember old members
  | _ => none

/-- One member of an object decoded into a `State`; the fields tagged
`json:"-"` have no key. -/
def decodeStateMember (parse : String → Option Int) (s : State) (key : String) (v : Json) :
    Option State :=
  if keyMatches "source" key then (decodeString s.Source v).map (fun x => { s with Source := x })
  else if keyMatches "offset" key then
    (decodeInt s.Offset v).map (fun x => { s with Offset := x })
  else if keyMatches "timestamp" key then
    (decodeTime parse s.Timestamp v).map (fun x => { s with Timestamp := x })
  else if keyMatches "ttl" key then (decodeInt s.TTL v).map (fun x => { s with TTL := x })
  else if keyMatches "type" key then (decodeString s.Type_ v).map (fun x => { s with Type_ := x })
  else if keyMatches "FileStateOS" key then
    (decodeStateOS s.FileStateOS v).map (fun x => { s with FileStateOS := x })
  else some s

/-- Decoding one element of the array into a fresh `State`: the fields tagged
`json:"-"` keep their zero values. -/
def decodeState (parse : String → Option Int) : Json → Option State
  | Json.null => some State.zero
  | Json.obj members => decodeMembers (decodeStateMember parse) State.zero members
  | _ => none

/-- The elements of the array, decoded in order; the first error ends the decoding. -/
def decodeStateList (parse : String → Option Int) : List Json → Option (List State)
  | [] => some []
  | j :: rest =>
    match decodeState parse j, decodeStateList parse rest with
    | some s, some l => some (s :: l)
    | _, _ => none

/-- The call `decoder.Decode(&states)` of `loadStates`, with `states` an empty slice. -/
def decodeStates (parse : String → Option Int) : Json → Option (List State)
  | Json.null => some []
  | Json.arr elems => decodeStateList parse elems
  | _ => none

/-- The method `Registrar.loadStates` after the file was opened: the new store,
or `none` for `Error decoding states`. -/
def loadStates (parse : String → Option Int) (doc : Json) : Option (List State) :=
  match decodeStates parse doc with
  | none => none
  | some states => some (States.SetStates [] (resetStates states))

/-- The files of a directory: the content of each path that exists. -/
abbrev FileSystem := String → Option (List Nat)

/-- The file operations `writeRegistrar` performs. -/
inductive FsStep where
  /-- The call `os.OpenFile(path, O_RDWR|O_CREATE|O_TRUNC|O_SYNC, 0600)`. -/
  | openTrunc (path : String)
  /-- One write of `data` at the end of the file opened at `path`. -/
  | write (path : String) (data : List Nat)
  /-- The call `f.Close()`. -/
  | close (path : String)
  /-- The call `os.Rename(oldpath, newpath)` of `SafeFileRotate`. -/
  | rename (oldpath newpath : String)

/-- The effect of one file operation on the file system. -/
def FsStep.apply (fs : FileSystem) : FsStep → FileSystem
  | FsStep.openTrunc path => fun p => if p = path then some [] else fs p
  | FsStep.write path data => fun p =>
      if p = path then some ((fs path).getD [] ++ data) else fs p
  | FsStep.close _ => fs
  | FsStep.rename oldpath newpath =>
      match fs oldpath with
      | none => fs
      | some content => fun p =>
          if p = newpath then some content else if p = oldpath then none else fs p

/-- The effect of a sequence of file operations. -/
def runSteps (fs : FileSystem) (steps : List FsStep) : FileSystem :=
  steps.foldl FsStep.apply fs

/-- The file operations of a successful `Registrar.writeRegistrar`, in order:
`chunks` are the pieces in which the encoded states reach the file. -/
def writeRegistrarSteps (registrarFile : String) (chunks : List (List Nat)) : List FsStep :=
  let tempfile := registrarFile ++ ".new"
  [FsStep.openTrunc tempfile] ++ chunks.map (FsStep.write tempfile) ++
    [FsStep.close tempfile] ++ [FsStep.rename tempfile registrarFile]

/-! ## maps/interface.go -/

mutual
/-- A value stored in a `maps.StringIf`, as far as the engine stores one: a Go
string that is a path or tag, a Go string that is message text, an integer, or
a nested map. -/
inductive Value where
  | str : String → Value
  | text : List Nat → Value
  | int : Int → Value
  | map : StringIf → Value
/-- The type `maps.StringIf`: the entries of the map, each key once. -/
inductive StringIf where
  | nil : StringIf
  | cons (key : String) (value : Value) (rest : StringIf) : StringIf
end

/-- The number of entries, `len(m)`. -/
def StringIf.len : StringIf → Nat
  | StringIf.nil => 0
  | StringIf.cons _ _ rest => rest.len + 1

/-- The lookup `m[k]`. -/
def StringIf.get : StringIf → String → Option Value
  | StringIf.nil, _ => none
  | StringIf.cons k1 v1 rest, k => if k1 == k then some v1 else rest.get k

/-- The assignment `m[k] = v`. -/
def StringIf.put : StringIf → String → Value → StringIf
  | StringIf.nil, k, v => StringIf.cons k v StringIf.nil
  | StringIf.cons k1 v1 rest, k, v =>
    if k1 == k then StringIf.cons k v rest else StringIf.cons k1 v1 (rest.put k v)

/-- The method `StringIf.DeepUpdate` of maps/interface.go, with its call of
`deepUpdateValue` written out. -/
def DeepUpdate (m : StringIf) : StringIf → StringIf
  | StringIf.nil => m
  | StringIf.cons k (Value.map val) d =>
    DeepUpdate (m.put k
      (match m.get k with
       | some (Value.map sub) => Value.map (DeepUpdate sub val)
       | _ => Value.map val)) d
  | StringIf.cons k v d => DeepUpdate (m.put k v) d

/-- The function `deepUpdateValue` of maps/interface.go. -/
def deepUpdateValue (old : Option Value) (val : StringIf) : Value :=
  match old with
  | some (Value.map sub) => Value.map (DeepUpdate sub val)
  | _ => Value.map val

/-! ## log/reader -/

/-- The errors a reader hands on: those declared in scanner.go, `io.EOF`, the
errors of `bufio.Scanner`, the timeout signal of reader/multiline.go, and any
other error. -/
inductive ReadError where
  | ErrFileTruncate
  | ErrRenamed
  | ErrRemoved
  | ErrInactive
  | ErrClosed
  | EOF
  | ErrTooLong
  | ErrNoProgress
  | sigMultilineTimeout
  | other (msg : String)
  deriving DecidableEq, Repr

/-- The struct `Message` of reader/message.go. -/
structure Message where
  Ts : Int
  Content : List Nat
  Bytes : Int
  Fields : StringIf

/-- The method `Message.IsEmpty` of reader/message.go. -/
def Message.IsEmpty (m : Message) : Bool :=
  if m.Bytes == 0 then true
  else if m.Content.length == 0 && m.Fields.len == 0 then true
  else false

/-- The outcome of a call of `Reader.Next`: a message with an error value and
the reader afterwards, or a call that has not returned, or a panic. -/
inductive NextResult (σ : Type) where
  | msg (message : Message) (err : Option ReadError) (reader : σ)
  | blocked
  | panic

/-- The constant `bufio.MaxScanTokenSize`. -/
def maxScanTokenSize : Nat := 65536

/-- The constant `maxConsecutiveEmptyReads` of `bufio`. -/
def maxConsecutiveEmptyReads : Nat := 100

/-- The function `dropCR` of `bufio`: a trailing `\r` is dropped. -/
def dropCR (data : List Nat) : List Nat :=
  if data.getLast? = some 13 then data.dropLast else data

/-- The split function `bufio.ScanLines`: how far to advance, and the token if
there is one. -/
def scanLines (data : List Nat) (atEOF : Bool) : Nat × Option (List Nat) :=
  if atEOF && data.length == 0 then (0, none)
  else
    let i := data.indexOf 10
    if i < data.length then (i + 1, some (dropCR (data.take i)))
    else if atEOF then (data.length, some (dropCR data))
    else (0, none)

/-- The struct `Line` of reader/line.go, a `bufio.Scanner` over the file reader.
`reads` are the results the coming calls of the underlying `Read` return (the
bytes read and the error), each fitting the buffer space it is read into;
`buf` holds the bytes read and not yet consumed; `err` is the sticky error. -/
structure Line where
  reads : List (List Nat × Option ReadError)
  buf : List Nat
  err : Option ReadError

/-- The loop of `bufio.Scanner.Scan`, with `ScanLines` as split function: the
token if `Scan` returns true, and the scanner afterwards; `none` when the
underlying `Read` has not returned.  `loop` counts the empty reads in a row. -/
def scanLoop : List (List Nat × Option ReadError) → List Nat → Option ReadError → Nat →
    Option (Option (List Nat) × Line)
  | reads, buf, err, loop =>
    match (if buf.length > 0 || err.isSome then scanLines buf err.isSome else (0, none)) with
    | (advance, some token) =>
      some (some token, { reads := reads, buf := buf.drop advance, err := err })
    | (_, none) =>
      if err.isSome then some (none, { reads := reads, buf := [], err := err })
      else if buf.length ≥ maxScanTokenSize then
        some (none, { reads := reads, buf := buf, err := some ReadError.ErrTooLong })
      else
        match reads with
        | [] => none
        | (data, some e) :: rest => scanLoop rest (buf ++ data) (some e) 0
        | (data, none) :: rest =>
          if data.length > 0 then scanLoop rest (buf ++ data) none 0
          else if loop + 1 > maxConsecutiveEmptyReads then
            scanLoop rest buf (some ReadError.ErrNoProgress) 0
          else scanLoop rest buf none (loop + 1)

/-- The method `bufio.Scanner.Scan`. -/
def Line.Scan (l : Line) : Option (Option (List Nat) × Line) :=
  scanLoop l.reads l.buf l.err 0

/-- The method `bufio.Scanner.Err`: `io.EOF` is not reported. -/
def Line.Err (l : Line) : Option ReadError :=
  if l.err = some ReadError.EOF then none else l.err

/-- The method `Line.Next` of reader/line.go: content, size and error, and the
reader afterwards; `none` when the underlying `Read` has not returned. -/
def Line.Next (l : Line) : Option ((List Nat × Int × Option ReadError) × Line) :=
  match l.Scan with
  | none => none
  | some (some token, l1) =>
    if l1.Err = none then some ((token, (token.length : Int), none), l1)
    else some (([], 0, l1.Err), l1)
  | some (none, l1) => some (([], 0, l1.Err), l1)

/-- The struct `Encode` of reader/encode.go; `clock` holds the coming readings
of `time.Now()`. -/
structure Encode where
  reader : Line
  clock : Nat → Int
  calls : Nat

/-- The method `Encode.Next` of reader/encode.go. -/
def Encode.Next (e : Encode) : NextResult Encode :=
  match e.reader.Next with
  | none => NextResult.blocked
  | some ((c, sz, err), l1) =>
    NextResult.msg { Ts := e.clock e.calls, Content := c, Bytes := sz, Fields := StringIf.nil } err
      { e with reader := l1, calls := e.calls + 1 }

/-- The function `isLine` of reader/strip_newline.go. -/
def isLine (l : List Nat) : Bool :=
  l.length > 0 && l.getLast? == some 10

/-- The function `lineEndingChars` of reader/strip_newline.go. -/
def lineEndingChars (l : List Nat) : Nat :=
  if !isLine l then 0
  else if l.length > 1 && l[l.length - 2]? == some 13 then 2
  else 1

/-- The method `StripNewline.Next` of reader/strip_newline.go, over the reader
with step function `next`. -/
def StripNewline.Next {σ : Type} (next : σ → NextResult σ) (p : σ) : NextResult σ :=
  match next p with
  | NextResult.msg message (some err) p1 => NextResult.msg message (some err) p1
  | NextResult.msg message none p1 =>
    let L := message.Content
    NextResult.msg { message with Content := L.take (L.length - lineEndingChars L) } none p1
  | NextResult.blocked => NextResult.blocked
  | NextResult.panic => NextResult.panic

/-- The method `Limit.Next` of reader/limit.go, over the reader with step
function `next`; slicing with a negative bound panics. -/
def Limit.Next {σ : Type} (next : σ → NextResult σ) (maxBytes : Int) (p : σ) : NextResult σ :=
  match next p with
  | NextResult.msg message err p1 =>
    if (message.Content.length : Int) > maxBytes then
      if maxBytes < 0 then NextResult.panic
      else NextResult.msg { message with Content := message.Content.take maxBytes.toNat } err p1
    else NextResult.msg message err p1
  | NextResult.blocked => NextResult.blocked
  | NextResult.panic => NextResult.panic

/-- The reader `newLogFileReader` builds when neither JSON decoding nor
multiline is configured: `NewLimit(NewStripNewline(NewEncode(log)), maxBytes)`. -/
def plainReaderNext (maxBytes : Int) : Encode → NextResult Encode :=
  Limit.Next (StripNewline.Next Encode.Next) maxBytes

/-! ## log/scanner.go -/

/-- The struct `event.Event`, with the fields the worker sets; `Fields` is
`none` for a nil map. -/
structure Event where
  Topic : String
  Timestamp : Int
  Fields : Option StringIf

/-- The zero value `event.Event{}`. -/
def Event.zero : Event := { Topic := "", Timestamp := 0, Fields := none }

/-- The struct `Data` of data.go. -/
structure Data where
  Event : Event
  state : State

/-- The function `NewData` of data.go. -/
def NewData : Data := { Event := Event.zero, state := State.zero }

/-- The source a worker reads, as far as the worker uses it: the answer of its
method `HasState`, and whether `Close` was called on it. -/
structure Source where
  HasState : Bool
  closed : Bool

/-- The configuration values `Run` reads; a line matcher is the predicate its
`MatchString` computes. -/
structure Config where
  Name : String
  IncludeLines : List (List Nat → Bool)
  ExcludeLines : List (List Nat → Bool)

/-- What a worker does to the shared store, the publisher and its source, in
the order it does it. -/
inductive Action where
  | update (s : State)
  | publish (e : Event) (ok : Bool)
  | close

/-- The struct `Scanner` of scanner.go with the reader state `reader`, together
with the shared store `states` it points to, the number of `time.Now()`
readings and of `Publish` calls made so far, and the record of its actions. -/
structure Scanner (σ : Type) where
  config : Config
  source : Option Source
  state : State
  states : List State
  reader : σ
  clockReads : Nat
  publishCalls : Nat
  trace : List Action

/-- The surroundings of a worker: the step function of its reader, the outcome
of the n-th `Publish` call, the n-th reading of `time.Now()`, and whether the
n-th `select` on `w.done` finds the channel closed. -/
structure Env (σ : Type) where
  next : σ → NextResult σ
  publish : Nat → Event → Bool
  clock : Nat → Int
  done : Nat → Bool

/-- How far a call of `Run` got: it returned, it is still running (it waits in
the reader or has iterations left to do), or it panicked. -/
inductive Outcome where
  | returned
  | running
  | panicked
  deriving DecidableEq, Repr

/-- The function `MatchAny` of util.go. -/
def MatchAny (matcherList : List (List Nat → Bool)) (text : List Nat) : Bool :=
  matcherList.any (fun m => m text)

/-- The method `Scanner.shouldExportLine` of scanner.go. -/
def shouldExportLine (config : Config) (line : List Nat) : Bool :=
  if config.IncludeLines.length > 0 && !MatchAny config.IncludeLines line then false
  else if config.ExcludeLines.length > 0 && MatchAny config.ExcludeLines line then false
  else true

/-- Leading byte order marks removed. -/
def trimLeftBOM : List Nat → List Nat
  | 239 :: 187 :: 191 :: rest => trimLeftBOM rest
  | l => l

/-- Leading byte order marks removed from a reversed sequence. -/
def trimLeftBOMRev : List Nat → List Nat
  | 191 :: 187 :: 239 :: rest => trimLeftBOMRev rest
  | l => l

/-- The call `bytes.Trim(content, "\xef\xbb\xbf")`: the cutset is the one rune
U+FEFF, whose occurrences at both ends are removed. -/
def trimBOM (content : List Nat) : List Nat :=
  trimLeftBOM (trimLeftBOMRev content.reverse).reverse

/-- The method `Scanner.getState` of scanner.go; `none` when `GetOSState` is
called on a nil `Fileinfo`, which panics. -/
def getState (hasState : Bool) (state : State) : Option State :=
  if !hasState then some State.zero
  else
    match state.Fileinfo with
    | none => none
    | some info => some { state with FileStateOS := GetOSState info }

/-- The method `Scanner.sendEvent` of scanner.go. -/
def sendEvent {σ : Type} (env : Env σ) (hasState : Bool) (s : Scanner σ) (data : Data) :
    Bool × Scanner σ :=
  let s1 :=
    if hasState then
      { s with states := States.Update s.states data.state (env.clock s.clockReads),
               clockReads := s.clockReads + 1,
               trace := s.trace ++ [Action.update data.state] }
    else s
  let ok := env.publish s1.publishCalls data.Event
  (ok, { s1 with publishCalls := s1.publishCalls + 1,
                 trace := s1.trace ++ [Action.publish data.Event ok] })

/-- The method `Scanner.SendStateUpdate` of scanner.go. -/
def SendStateUpdate {σ : Type} (env : Env σ) (hasState : Bool) (s : Scanner σ) : Scanner σ :=
  if !hasState then s
  else
    { s with states := States.Update s.states s.state (env.clock s.clockReads),
             clockReads := s.clockReads + 1,
             trace := s.trace ++ [Action.update s.state] }

/-- The method `Scanner.cleanup` of scanner.go. -/
def cleanup {σ : Type} (env : Env σ) (s : Scanner σ) : Scanner σ :=
  let s1 := { s with state := { s.state with Finished := true } }
  match s1.source with
  | some src =>
    let s2 := { s1 with source := some { src with closed := true },
                        trace := s1.trace ++ [Action.close] }
    SendStateUpdate env src.HasState s2
  | none => s1

/-- The lines of `Scanner.Run` that strip the byte order mark from the first
message of a file. -/
def trimFirst (offset : Int) (message : Message) : Message :=
  if offset == 0 then { message with Content := trimBOM message.Content } else message

/-- The lines of `Scanner.Run` that build the data to send for a message:
`state` is the new state, with the offset advanced. -/
def buildData (config : Config) (hasState : Bool) (state : State) (message : Message) : Data :=
  let data := if hasState then { NewData with state := state } else NewData
  let text := message.Content
  if !message.IsEmpty && shouldExportLine config text then
    let fields : StringIf :=
      StringIf.cons "source" (Value.str state.Source)
        (StringIf.cons "offset" (Value.int state.Offset) StringIf.nil)
    let fields := DeepUpdate fields message.Fields
    let fields := fields.put "message" (Value.text text)
    { data with Event := { Topic := config.Name, Timestamp := message.Ts,
                           Fields := some fields } }
  else data

/-- The body of one iteration of the `for` loop of `Scanner.Run` after the
reader returned `message` without error: `none` when the loop goes on with the
scanner given, else how `Run` ends. -/
def runMessage {σ : Type} (env : Env σ) (w : Scanner σ) (message : Message) :
    Option Outcome × Scanner σ :=
  match w.source with
  | none => (some Outcome.panicked, w)
  | some src =>
    let message := trimFirst w.state.Offset message
    match getState src.HasState w.state with
    | none => (some Outcome.panicked, w)
    | some state0 =>
      let state := { state0 with Offset := state0.Offset + message.Bytes }
      let data := buildData w.config src.HasState state message
      match sendEvent env src.HasState w data with
      | (false, w1) => (some Outcome.returned, w1)
      | (true, w1) => (none, { w1 with state := state })

/-- The `for` loop of `Scanner.Run`: the first argument bounds the number of
iterations followed, `check` numbers the `select` on `w.done`. -/
def runLoop {σ : Type} (env : Env σ) : Nat → Nat → Scanner σ → Outcome × Scanner σ
  | 0, _, w => (Outcome.running, w)
  | fuel + 1, check, w =>
    if env.done check then (Outcome.returned, w)
    else
      match env.next w.reader with
      | NextResult.blocked => (Outcome.running, w)
      | NextResult.panic => (Outcome.panicked, w)
      | NextResult.msg _ (some err) reader =>
        let w1 := { w with reader := reader }
        if err = ReadError.ErrFileTruncate then
          (Outcome.returned, { w1 with state := { w1.state with Offset := 0 } })
        else (Outcome.returned, w1)
      | NextResult.msg message none reader =>
        match runMessage env { w with reader := reader } message with
        | (some outcome, w1) => (outcome, w1)
        | (none, w1) => runLoop env fuel (check + 1) w1

/-- The method `Scanner.Run` of scanner.go, followed for at most `fuel`
iterations of its loop.  When the first `select` finds `w.done` closed it
returns at once; else the deferred function, which calls `cleanup`, runs when
the loop returns or panics. -/
def Scanner.Run {σ : Type} (env : Env σ) (fuel : Nat) (w : Scanner σ) : Outcome × Scanner σ :=
  if env.done 0 then (Outcome.returned, w)
  else
    match runLoop env fuel 1 w with
    | (Outcome.running, w1) => (Outcome.running, w1)
    | (outcome, w1) => (outcome, cleanup env w1)

/-- The events with fields handed to the publisher, in order, each with the
outcome of its `Publish` call. -/
def publishedEvents : List Action → List (Event × Bool)
  | [] => []
  | Action.publish e ok :: rest =>
    if e.Fields.isSome then (e, ok) :: publishedEvents rest else publishedEvents rest
  | _ :: rest => publishedEvents rest

/-- The field `message` of an event, when it is message text. -/
def Event.message (e : Event) : Option (List Nat) :=
  match e.Fields with
  | none => none
  | some fields =>
    match fields.get "message" with
    | some (Value.text t) => some t
    | _ => none

/-- The field `offset` of an event, when it is an integer. -/
def Event.offset (e : Event) : Option Int :=
  match e.Fields with
  | none => none
  | some fields =>
    match fields.get "offset" with
    | some (Value.int n) => some n
    | _ => none

/-! ## log/log.go -/

/-- The struct `backOffConfig` of config.go; `Factor` is an `int`. -/
structure backOffConfig where
  Min : Int
  Max : Int
  Factor : Int
  deriving DecidableEq, Repr

/-- The struct `closeConfig` of config.go. -/
structure closeConfig where
  Inactive : Int
  Removed : Bool
  Renamed : Bool
  EOF : Bool
  Timeout : Int
  deriving DecidableEq, Repr

/-- The struct `LogConfig` of config.go, with the close settings of its
`Scanner` field. -/
structure LogConfig where
  BackOff : backOffConfig
  Close : closeConfig
  deriving DecidableEq, Repr

/-- The struct `Log` of log.go without its source and its `done` channel. -/
structure Log where
  offset : Int
  config : LogConfig
  lastTimeRead : Int
  backoff : Int
  deriving DecidableEq, Repr

/-- The function `NewLog` of log.go for a source that is at `offset`; `now` is
the reading of `time.Now()`. -/
def NewLog (offset : Int) (config : LogConfig) (now : Int) : Log :=
  { offset := offset, config := config, lastTimeRead := now, backoff := config.BackOff.Max }

/-- What `errorChecks` finds when it looks at the source: whether the source is
continuable, the result of `f.fs.Stat()`, the reading of the clock, whether
`IsSameFile(f.fs.Name(), info)` holds, and whether `os.Stat(f.fs.Name())`
succeeds. -/
structure FileProbe where
  continuable : Bool
  stat : Except ReadError FileInfo
  now : Int
  sameFile : Bool
  pathExists : Bool

/-- The method `Log.errorChecks` of log.go: the error it returns, `none` for nil. -/
def Log.errorChecks (f : Log) (probe : FileProbe) (err : ReadError) : Option ReadError :=
  if err ≠ ReadError.EOF then some err
  else if !probe.continuable then some err
  else if f.config.Close.EOF then some err
  else
    match probe.stat with
    | Except.error statErr => some statErr
    | Except.ok info =>
      if info.Size < f.offset then some ReadError.ErrFileTruncate
      else if timeSub probe.now f.lastTimeRead > f.config.Close.Inactive then
        some ReadError.ErrInactive
      else if f.config.Close.Renamed && !probe.sameFile then some ReadError.ErrRenamed
      else if f.config.Close.Removed && !probe.pathExists then some ReadError.ErrRemoved
      else none

/-- A product of two `time.Duration` values: the low 64 bits, as a signed number. -/
def mulDuration (a b : Int) : Int :=
  (a * b + 9223372036854775808) % 18446744073709551616 - 9223372036854775808

/-- The method `Log.wait` of log.go: the duration slept and the reader
afterwards; when `f.done` fires first nothing is slept and the backoff stays. -/
def Log.wait (f : Log) (cancelled : Bool) : Option Int × Log :=
  if cancelled then (none, f)
  else
    let slept := f.backoff
    if f.backoff < f.config.BackOff.Max then
      let b := mulDuration f.backoff f.config.BackOff.Factor
      if b > f.config.BackOff.Max then (some slept, { f with backoff := f.config.BackOff.Max })
      else (some slept, { f with backoff := b })
    else (some slept, f)

/-- What one iteration of the loop of `Log.Read` meets: whether `f.done` is
closed at its start, the bytes `f.fs.Read` stores and its error, the reading of
the clock after the read, what `errorChecks` finds, and whether `f.done` fires
during the wait. -/
structure ReadStep where
  doneClosed : Bool
  data : List Nat
  err : Option ReadError
  now : Int
  probe : FileProbe
  waitCancelled : Bool

/-- The result of a call of `Log.Read`: the count and the error it returns, the
bytes stored in the buffer, the durations slept on the way, and the reader
afterwards. -/
structure ReadResult where
  n : Int
  err : Option ReadError
  stored : List Nat
  slept : List Int
  log : Log

/-- The loop of `Log.Read`: `space` is `len(buf)`, `stored` the bytes read so
far (`totalN` is their number), `slept` the durations slept so far; `none` when
the steps end before the call returns. -/
def readLoop : List ReadStep → Log → Nat → List Nat → List Int → Option ReadResult
  | [], _, _, _, _ => none
  | step :: rest, f, space, stored, slept =>
    if step.doneClosed then
      some { n := 0, err := some ReadError.ErrClosed, stored := stored, slept := slept, log := f }
    else
      let data := step.data.take space
      let f1 := if data.length > 0 then
          { f with offset := f.offset + data.length, lastTimeRead := step.now } else f
      let stored1 := stored ++ data
      match step.err with
      | none =>
        some { n := stored1.length, err := none, stored := stored1, slept := slept,
               log := { f1 with backoff := f1.config.BackOff.Min } }
      | some e =>
        let space1 := space - data.length
        match f1.errorChecks step.probe e with
        | some e1 =>
          some { n := stored1.length, err := some e1, stored := stored1, slept := slept, log := f1 }
        | none =>
          if space1 = 0 then
            some { n := stored1.length, err := none, stored := stored1, slept := slept, log := f1 }
          else
            match f1.wait step.waitCancelled with
            | (some d, f2) => readLoop rest f2 space1 stored1 (slept ++ [d])
            | (none, f2) => readLoop rest f2 space1 stored1 slept

/-- The method `Log.Read` of log.go on a buffer of `space` bytes. -/
def Log.Read (f : Log) (space : Nat) (steps : List ReadStep) : Option ReadResult :=
  readLoop steps f space [] []

/-! ## log/collector.go -/

/-- The configuration values a scan of the collector reads: `Type`,
`Ignore.Older`, `State.Clean.Inactive`, `State.Clean.Removed` and
`Scanner.Limit`. -/
structure CollectorConfig where
  Type_ : String
  IgnoreOlder : Int
  CleanInactive : Int
  CleanRemoved : Bool
  ScannerLimit : Nat

/-- A call the scan makes to start a worker or to record a state. -/
inductive CollectorCall where
  | startScanner (state : State) (offset : Int)
  | updateState (state : State)
  deriving DecidableEq, Repr

/-- The struct `Collector` of collector.go as far as a scan uses it: its
configuration and its store, together with the states of the workers handed
to the executor, the number of `time.Now()` readings made so far, and the
record of its calls of `startScanner` and `updateState`. -/
structure Collector where
  config : CollectorConfig
  states : List State
  started : List State
  clockReads : Nat
  calls : List CollectorCall

/-- The surroundings of a scan: the n-th reading of `time.Now()`, whether
`Setup` succeeds for a worker on a state, the number of tasks of the executor,
and whether the executor is active. -/
structure CollectorEnv where
  clock : Nat → Int
  setupOk : State → Bool
  running : Nat
  active : Bool

/-- The method `Collector.updateState` of collector.go. -/
def Collector.updateState (c : Collector) (env : CollectorEnv) (state : State) : Collector :=
  let state1 :=
    if c.config.CleanInactive > 0 && state.TTL != 0 then
      { state with TTL := c.config.CleanInactive } else state
  { c with states := States.Update c.states state1 (env.clock c.clockReads),
           clockReads := c.clockReads + 1,
           calls := c.calls ++ [CollectorCall.updateState state] }

/-- The method `Collector.startScanner` of collector.go, with `NewScanner`,
`Setup` (which leaves the offset the file was positioned at in the state) and
`SendStateUpdate` for a source that has state. -/
def Collector.startScanner (c : Collector) (env : CollectorEnv) (state : State) (offset : Int) :
    Collector :=
  let c1 := { c with calls := c.calls ++ [CollectorCall.startScanner state offset] }
  if c.config.ScannerLimit > 0 && env.running ≥ c.config.ScannerLimit then c1
  else
    let state1 := { state with Finished := false, Offset := offset }
    let state2 :=
      if c.config.CleanInactive > 0 then { state1 with TTL := c.config.CleanInactive }
      else state1
    if !env.setupOk state2 then c1
    else
      let state3 := { state2 with Offset := if state2.Offset > 0 then state2.Offset else 0 }
      { c1 with states := States.Update c1.states state3 (env.clock c1.clockReads),
                clockReads := c1.clockReads + 1,
                started := if env.active then c1.started ++ [state3] else c1.started }

/-- The method `Collector.rescan` of collector.go; `none` when `newState` has no
file info, on which `Size()` panics. -/
def Collector.rescan (c : Collector) (env : CollectorEnv) (newState oldState : State) :
    Option Collector :=
  match newState.Fileinfo with
  | none => none
  | some info =>
    if oldState.Finished && decide (info.Size > oldState.Offset) then
      some (c.startScanner env newState oldState.Offset)
    else if oldState.Finished && decide (info.Size < oldState.Offset) then
      some (c.startScanner env newState 0)
    else if oldState.Source != "" && oldState.Source != newState.Source then
      if oldState.Finished then
        some (c.updateState env { oldState with Source := newState.Source })
      else some c
    else some c

/-- The method `Collector.isIgnoreOlder` of collector.go; `now` is the reading
of the clock in `time.Since`.  `none` when the state has no file info. -/
def Collector.isIgnoreOlder (c : Collector) (state : State) (now : Int) : Option Bool :=
  if c.config.IgnoreOlder == 0 then some false
  else
    match state.Fileinfo with
    | none => none
    | some info => some (decide (timeSub now info.ModTime > c.config.IgnoreOlder))

/-- The method `Collector.isCleanInactive` of collector.go. -/
def Collector.isCleanInactive (c : Collector) (state : State) (now : Int) : Option Bool :=
  if c.config.CleanInactive ≤ 0 then some false
  else
    match state.Fileinfo with
    | none => none
    | some info => some (decide (timeSub now info.ModTime > c.config.CleanInactive))

/-- The method `Collector.handleIgnoreOlder` of collector.go. -/
def Collector.handleIgnoreOlder (c : Collector) (env : CollectorEnv) (lastState newState : State) :
    Option Collector :=
  if !lastState.IsEmpty then some c
  else
    match c.isCleanInactive newState (env.clock c.clockReads), newState.Fileinfo with
    | some true, _ => some { c with clockReads := c.clockReads + 1 }
    | some false, some info =>
      let c1 := if c.config.CleanInactive ≤ 0 then c else { c with clockReads := c.clockReads + 1 }
      some (c1.updateState env { newState with Offset := info.Size, Finished := true })
    | _, _ => none

/-- The body of the loop of `Collector.visitor` for one file found at the
absolute path `path` with the file info `info`. -/
def Collector.visitFile (c : Collector) (env : CollectorEnv) (path : String) (info : FileInfo) :
    Option Collector :=
  let newState := NewState info path c.config.Type_ (env.clock c.clockReads)
  let c1 := { c with clockReads := c.clockReads + 1 }
  let lastState := States.FindPrevious c1.states newState
  match c1.isIgnoreOlder newState (env.clock c1.clockReads) with
  | none => none
  | some true =>
    Collector.handleIgnoreOlder { c1 with clockReads := c1.clockReads + 1 } env lastState newState
  | some false =>
    let c2 := if c1.config.IgnoreOlder == 0 then c1 else { c1 with clockReads := c1.clockReads + 1 }
    if lastState.IsEmpty then some (c2.startScanner env newState 0)
    else c2.rescan env newState lastState

/-! ## log/reader/multiline.go -/

/-- The zero value `Message{}`. -/
def Message.zero : Message := { Ts := 0, Content := [], Bytes := 0, Fields := StringIf.nil }

/-- The method `StringIf.Update` of maps/interface.go. -/
def StringIf.Update (m : StringIf) : StringIf → StringIf
  | StringIf.nil => m
  | StringIf.cons k v d => StringIf.Update (m.put k v) d

/-- The method `Message.AddFields` of reader/message.go. -/
def Message.AddFields (msg : Message) (fields : StringIf) : Message :=
  { msg with Fields := msg.Fields.Update fields }

/-- The three functions the field `state` of a `Multiline` can hold. -/
inductive MultilineState where
  | readFirst
  | readNext
  | readFailed
  deriving DecidableEq, Repr

/-- The struct `Multiline` of reader/multiline.go over an upstream reader with
state `reader`; a matcher is the predicate it computes. -/
structure Multiline (σ : Type) where
  reader : σ
  pred : List Nat → List Nat → Bool
  flushMatcher : Option (List Nat → Bool)
  maxBytes : Int
  maxLines : Int
  separator : List Nat
  last : List Nat
  numLines : Int
  err : Option ReadError
  state : MultilineState
  message : Message

/-- The function `afterMatcher` of reader/multiline.go. -/
def afterMatcher (pat : List Nat → Bool) : List Nat → List Nat → Bool :=
  fun _ current => pat current

/-- The function `beforeMatcher` of reader/multiline.go. -/
def beforeMatcher (pat : List Nat → Bool) : List Nat → List Nat → Bool :=
  fun last _ => pat last

/-- The function `negatedMatcher` of reader/multiline.go. -/
def negatedMatcher (m : List Nat → List Nat → Bool) : List Nat → List Nat → Bool :=
  fun last current => !m last current

/-- The struct `MultilineConfig` that `NewMultiLine` reads. -/
structure MultilineConfig where
  Negate : Bool
  Match : String
  MaxLines : Option Int
  Pattern : List Nat → Bool
  Timeout : Option Int
  FlushPattern : Option (List Nat → Bool)

/-- The constant `defaultMaxLines` of reader/multiline.go. -/
def defaultMaxLines : Int := 500

/-- The function `NewMultiLine` of reader/multiline.go; `none` when it returns
an error.  `reader` is the upstream reader, already wrapped by `NewTimeout`
when the timeout is positive. -/
def NewMultiLine {σ : Type} (reader : σ) (separator : List Nat) (maxBytes : Int)
    (config : MultilineConfig) : Option (Multiline σ) :=
  let matcherType : Option ((List Nat → Bool) → List Nat → List Nat → Bool) :=
    if config.Match = "before" then some beforeMatcher
    else if config.Match = "after" then some afterMatcher
    else none
  match matcherType with
  | none => none
  | some mk =>
    let matcher := mk config.Pattern
    let matcher := if config.Negate then negatedMatcher matcher else matcher
    let maxLines := match config.MaxLines with
      | some n => n
      | none => defaultMaxLines
    if (match config.Timeout with | some t => decide (t < 0) | none => false) then none
    else
      some { reader := reader, pred := matcher, flushMatcher := config.FlushPattern,
             maxBytes := maxBytes, maxLines := maxLines, separator := separator,
             last := [], numLines := 0, err := none, state := MultilineState.readFirst,
             message := Message.zero }

/-- The method `Multiline.addLine` of reader/multiline.go. -/
def Multiline.addLine {σ : Type} (mlr : Multiline σ) (m : Message) : Multiline σ :=
  if m.Bytes ≤ 0 then mlr
  else
    let sz : Int := mlr.message.Content.length
    let addSeparator := mlr.message.Content.length > 0 && mlr.separator.length > 0
    let sz := if addSeparator then sz + mlr.separator.length else sz
    let space := mlr.maxBytes - sz
    let maxBytesReached := decide (mlr.maxBytes ≤ 0) || decide (space > 0)
    let maxLinesReached := decide (mlr.maxLines ≤ 0) || decide (mlr.numLines < mlr.maxLines)
    let mlr1 :=
      if maxBytesReached && maxLinesReached then
        let space := if space < 0 || space > m.Content.length then (m.Content.length : Int)
          else space
        let tmp := mlr.message.Content
        let tmp := if addSeparator then tmp ++ mlr.separator else tmp
        { mlr with message := { mlr.message with Content := tmp ++ m.Content.take space.toNat },
                   numLines := mlr.numLines + 1 }
      else mlr
    { mlr1 with last := m.Content,
                message := ({ mlr1.message with Bytes := mlr1.message.Bytes + m.Bytes }).AddFields
                  m.Fields }

/-- The method `Multiline.load` of reader/multiline.go. -/
def Multiline.load {σ : Type} (mlr : Multiline σ) (m : Message) : Multiline σ :=
  let mlr1 := mlr.addLine m
  { mlr1 with message := ({ mlr1.message with Ts := m.Ts }).AddFields m.Fields }

/-- The method `Multiline.clear` of reader/multiline.go. -/
def Multiline.clear {σ : Type} (mlr : Multiline σ) : Multiline σ :=
  { mlr with message := Message.zero, last := [], numLines := 0, err := none }

/-- The method `Multiline.finalize` of reader/multiline.go. -/
def Multiline.finalize {σ : Type} (mlr : Multiline σ) : Message × Multiline σ :=
  (mlr.message, mlr.clear)

/-- The method `Multiline.resetState` of reader/multiline.go. -/
def Multiline.resetState {σ : Type} (mlr : Multiline σ) : Multiline σ :=
  { mlr with state := MultilineState.readFirst }

/-- The method `Multiline.readNext` of reader/multiline.go over the upstream
reader with step function `next`; the first argument bounds the number of
upstream messages pulled, and the call has not returned when it is used up. -/
def readNextLoop {σ : Type} (next : σ → NextResult σ) : Nat → Multiline σ →
    NextResult (Multiline σ)
  | 0, _ => NextResult.blocked
  | fuel + 1, mlr0 =>
    match next mlr0.reader with
    | NextResult.blocked => NextResult.blocked
    | NextResult.panic => NextResult.panic
    | NextResult.msg message (some err) reader =>
      let mlr := { mlr0 with reader := reader }
      if err = ReadError.sigMultilineTimeout then
        if mlr.numLines == 0 then readNextLoop next fuel mlr
        else NextResult.msg mlr.finalize.1 none mlr.finalize.2.resetState
      else if message.Bytes == 0 then
        if mlr.numLines == 0 then NextResult.msg Message.zero (some err) mlr
        else
          NextResult.msg mlr.finalize.1 none
            { mlr.finalize.2 with err := some err, state := MultilineState.readFailed }
      else if mlr.message.Bytes == 0 || mlr.pred mlr.last message.Content then
        let mlr1 := mlr.addLine message
        NextResult.msg mlr1.finalize.1 none
          { mlr1.finalize.2 with err := some err, state := MultilineState.readFailed }
      else
        NextResult.msg mlr.finalize.1 none (mlr.finalize.2.load message)
    | NextResult.msg message none reader =>
      let mlr := { mlr0 with reader := reader }
      if (match mlr.flushMatcher with
          | some flush => flush message.Content
          | none => false) then
        let mlr1 := mlr.addLine message
        NextResult.msg mlr1.finalize.1 none mlr1.finalize.2.resetState
      else if decide (mlr.message.Bytes > 0) && !mlr.pred mlr.last message.Content then
        NextResult.msg mlr.finalize.1 none (mlr.finalize.2.load message)
      else readNextLoop next fuel (mlr.addLine message)

/-- The method `Multiline.readFirst` of reader/multiline.go. -/
def readFirstLoop {σ : Type} (next : σ → NextResult σ) : Nat → Multiline σ →
    NextResult (Multiline σ)
  | 0, _ => NextResult.blocked
  | fuel + 1, mlr0 =>
    match next mlr0.reader with
    | NextResult.blocked => NextResult.blocked
    | NextResult.panic => NextResult.panic
    | NextResult.msg message (some err) reader =>
      let mlr := { mlr0 with reader := reader }
      if err = ReadError.sigMultilineTimeout then readFirstLoop next fuel mlr
      else NextResult.msg message (some err) mlr
    | NextResult.msg message none reader =>
      let mlr := { mlr0 with reader := reader }
      if message.Bytes == 0 then readFirstLoop next fuel mlr
      else
        readNextLoop next fuel
          { (mlr.clear.load message) with state := MultilineState.readNext }

/-- The method `Multiline.readFailed` of reader/multiline.go. -/
def Multiline.readFailed {σ : Type} (mlr : Multiline σ) : NextResult (Multiline σ) :=
  NextResult.msg Message.zero mlr.err ({ mlr with err := none }).resetState

/-- The method `Multiline.Next` of reader/multiline.go. -/
def Multiline.Next {σ : Type} (next : σ → NextResult σ) (fuel : Nat) (mlr : Multiline σ) :
    NextResult (Multiline σ) :=
  match mlr.state with
  | MultilineState.readFirst => readFirstLoop next fuel mlr
  | MultilineState.readNext => readNextLoop next fuel mlr
  | MultilineState.readFailed => mlr.readFailed

/-! ## module.go and reload.go -/

/-- A runner, by its identity. -/
structure Runner where
  id : Nat
  deriving DecidableEq, Repr

/-- Whether a Go map from hashes, given as the list of its entries (no key
twice, the order of the list standing for the order in which a `range` visits
them), has the key `k`. -/
def mapHas (m : List (Nat × Runner)) (k : Nat) : Bool :=
  m.any (fun e => e.1 == k)

/-- The statement `delete(m, k)` on a Go map. -/
def mapDelete (m : List (Nat × Runner)) (k : Nat) : List (Nat × Runner) :=
  m.filter (fun e => e.1 != k)

/-- The statement `m[k] = v` on a Go map. -/
def mapSet (m : List (Nat × Runner)) (k : Nat) (v : Runner) : List (Nat × Runner) :=
  mapDelete m k ++ [(k, v)]

/-- A `*config.Config` of `r.configs`, by what `reloadModules` gets from it:
the answer of `c.Enabled()`, the hash of its unpacked content (`none` when
`c.Unpack` or `hashstructure.Hash` returns an error), and the runner that
`r.runner.Create(c)` returns (`none` when it returns an error). -/
structure ModuleConfig where
  enabled : Bool
  hash : Option Nat
  created : Option Runner
  deriving DecidableEq, Repr

/-- The calls `reloadModules` makes: `Create` on the factory with its result,
`Stop` and `Start` on a runner, each with the hash of the runner. -/
inductive ReloadCall where
  | create (runner : Option Runner)
  | stop (hash : Nat) (runner : Runner)
  | start (hash : Nat) (runner : Runner)
  deriving DecidableEq, Repr

/-- The struct `Reload` of reload.go: the map `List` of its `Module`, its field
`configs`, and the record of the calls made, in order. -/
structure Reload where
  module : List (Nat × Runner)
  configs : List ModuleConfig
  calls : List ReloadCall
  deriving DecidableEq, Repr

/-- The function `newReload` of reload.go, as far as `reloadModules` uses its
result: the module of `NewModule()` holds no runner, and the field `configs` is
not set. -/
def newReload : Reload := { module := [], configs := [], calls := [] }

/-- The `for` loop of `reloadModules` over `r.configs`: start list, stop list
and calls. -/
def reloadLoop (module : List (Nat × Runner)) : List ModuleConfig → List (Nat × Runner) →
    List (Nat × Runner) → List ReloadCall →
    List (Nat × Runner) × List (Nat × Runner) × List ReloadCall
  | [], startList, stopList, calls => (startList, stopList, calls)
  | c :: rest, startList, stopList, calls =>
    if !c.enabled then reloadLoop module rest startList stopList calls
    else
      match c.hash with
      | none => reloadLoop module rest startList stopList calls
      | some hash =>
        let stopList := mapDelete stopList hash
        if !mapHas module hash then
          match c.created with
          | none =>
            reloadLoop module rest startList stopList (calls ++ [ReloadCall.create none])
          | some runner =>
            reloadLoop module rest (mapSet startList hash runner) stopList
              (calls ++ [ReloadCall.create (some runner)])
        else reloadLoop module rest startList stopList calls

/-- The method `Reload.stopRunners` of reload.go, the runners stopped one after
the other. -/
def Reload.stopRunners (r : Reload) : List (Nat × Runner) → Reload
  | [] => r
  | (hash, runner) :: rest =>
    Reload.stopRunners
      { r with module := mapDelete r.module hash,
               calls := r.calls ++ [ReloadCall.stop hash runner] }
      rest

/-- The method `Reload.startRunners` of reload.go. -/
def Reload.startRunners (r : Reload) : List (Nat × Runner) → Reload
  | [] => r
  | (id, runner) :: rest =>
    Reload.startRunners
      { r with module := mapSet r.module id runner,
               calls := r.calls ++ [ReloadCall.start id runner] }
      rest

/-- The function `reloadModules` of reload.go.  `stream` is what
`config.LoadStream` and `config.Unpack` make of the bytes of the message:
`none` when one of them returns an error, else the input configs the stream
describes.  `Unpack` is handed the slice `r.configs` by value, so it cannot
set the field, and nothing in the package assigns it: the loop runs over
`r.configs` as it was before the call, which `newReload` left nil. -/
def reloadModules (r : Reload) (stream : Option (List ModuleConfig)) : Reload :=
  match stream with
  | none => r
  | some _ =>
    match reloadLoop r.module r.configs [] r.module r.calls with
    | (startList, stopList, calls) =>
      Reload.startRunners (Reload.stopRunners { r with calls := calls } stopList) startList

/-- The method `Reload.HandleMessage` of reload.go over the messages of the
queue that are for this pipeline, one after the other, each given as what
`reloadModules` makes of its stream. -/
def Reload.HandleMessages (r : Reload) : List (Option (List ModuleConfig)) → Reload
  | [] => r
  | stream :: rest => Reload.HandleMessages (reloadModules r stream) rest

/-! ## util.go and the `path/filepath` functions it calls -/

/-- The constant `LogType` of util.go. -/
def LogType : String := "log"

/-- The constant `StdinType` of util.go. -/
def StdinType : String := "stdin"

/-- The keys of the map `ValidType` of util.go. -/
def ValidType : List String := [StdinType, LogType]

/-- The call `strings.Split(s, "/")` on the characters of `s`. -/
def splitSlash : List Char → List (List Char)
  | [] => [[]]
  | c :: rest =>
    if c = '/' then [] :: splitSlash rest
    else
      match splitSlash rest with
      | [] => [[c]]
      | e :: es => (c :: e) :: es

/-- One element of a path met by `filepath.Clean`; `stack` holds the elements
kept so far, the last one first.  An empty element and `.` are skipped; `..`
removes the element before it, is dropped at the root, and is kept at the start
of a path that is not rooted. -/
def cleanStep (rooted : Bool) (stack : List (List Char)) (e : List Char) : List (List Char) :=
  if e = [] || e = ['.'] then stack
  else if e = ['.', '.'] then
    match stack with
    | top :: below => if top = ['.', '.'] then e :: stack else below
    | [] => if rooted then [] else [e]
  else e :: stack

/-- The function `filepath.Clean` for the separator `/`. -/
def filepathClean (path : String) : String :=
  if path = "" then "."
  else
    let rooted := path.data.head? == some '/'
    let stack := (splitSlash path.data).foldl (cleanStep rooted) []
    let body := String.mk (List.intercalate ['/'] stack.reverse)
    if rooted then "/" ++ body
    else if stack.isEmpty then "."
    else body

/-- The function `filepath.Split` for the separator `/`: the path up to and
with its last separator, and what follows it. -/
def filepathSplit (path : String) : String × String :=
  let rev := path.data.reverse
  (String.mk (rev.dropWhile (fun c => c != '/')).reverse,
   String.mk (rev.takeWhile (fun c => c != '/')).reverse)

/-- The function `filepath.Join`: the elements from the first one that is not
empty on, joined by `/` and cleaned. -/
def filepathJoin (elem : List String) : String :=
  match elem.dropWhile (fun e => e == "") with
  | [] => ""
  | rest => filepathClean (String.intercalate "/" rest)

/-- The loop of the function `wildcards` of util.go: `n` counts the iterations
left, which are those with `i <= doubleStarPatternDepth`. -/
def wildcardsLoop : Nat → String → List String
  | 0, _ => []
  | n + 1, w => w :: wildcardsLoop n (filepathJoin [w, "*"])

/-- The function `wildcards` of util.go, for a depth below 255. -/
def wildcards (doubleStarPatternDepth : Nat) (dir suffix : String) : List String :=
  if dir = "" && suffix = "" then wildcardsLoop doubleStarPatternDepth "*"
  else wildcardsLoop (doubleStarPatternDepth + 1) ""

/-- The first loop of `GlobPatterns`: the error it returns with, or the
wildcard list, the prefix and the suffix it ends with.  The first argument
bounds the number of iterations; `none` when it is used up. -/
def globLoop (pattern : String) (depth : Nat) : Nat → String → String → List String → String →
    String → Option (Except String (List String × String × String))
  | 0, _, _, _, _, _ => none
  | fuel + 1, dir, file, wildcardList, pre, suffix =>
    if file != "" && file != "." then
      if file = "**" then
        if wildcardList.length > 0 then some (Except.error ("multiple ** in " ++ pattern))
        else
          globLoop pattern depth fuel (filepathSplit (filepathClean dir)).1
            (filepathSplit (filepathClean dir)).2 (wildcards depth dir suffix) dir suffix
      else if wildcardList.length = 0 then
        globLoop pattern depth fuel (filepathSplit (filepathClean dir)).1
          (filepathSplit (filepathClean dir)).2 wildcardList pre (filepathJoin [file, suffix])
      else
        globLoop pattern depth fuel (filepathSplit (filepathClean dir)).1
          (filepathSplit (filepathClean dir)).2 wildcardList pre suffix
    else some (Except.ok (wildcardList, pre, suffix))

/-- The function `GlobPatterns` of util.go, its first loop followed for at most
`fuel` iterations; `none` when they do not suffice. -/
def GlobPatterns (fuel : Nat) (pattern : String) (doubleStarPatternDepth : Nat) :
    Option (Except String (List String)) :=
  if doubleStarPatternDepth = 0 then some (Except.ok [pattern])
  else
    match globLoop pattern doubleStarPatternDepth fuel
        (filepathSplit (filepathClean pattern)).1 (filepathSplit (filepathClean pattern)).2
        [] "" "" with
    | none => none
    | some (Except.error e) => some (Except.error e)
    | some (Except.ok (wildcardList, pre, suffix)) =>
      if wildcardList.length = 0 then some (Except.ok [pattern])
      else some (Except.ok (wildcardList.map (fun w => filepathJoin [pre, w, suffix])))

/-! ## log/config.go -/

/-- The constant `recursiveGlobDepth` of collector.go. -/
def recursiveGlobDepth : Nat := 8

/-- The constants `ScanOrderAsc` and `ScanOrderDesc`, the keys of the map
`ValidScanOrder` of config.go. -/
def ValidScanOrder : List String := ["asc", "desc"]

/-- The constants `ScanSortNone`, `ScanSortModtime` and `ScanSortFilename`, the
keys of the map `ValidScanSort` of config.go. -/
def ValidScanSort : List String := ["", "modtime", "filename"]

/-- The struct `Clean` of config.go. -/
structure Clean where
  Inactive : Int
  Removed : Bool
  deriving DecidableEq, Repr

/-- The fields `Order` and `Sort` (here `Sort_`) of the struct `scannerConfig` of config.go. -/
structure scannerConfig where
  Order : String
  Sort_ : String
  deriving DecidableEq, Repr

/-- The field of `reader.JSONConfig` that `Validate` reads. -/
structure JSONConfig where
  MessageKey : String
  deriving DecidableEq, Repr

/-- The struct `config` of config.go with the fields `Validate` and
`resolvePaths` read: `Type` of the inlined `PublisherConfig`, `State.Clean`,
`Ignore.Older`, `Visitor.Frequency`, `Recursive.Enabled`, `Scanner`, the numbers
of `Include.Lines` and `Exclude.Lines`, whether `Multiline` is set, and `JSON`.
Durations are in nanoseconds. -/
structure config where
  Type_ : String
  Paths : List String
  StateClean : Clean
  IgnoreOlder : Int
  VisitorFrequency : Int
  RecursiveEnabled : Bool
  Scanner : scannerConfig
  IncludeLines : Nat
  ExcludeLines : Nat
  Multiline : Bool
  JSON : Option JSONConfig
  deriving DecidableEq, Repr

/-- The sum of two `time.Duration` values: the low 64 bits, as a signed number. -/
def addDuration (a b : Int) : Int :=
  (a + b + 9223372036854775808) % 18446744073709551616 - 9223372036854775808

/-- The errors `Validate` returns, in the order of its checks. -/
inductive ValidateError where
  | noPaths
  | ignoreOlderRequired
  | cleanInactiveTooSmall
  | invalidType (t : String)
  | jsonMultiline
  | jsonLineFilter
  | invalidScanSort (sort : String)
  | invalidScanOrder (sort : String)
  deriving DecidableEq, Repr

/-- Whether `c.JSON != nil && len(c.JSON.MessageKey) == 0`. -/
def config.jsonWithoutKey (c : config) : Bool :=
  match c.JSON with
  | some j => j.MessageKey.length == 0
  | none => false

/-- The method `config.Validate` of config.go: the error it returns, `none`
for nil. -/
def config.Validate (c : config) : Option ValidateError :=
  if c.Type_ = LogType && c.Paths.length == 0 then some ValidateError.noPaths
  else if c.StateClean.Inactive != 0 && c.IgnoreOlder == 0 then
    some ValidateError.ignoreOlderRequired
  else if c.StateClean.Inactive != 0 &&
      decide (c.StateClean.Inactive ≤ addDuration c.IgnoreOlder c.VisitorFrequency) then
    some ValidateError.cleanInactiveTooSmall
  else if !ValidType.contains c.Type_ then some (ValidateError.invalidType c.Type_)
  else if c.jsonWithoutKey && c.Multiline then some ValidateError.jsonMultiline
  else if c.jsonWithoutKey && (decide (c.IncludeLines > 0) || decide (c.ExcludeLines > 0)) then
    some ValidateError.jsonLineFilter
  else if c.Scanner.Sort_ != "" then
    if !ValidScanSort.contains c.Scanner.Sort_ then
      some (ValidateError.invalidScanSort c.Scanner.Sort_)
    else if !ValidScanOrder.contains c.Scanner.Sort_ then
      some (ValidateError.invalidScanOrder c.Scanner.Sort_)
    else none
  else none

/-- The loop of `resolvePaths`: the patterns of each path are appended to `paths`. -/
def resolveLoop (fuel : Nat) : List String → List String → Option (Except String (List String))
  | [], paths => some (Except.ok paths)
  | path :: rest, paths =>
    match GlobPatterns fuel path recursiveGlobDepth with
    | none => none
    | some (Except.error e) => some (Except.error e)
    | some (Except.ok patterns) => resolveLoop fuel rest (paths ++ patterns)

/-- The method `config.resolvePaths` of config.go: the error it returns, or the
configuration afterwards; `none` when `fuel` iterations do not suffice for a
call of `GlobPatterns`. -/
def config.resolvePaths (fuel : Nat) (c : config) : Option (Except String config) :=
  let paths : List String := if !c.RecursiveEnabled then c.Paths else []
  match resolveLoop fuel c.Paths paths with
  | none => none
  | some (Except.error e) => some (Except.error e)
  | some (Except.ok paths) => some (Except.ok { c with Paths := paths })

/-! ## common/command/instance/instance.go -/

/-- The struct `component.Info` that `New` fills in. -/
structure Info where
  Component : String
  Version : String
  Name : String
  Hostname : String
  ID : Int
  deriving DecidableEq, Repr

/-- The struct `Instance` of instance.go as `New` leaves it: the `Info` of its
embedded `component.Sentry`; every other field is the zero value. -/
structure Instance where
  Info : Info
  deriving DecidableEq, Repr

/-- The function `New` of instance.go.  `defaultVersion` is the value of
`version.GetDefaultVersion()`, `hostname` the result of `os.Hostname()`, and
`checksum` the CRC-32 of the MD5 sum of a string. -/
def New (defaultVersion : String) (hostname : Except String String) (checksum : String → Nat)
    (name ver : String) : Except String Instance :=
  let ver := if ver = "" then defaultVersion else ver
  match hostname with
  | Except.error err => Except.error err
  | Except.ok hostname =>
    Except.ok { Info := { Component := name, Version := ver, Name := hostname,
                          Hostname := hostname, ID := (checksum hostname % 1024 : Nat) } }

/-! ## registry.go: the run loop of the registrar -/

/-- What the registrar does to its surroundings: it writes the registry file
with the states given, reports a number of published states to its
`successLogger`, creates a timer, or stops the timer. -/
inductive RegistrarCall where
  | writeRegistrar (states : List State)
  | Published (n : Int)
  | NewTimer (d : Int)
  | timerStop
  deriving DecidableEq, Repr

/-- The struct `Registrar` of registry.go with the local `flushC` of `Run`:
`hasOut` says whether `out` is not nil, `flushC` whether the channel `flushC` is
not nil, `clockReads` counts the readings of `time.Now()`, and `calls` records
what the registrar did, in order. -/
structure Registrar where
  states : List State
  flushTimeout : Int
  bufferedStateUpdates : Int
  hasOut : Bool
  flushC : Bool
  clockReads : Nat
  calls : List RegistrarCall

/-- What the `select` of `Run` receives: a batch of states from `r.Channel`, or
the expiry of the timer from `flushC`. -/
inductive RegistrarEvent where
  | batch (states : List State)
  | timer
  deriving DecidableEq, Repr

/-- The method `Registrar.processEventStates` of registry.go; `clock` gives the
readings of `time.Now()`. -/
def Registrar.processEventStates (clock : Nat → Int) (r : Registrar) : List State → Registrar
  | [] => r
  | s :: rest =>
    Registrar.processEventStates clock
      { r with states := States.Update r.states s (clock r.clockReads),
               clockReads := r.clockReads + 1 } rest

/-- The method `Registrar.onEvents` of registry.go. -/
def Registrar.onEvents (clock : Nat → Int) (r : Registrar) (states : List State) : Registrar :=
  let r1 := r.processEventStates clock states
  { r1 with states := (States.Cleanup r1.states (clock r1.clockReads)).1,
            clockReads := r1.clockReads + 1,
            bufferedStateUpdates := r1.bufferedStateUpdates + states.length }

/-- The method `Registrar.flushRegistrar` of registry.go; an error of
`writeRegistrar` is logged and the flush goes on. -/
def Registrar.flushRegistrar (r : Registrar) : Registrar :=
  let r1 := { r with calls := r.calls ++ [RegistrarCall.writeRegistrar r.states] }
  let r2 := if r1.hasOut then
      { r1 with calls := r1.calls ++ [RegistrarCall.Published r1.bufferedStateUpdates] }
    else r1
  { r2 with bufferedStateUpdates := 0 }

/-- One iteration of the loop of `Registrar.Run` that receives `event`; `none`
for the expiry of a timer while `flushC` is nil, which cannot be received. -/
def Registrar.step (clock : Nat → Int) (r : Registrar) : RegistrarEvent → Option Registrar
  | RegistrarEvent.timer =>
    if r.flushC then
      some (Registrar.flushRegistrar
        { r with flushC := false, calls := r.calls ++ [RegistrarCall.timerStop] })
    else none
  | RegistrarEvent.batch states =>
    let r1 := r.onEvents clock states
    if r1.flushTimeout ≤ 0 then some r1.flushRegistrar
    else if !r1.flushC then
      some { r1 with flushC := true,
                     calls := r1.calls ++ [RegistrarCall.NewTimer r1.flushTimeout] }
    else some r1

/-- The loop of `Registrar.Run` over the events it receives before `r.done`. -/
def Registrar.loop (clock : Nat → Int) : Registrar → List RegistrarEvent → Option Registrar
  | r, [] => some r
  | r, event :: rest =>
    match r.step clock event with
    | none => none
    | some r1 => Registrar.loop clock r1 rest

/-- The method `Registrar.Run` of registry.go: the loop over the events
received, and the deferred `writeRegistrar` when `r.done` ends it. -/
def Registrar.Run (clock : Nat → Int) (r : Registrar) (events : List RegistrarEvent) :
    Option Registrar :=
  match Registrar.loop clock { r with flushC := false } events with
  | none => none
  | some r1 => some { r1 with calls := r1.calls ++ [RegistrarCall.writeRegistrar r1.states] }

/-! ## Auxiliary definitions for the proofs -/

/-- The number a sequence of decimal digits stands for. -/
def digitsValue (l : List Char) : Nat :=
  l.foldl (fun a c => 10 * a + (c.toNat - 48)) 0

/-- The identity string of a state, the first component of `State.ID`. -/
def State.idString (s : State) : String := s.ID.1

/-- Two states are the same file for the store: `IsEqual` answers true. -/
def sameFile (a b : State) : Prop := (a.IsEqual b).1 = true

instance (a b : State) : Decidable (sameFile a b) :=
  inferInstanceAs (Decidable ((a.IsEqual b).1 = true))

/-- No two states of the list are `IsEqual`. -/
def NoDuplicates (states : List State) : Prop :=
  states.Pairwise (fun a b => ¬ sameFile a b)

/-- The removal condition in the words of the specification: the state is
finished, and its ttl is 0 or it is positive and exceeded by `now - timestamp`. -/
def removable (now : Int) (s : State) : Bool :=
  s.Finished && (s.TTL == 0 || (decide (s.TTL > 0) && decide (timeSub now s.Timestamp > s.TTL)))

/-- An operation on the state store. -/
inductive StoreOp where
  | update (s : State) (now : Int)
  | cleanup (now : Int)
  | setStates (states : List State)

/-- The store after one operation. -/
def StoreOp.apply (store : List State) : StoreOp → List State
  | StoreOp.update s now => States.Update store s now
  | StoreOp.cleanup now => (States.Cleanup store now).1
  | StoreOp.setStates states => States.SetStates store states

/-- The store after a sequence of operations. -/
def runOps (store : List State) (ops : List StoreOp) : List State :=
  ops.foldl StoreOp.apply store

/-- The change `resetStates` makes to one state. -/
def resetState (s : State) : State := { s with Finished := true, TTL := -2 }

/-- What the registry file keeps of a state: the fields tagged `json:"-"` are zero. -/
def persisted (s : State) : State := { s with Id := "", Finished := false, Fileinfo := none }

/-- A tracked file `/t/a.log` (inode 11), as `NewState` records it. -/
def stateA : State :=
  NewState { Name := "a.log", Size := 10, ModTime := 0, Ino := 11, Dev := 1 } "/t/a.log" "log" 100

/-- A tracked file `/t/b.log` (inode 12), finished, read to offset 4, with ttl 0. -/
def stateB : State :=
  { NewState { Name := "b.log", Size := 4, ModTime := 0, Ino := 12, Dev := 1 } "/t/b.log" "log" 100
    with Finished := true, Offset := 4, TTL := 0 }

/-- The file of `stateB` (inode 12) seen again under the path `/t/b.log.1`. -/
def stateB2 : State :=
  NewState { Name := "b.log.1", Size := 9, ModTime := 5, Ino := 12, Dev := 1 } "/t/b.log.1" "log" 200

/-- A finished state of inode 13 with ttl 50 nanoseconds, last stamped at 100. -/
def stateC : State :=
  { NewState { Name := "c.log", Size := 4, ModTime := 0, Ino := 13, Dev := 1 } "/t/c.log" "log" 100
    with Finished := true, TTL := 50 }

/-- A state of inode 14 with ttl 50 nanoseconds stamped at 100, whose worker
has not finished. -/
def stateD : State :=
  { NewState { Name := "d.log", Size := 4, ModTime := 0, Ino := 14, Dev := 1 } "/t/d.log" "log" 100
    with TTL := 50 }

/-- A step that leaves every path other than `tmp` as it is. -/
def touchesOnly (tmp : String) : FsStep → Prop
  | FsStep.openTrunc path => path = tmp
  | FsStep.write path _ => path = tmp
  | FsStep.close _ => True
  | FsStep.rename _ _ => False

/-- What an action is, without its payload: a store update with the offset and
the finished flag it stores, a publish with its outcome, or the close of the
source. -/
inductive ActionKind where
  | stored (offset : Int) (finished : Bool)
  | published (ok : Bool)
  | closed
  deriving DecidableEq, Repr

/-- The kind of an action. -/
def Action.kind : Action → ActionKind
  | Action.update s => ActionKind.stored s.Offset s.Finished
  | Action.publish _ ok => ActionKind.published ok
  | Action.close => ActionKind.closed

/-- The file `/t/x.log` of scenario S1 (inode 7), as `NewState` records it at time 0. -/
def stateX : State :=
  NewState { Name := "x.log", Size := 6, ModTime := 0, Ino := 7, Dev := 1 } "/t/x.log" "log" 0

/-- The worker `startScanner` starts for `/t/x.log` at offset 0: no line
filters, no JSON, no multiline, the source open, and its state registered in
the store, unfinished, by `SendStateUpdate`.  `reads` are the results of the
reads of the file. -/
def workerX (reads : List (List Nat × Option ReadError)) : Scanner Encode :=
  { config := { Name := "t", IncludeLines := [], ExcludeLines := [] },
    source := some { HasState := true, closed := false },
    state := stateX,
    states := [stateX],
    reader := { reader := { reads := reads, buf := [], err := none },
                clock := fun n => n, calls := 0 },
    clockReads := 0, publishCalls := 0, trace := [] }

/-- The surroundings of `workerX`: the plain reader with the default
`max_bytes`, a clock that ticks once per reading, publishes that all have the
outcome `ok`, and a `done` channel that is closed from the start or never. -/
def envX (ok : Bool) (cancelled : Bool) : Env Encode :=
  { next := plainReaderNext 10485760, publish := fun _ _ => ok, clock := fun n => n,
    done := fun _ => cancelled }

/-- The reads of scenario S1: the content `"a\nb\nc\n"` in one read, then the
file stays idle until `close_inactive` ends the reading with `ErrInactive`. -/
def readsS1 : List (List Nat × Option ReadError) :=
  [([97, 10, 98, 10, 99, 10], none), ([], some ReadError.ErrInactive)]

/-- The standing of a worker that `startScanner` set up on a file: its source is
open, its state carries the file info the scanner found, with the identity
`NewState` derived from it and no cached `Id`, and the store it shares holds
no two states of one file. -/
def WorkerInv {σ : Type} (src : Source) (info : FileInfo) (w : Scanner σ) : Prop :=
  (∃ c, w.source = some { src with closed := c }) ∧ w.state.Fileinfo = some info ∧
    w.state.FileStateOS = GetOSState info ∧ w.state.Id = "" ∧ NoDuplicates w.states

/-- The first message the plain reader hands out on the reads of scenario S1:
the line `a`, counted as one byte. -/
def messageA : Message := { Ts := 0, Content := [97], Bytes := 1, Fields := StringIf.nil }

/-- The plain reader of `workerX readsS1` after it handed out `messageA`. -/
def readerAfterA : Encode :=
  { reader := { reads := [([], some ReadError.ErrInactive)], buf := [98, 10, 99, 10],
                err := none },
    clock := fun n => n, calls := 1 }

/-- What a call of `Next` returned, without the reader: content, bytes and
error of the result; `none` when the call has not returned or panicked. -/
def NextResult.summary {σ : Type} : NextResult σ → Option (List Nat × Int × Option ReadError)
  | NextResult.msg message err _ => some (message.Content, message.Bytes, err)
  | NextResult.blocked => none
  | NextResult.panic => none

/-- A line reader on a file of which the reads return `reads`. -/
def lineReader (reads : List (List Nat × Option ReadError)) : Encode :=
  { reader := { reads := reads, buf := [], err := none }, clock := fun n => n, calls := 0 }

/-- The results of the first `n` calls of a reader with step function `next`,
each with the reader left out; the list ends early at a call that has not
returned or panicked. -/
def firstResults {σ : Type} (next : σ → NextResult σ) : Nat → σ →
    List (List Nat × Int × Option ReadError)
  | 0, _ => []
  | n + 1, r =>
    match next r with
    | NextResult.msg message err r1 =>
      (message.Content, message.Bytes, err) :: firstResults next n r1
    | NextResult.blocked => []
    | NextResult.panic => []

/-- The reads of a file with the content `"a\n"` on which the reader then meets
the end of the file, with `close_eof` set. -/
def readsEOF : List (List Nat × Option ReadError) :=
  [([97, 10], none), ([], some ReadError.EOF)]

/-- The backoff and close settings of the default configuration of config.go,
with `close.inactive` set to five minutes. -/
def logConfigX : LogConfig :=
  { BackOff := { Min := 1000000000, Max := 10000000000, Factor := 2 },
    Close := { Inactive := 300000000000, Removed := true, Renamed := false, EOF := false,
               Timeout := 0 } }

/-- What `errorChecks` finds on an idle file of `size` bytes at time `now`: the
file is there, unchanged. -/
def probeIdle (size : Int) (now : Int) : FileProbe :=
  { continuable := true,
    stat := Except.ok { Name := "x.log", Size := size, ModTime := 0, Ino := 7, Dev := 1 },
    now := now, sameFile := true, pathExists := true }

/-- What `errorChecks` finds when `Stat` on the open file fails. -/
def probeStatFails : FileProbe :=
  { continuable := true, stat := Except.error (ReadError.other "stat: input/output error"),
    now := 0, sameFile := true, pathExists := true }

/-- An iteration of the loop of `Read` in which the read of an idle file of
`size` bytes returns no bytes and `io.EOF`. -/
def emptyRead (size : Int) (now : Int) : ReadStep :=
  { doneClosed := false, data := [], err := some ReadError.EOF, now := now,
    probe := probeIdle size now, waitCancelled := false }

/-- An iteration of the loop of `Read` in which the read returns `data` and no error. -/
def dataRead (data : List Nat) (now : Int) : ReadStep :=
  { doneClosed := false, data := data, err := none, now := now,
    probe := probeIdle data.length now, waitCancelled := false }

/-- A collector with no `ignore_older`, no `clean_inactive` and no scanner
limit, whose store holds `states`. -/
def collectorX (states : List State) : Collector :=
  { config := { Type_ := "log", IgnoreOlder := 0, CleanInactive := 0, CleanRemoved := false,
                ScannerLimit := 0 },
    states := states, started := [], clockReads := 0, calls := [] }

/-- The surroundings of a scan in which every `Setup` succeeds, no task runs
yet and the executor is active; the clock ticks once per reading from 1000. -/
def collectorEnvX : CollectorEnv :=
  { clock := fun n => 1000 + n, setupOk := fun _ => true, running := 0, active := true }

/-- The state of `stateB` (inode 12, finished, offset 4) as a registry holds it
with an empty source. -/
def stateBNoSource : State := { stateB with Source := "" }

/-- The file of `stateB` found with 4 bytes under the path `/t/b.log.1`. -/
def stateBMoved : State :=
  NewState { Name := "b.log.1", Size := 4, ModTime := 5, Ino := 12, Dev := 1 } "/t/b.log.1" "log" 200

/-- A collector with `ignore_older` of 100 nanoseconds and no `clean_inactive`,
on an empty store. -/
def collectorIgnoreOlder : Collector :=
  { config := { Type_ := "log", IgnoreOlder := 100, CleanInactive := 0, CleanRemoved := false,
                ScannerLimit := 0 },
    states := [], started := [], clockReads := 0, calls := [] }

/-- Why the loop of `Run` ended: `w.done` was found closed, the reader returned
an error, a publish failed; or the loop is still running, or it panicked. -/
inductive ExitCause where
  | cancelled
  | readError (e : ReadError)
  | publishFailed
  | running
  | panicked
  deriving DecidableEq, Repr

/-- The outcome of `Run` that goes with an exit cause. -/
def ExitCause.outcome : ExitCause → Outcome
  | ExitCause.cancelled => Outcome.returned
  | ExitCause.readError _ => Outcome.returned
  | ExitCause.publishFailed => Outcome.returned
  | ExitCause.running => Outcome.running
  | ExitCause.panicked => Outcome.panicked

/-- The loop of `Run` as `runLoop` follows it, with the cause of its end in
place of the outcome. -/
def runLoopWhy {σ : Type} (env : Env σ) : Nat → Nat → Scanner σ → ExitCause × Scanner σ
  | 0, _, w => (ExitCause.running, w)
  | fuel + 1, check, w =>
    if env.done check then (ExitCause.cancelled, w)
    else
      match env.next w.reader with
      | NextResult.blocked => (ExitCause.running, w)
      | NextResult.panic => (ExitCause.panicked, w)
      | NextResult.msg _ (some err) reader =>
        let w1 := { w with reader := reader }
        if err = ReadError.ErrFileTruncate then
          (ExitCause.readError err, { w1 with state := { w1.state with Offset := 0 } })
        else (ExitCause.readError err, w1)
      | NextResult.msg message none reader =>
        match runMessage env { w with reader := reader } message with
        | (some Outcome.returned, w1) => (ExitCause.publishFailed, w1)
        | (some Outcome.running, w1) => (ExitCause.running, w1)
        | (some Outcome.panicked, w1) => (ExitCause.panicked, w1)
        | (none, w1) => runLoopWhy env fuel (check + 1) w1

/-- The offsets of the states a worker stored, in the order of the updates. -/
def storedOffsets : List Action → List Int
  | [] => []
  | Action.update s :: rest => s.Offset :: storedOffsets rest
  | _ :: rest => storedOffsets rest

/-- The surroundings of `workerX` with a publisher whose first publish succeeds
and whose later ones fail. -/
def envFailSecond : Env Encode :=
  { next := plainReaderNext 10485760, publish := fun n _ => n == 0, clock := fun n => n,
    done := fun _ => false }

/-- An upstream reader that hands out the messages of a list in order, each
with its error value; the call after the last one does not return. -/
def replayNext : List (Message × Option ReadError) →
    NextResult (List (Message × Option ReadError))
  | [] => NextResult.blocked
  | (m, e) :: rest => NextResult.msg m e rest

/-- The sum of the bytes fields of upstream messages. -/
def sumBytes (l : List (Message × Option ReadError)) : Int :=
  (l.map (fun p => p.1.Bytes)).sum

/-- The reader after `n` calls of `Next` that returned; `none` when one of them
has not returned or panicked. -/
def afterCalls {σ : Type} (next : σ → NextResult σ) : Nat → σ → Option σ
  | 0, r => some r
  | n + 1, r =>
    match next r with
    | NextResult.msg _ _ r1 => afterCalls next n r1
    | NextResult.blocked => none
    | NextResult.panic => none

/-- The content `addLine` builds from the lines it keeps: a line is appended,
after the separator when the content so far and the separator are not empty. -/
def joinLines (sep : List Nat) (parts : List (List Nat)) : List Nat :=
  parts.foldl (fun acc p => (if acc.length > 0 && sep.length > 0 then acc ++ sep else acc) ++ p) []

/-- What holds of an upstream message: its bytes field is not negative, and it
is 0 on the timeout signal. -/
def UpstreamOk (p : Message × Option ReadError) : Prop :=
  0 ≤ p.1.Bytes ∧ (p.2 = some ReadError.sigMultilineTimeout → p.1.Bytes = 0)

/-- The standing of the accumulator of a multiline reader: the number of lines
is not negative, and an accumulator of no lines is empty. -/
def LinesInv {σ : Type} (mlr : Multiline σ) : Prop :=
  0 ≤ mlr.numLines ∧ (mlr.numLines = 0 → mlr.message.Bytes = 0 ∧ mlr.message.Content = [])

/-- The standing of a multiline reader between two calls of `Next`: that of
its accumulator, which holds no bytes unless the next call is `readNext`. -/
def AccInv {σ : Type} (mlr : Multiline σ) : Prop :=
  LinesInv mlr ∧ (mlr.state ≠ MultilineState.readNext → mlr.message.Bytes = 0)

instance (p : Message × Option ReadError) : Decidable (UpstreamOk p) :=
  inferInstanceAs (Decidable (0 ≤ p.1.Bytes ∧
    (p.2 = some ReadError.sigMultilineTimeout → p.1.Bytes = 0)))

/-- The pattern `^\s` of scenario S5: the content starts with a white space
character (tab, line feed, form feed, carriage return or space). -/
def patS5 (content : List Nat) : Bool :=
  match content with
  | [] => false
  | c :: _ => c == 9 || c == 10 || c == 12 || c == 13 || c == 32

/-- The upstream line with the content given, counted with its length. -/
def lineOf (content : List Nat) : Message :=
  { Ts := 0, Content := content, Bytes := content.length, Fields := StringIf.nil }

/-- The lines `"ERR x"`, `"  at A"`, `"  at B"`, `"OK"` of scenario S5. -/
def linesS5 : List Message :=
  [lineOf [69, 82, 82, 32, 120], lineOf [32, 32, 97, 116, 32, 65],
   lineOf [32, 32, 97, 116, 32, 66], lineOf [79, 75]]

/-- The upstream of scenario S5: its lines, then the end of the file. -/
def upsS5 : List (Message × Option ReadError) :=
  linesS5.map (fun m => (m, none)) ++ [(Message.zero, some ReadError.EOF)]

/-- The multiline configuration of scenario S5: `pattern=^\s`, `match=after`,
`negate=false`, no flush pattern, `max_lines` left at its default. -/
def configS5 : MultilineConfig :=
  { Negate := false, Match := "after", MaxLines := none, Pattern := patS5, Timeout := none,
    FlushPattern := none }

/-- The multiline reader `NewMultiLine` builds for scenario S5, with the
separator `"\n"` and the default `max_bytes`. -/
def mlrS5 : Multiline (List (Message × Option ReadError)) :=
  { reader := upsS5, pred := afterMatcher patS5, flushMatcher := none, maxBytes := 10485760,
    maxLines := 500, separator := [10], last := [], numLines := 0, err := none,
    state := MultilineState.readFirst, message := Message.zero }

/-- A content within the bounds `maxBytes` and `maxLines`: it has at most
`maxBytes` bytes and is made, by `joinLines`, of at most `maxLines` parts,
each of which starts the content of a message of the upstream `ups`. -/
def WithinBounds (ups : List (Message × Option ReadError)) (sep : List Nat)
    (maxBytes maxLines : Int) (content : List Nat) : Prop :=
  (content.length : Int) ≤ maxBytes ∧
  ∃ parts : List (List Nat), (parts.length : Int) ≤ maxLines ∧ content = joinLines sep parts ∧
    ∀ p ∈ parts, ∃ u ∈ ups, p <+: u.1.Content

/-- The standing of the accumulator of a multiline reader with the limits
`maxBytes` and `maxLines` and the separator `sep`: its content is within the
bounds, made of as many parts as the reader counts lines. -/
def AccBound {σ : Type} (ups : List (Message × Option ReadError)) (sep : List Nat)
    (maxBytes maxLines : Int) (mlr : Multiline σ) : Prop :=
  mlr.maxBytes = maxBytes ∧ mlr.maxLines = maxLines ∧ mlr.separator = sep ∧
  (mlr.message.Content.length : Int) ≤ maxBytes ∧ mlr.numLines ≤ maxLines ∧
  ∃ parts : List (List Nat), (parts.length : Int) = mlr.numLines ∧
    mlr.message.Content = joinLines sep parts ∧
    ∀ p ∈ parts, ∃ u ∈ ups, p <+: u.1.Content

/-- The groups of `match=after` as the specification words them, from a group
`cur` already begun: a line that matches the pattern extends the group, a line
that does not match ends it and starts the next one. -/
def groupsFrom (pat : List Nat → Bool) : List Message → List Message → List (List Message)
  | cur, [] => [cur]
  | cur, m :: rest =>
    if pat m.Content then groupsFrom pat (cur ++ [m]) rest
    else cur :: groupsFrom pat [m] rest

/-- The groups of `match=after` as the specification words them: a group
starts at the first line and at each later line that does not match the
pattern, and extends over the following lines that match it. -/
def groupAfter (pat : List Nat → Bool) : List Message → List (List Message)
  | [] => []
  | m :: rest => groupsFrom pat [m] rest

/-- The result of a call of `Next` put before the results `k` gives for the
reader the call leaves; nothing when the call has not returned or panicked. -/
def consResult {σ : Type} (x : NextResult σ)
    (k : σ → List (List Nat × Int × Option ReadError)) :
    List (List Nat × Int × Option ReadError) :=
  match x with
  | NextResult.msg message err r1 => (message.Content, message.Bytes, err) :: k r1
  | NextResult.blocked => []
  | NextResult.panic => []

/-- A multiline reader of `match=after` without flush pattern that has the
lines `cur` in its accumulator. -/
def Holding {σ : Type} (pat : List Nat → Bool) (sep : List Nat) (maxBytes maxLines : Int)
    (cur : List Message) (mlr : Multiline σ) : Prop :=
  mlr.pred = afterMatcher pat ∧
  mlr.flushMatcher = none ∧ mlr.separator = sep ∧ mlr.maxBytes = maxBytes ∧
  mlr.maxLines = maxLines ∧ mlr.numLines = cur.length ∧
  mlr.message.Content = joinLines sep (cur.map Message.Content) ∧
  mlr.message.Bytes = (cur.map Message.Bytes).sum

/-- An upstream line that is not empty: it has bytes and content. -/
def LineOk (m : Message) : Prop := 0 < m.Bytes ∧ m.Content ≠ []

/-- The limits `maxBytes` and `maxLines` are not reached by the groups of the
lines `rest` after the group `cur` already begun. -/
def LimitsNotReached (pat : List Nat → Bool) (sep : List Nat) (maxBytes maxLines : Int)
    (cur rest : List Message) : Prop :=
  (maxLines ≤ 0 ∨ ∀ g ∈ groupsFrom pat cur rest, (g.length : Int) ≤ maxLines) ∧
  (maxBytes < 0 ∨ ∀ g ∈ groupsFrom pat cur rest,
    ((joinLines sep (g.map Message.Content)).length : Int) ≤ maxBytes)

/-- What a multiline reader returns for the groups given, and then for the end
of the file. -/
def groupResults (sep : List Nat) (groups : List (List Message)) :
    List (List Nat × Int × Option ReadError) :=
  groups.map (fun g => (joinLines sep (g.map Message.Content), (g.map Message.Bytes).sum, none))
    ++ [([], 0, some ReadError.EOF)]

/-- The configuration of scenario S5 with `max_lines` set to 2. -/
def configS5Small : MultilineConfig := { configS5 with MaxLines := some 2 }

/-- The multiline reader `NewMultiLine` builds for scenario S5 with `max_lines`
set to 2 and `max_bytes` to 12. -/
def mlrS5Small : Multiline (List (Message × Option ReadError)) :=
  { mlrS5 with maxBytes := 12, maxLines := 2 }

/-- The hash under which `reloadModules` handles a config: none for a config
that is not enabled or whose hash cannot be computed. -/
def effectiveHash (c : ModuleConfig) : Option Nat :=
  if c.enabled then c.hash else none

/-- The hashes of the incoming configs. -/
def incomingHashes (configs : List ModuleConfig) : List Nat :=
  configs.filterMap effectiveHash

/-- The incoming configs whose hash is not the key of a running runner. -/
def notRunning (module : List (Nat × Runner)) (configs : List ModuleConfig) :
    List ModuleConfig :=
  configs.filter (fun c =>
    match effectiveHash c with
    | some hash => !mapHas module hash
    | none => false)

/-- The runner created for the last of the configs with the hash `hash` for
which the creation succeeded. -/
def lastCreated : List ModuleConfig → Nat → Option Runner
  | [], _ => none
  | c :: rest, hash =>
    match lastCreated rest hash with
    | some runner => some runner
    | none => if effectiveHash c = some hash then c.created else none

/-- Two runners with the hashes 1 and 2. -/
def moduleX : List (Nat × Runner) := [(1, ⟨10⟩), (2, ⟨20⟩)]

/-- An enabled config with the given hash, for which the given runner is
created. -/
def moduleConfigX (hash id : Nat) : ModuleConfig :=
  { enabled := true, hash := some hash, created := some ⟨id⟩ }

/-- A log input on `/var/log/*.log` with the scan settings `sort`/`order` and
everything else as in `defaultConfig`: no clean-up of inactive states, no
`ignore_older`, a scan every 10 seconds, no recursive glob, no JSON, no
multiline, no line filters. -/
def configX (sort order : String) : config :=
  { Type_ := "log", Paths := ["/var/log/*.log"], StateClean := { Inactive := 0, Removed := false },
    IgnoreOlder := 0, VisitorFrequency := 10000000000, RecursiveEnabled := false,
    Scanner := { Order := order, Sort_ := sort }, IncludeLines := 0, ExcludeLines := 0,
    Multiline := false, JSON := none }

/-- The configuration `configX "" "asc"` with `state.clean.inactive`,
`ignore.older` and `scan.frequency` set to the values given. -/
def configClean (inactive older frequency : Int) : config :=
  { configX "" "asc" with StateClean := { Inactive := inactive, Removed := false },
                          IgnoreOlder := older, VisitorFrequency := frequency }

/-- The multiline reader of scenario S5 over the upstream given. -/
def mlrOver (ups : List (Message × Option ReadError)) :
    Multiline (List (Message × Option ReadError)) :=
  { mlrS5 with reader := ups }

/-- What the specification sees of the registrar: a timer is armed, the
registry is written, or the hook `Published` is told a number of states. -/
inductive FlushAction where
  | arm
  | write
  | published (n : Int)
  deriving DecidableEq, Repr

/-- The calls of the registrar as the specification sees them: a new timer is
an arming, a `writeRegistrar` a write of the registry, a `Published` a report;
the call `timer.Stop()` on the timer that expired is no action of the
specification. -/
def flushActions : List RegistrarCall → List FlushAction
  | [] => []
  | RegistrarCall.NewTimer _ :: rest => FlushAction.arm :: flushActions rest
  | RegistrarCall.writeRegistrar _ :: rest => FlushAction.write :: flushActions rest
  | RegistrarCall.Published n :: rest => FlushAction.published n :: flushActions rest
  | RegistrarCall.timerStop :: rest => flushActions rest

/-- A flush in the words of the specification: the registry is written once,
and the hook `Published`, when the registrar has one, is told that the `n`
states received since the previous flush are recorded. -/
def specFlush (hasOut : Bool) (n : Int) : List FlushAction :=
  if hasOut then [FlushAction.write, FlushAction.published n] else [FlushAction.write]

/-- The state machine of the specification for `flush_timeout` > 0, over the
events batch-received and timer-fired: `armed` says whether a timer is armed,
`pending` is the number of states received since the previous flush.  The
first batch after a flush arms a timer, further batches only accumulate, and
the expiry of the timer causes one flush of the pending states; a timer that
is not armed does not fire.  The result is the actions in order, and `armed`
and `pending` after the last event. -/
def specTimed (hasOut : Bool) :
    Bool → Int → List RegistrarEvent → Option (List FlushAction × Bool × Int)
  | armed, pending, [] => some ([], armed, pending)
  | armed, pending, RegistrarEvent.batch states :: rest =>
    (specTimed hasOut true (pending + states.length) rest).map
      (fun res => (if armed then res.1 else FlushAction.arm :: res.1, res.2))
  | armed, pending, RegistrarEvent.timer :: rest =>
    if armed then
      (specTimed hasOut false 0 rest).map (fun res => (specFlush hasOut pending ++ res.1, res.2))
    else none

/-- The state machine of the specification for `flush_timeout` <= 0: every
batch is followed by one flush of the states received; no timer is armed, so
none fires.  The result is the actions in order and `pending` after the last
event. -/
def specUntimed (hasOut : Bool) : Int → List RegistrarEvent → Option (List FlushAction × Int)
  | pending, [] => some ([], pending)
  | pending, RegistrarEvent.batch states :: rest =>
    (specUntimed hasOut 0 rest).map
      (fun res => (specFlush hasOut (pending + states.length) ++ res.1, res.2))
  | _, RegistrarEvent.timer :: _ => none

/-- The calls of a flush: one `writeRegistrar` of the store and, when there is
a `successLogger`, one `Published` with the count. -/
def flushCalls (r : Registrar) : List RegistrarCall :=
  RegistrarCall.writeRegistrar r.states ::
    (if r.hasOut then [RegistrarCall.Published r.bufferedStateUpdates] else [])

/-- The registrar `newRegistrar` builds in scribe.go, with no `successLogger`
(`out` is nil), holding the states `loadStates` loaded. -/
def registrarX (states : List State) (flushTimeout : Int) : Registrar :=
  { states := states, flushTimeout := flushTimeout, bufferedStateUpdates := 0, hasOut := false,
    flushC := false, clockReads := 0, calls := [] }

/-- A registrar built by `newRegistrar` with a `successLogger`. -/
def registrarOutX (states : List State) (flushTimeout : Int) : Registrar :=
  { registrarX states flushTimeout with hasOut := true }

/-- Five events: two batches of one and two states, the expiry of the timer, a
batch of one state, and the expiry of the timer. -/
def eventsX : List RegistrarEvent :=
  [RegistrarEvent.batch [stateA], RegistrarEvent.batch [stateB, stateC], RegistrarEvent.timer,
   RegistrarEvent.batch [stateD], RegistrarEvent.timer]

/-- The values of a state are values of the Go types of its fields: `Offset`
and `TTL` are `int64`, `Inode` and `Device` are `uint64`. -/
def State.InRange (s : State) : Prop :=
  minInt64 ≤ s.Offset ∧ s.Offset ≤ maxInt64 ∧ minInt64 ≤ s.TTL ∧ s.TTL ≤ maxInt64 ∧
    (s.FileStateOS.Inode : Int) ≤ maxUint64 ∧ (s.FileStateOS.Device : Int) ≤ maxUint64

instance (s : State) : Decidable (s.InRange) := by
  unfold State.InRange
  infer_instance

/-- The RFC 3339 rendering of the instant of the sample states, 100
nanoseconds after the epoch. -/
def timeTextX (t : Int) : String :=
  if t = 100 then "1970-01-01T00:00:00.0000001Z" else ""

/-- The parsing of the text of `timeTextX`. -/
def parseTimeX (s : String) : Option Int :=
  if s = "1970-01-01T00:00:00.0000001Z" then some 100 else none

/-! # Properties -/

/-! ## Time -/

/-- The call `t.Sub(u)` is the exact difference whenever that is a `time.Duration`. -/
theorem timeSub_exact (t u : Int) (h1 : minDuration ≤ t - u) (h2 : t - u ≤ maxDuration) :
    timeSub t u = t - u := by
  unfold timeSub
  rw [if_neg (by omega), if_neg (by omega)]

/-! ## Decimal rendering is injective -/

theorem digitChar_value (d : Nat) (h : d < 10) :
    (Nat.digitChar d).toNat - 48 = d ∧ Nat.digitChar d ≠ '-' := by
  interval_cases d <;> decide

theorem toDigitsCore_append (f : Nat) : ∀ (n : Nat) (ds : List Char),
    Nat.toDigitsCore 10 f n ds = Nat.toDigitsCore 10 f n [] ++ ds := by
  induction f with
  | zero => intro n ds; simp [Nat.toDigitsCore]
  | succ f ih =>
    intro n ds
    simp only [Nat.toDigitsCore]
    by_cases h : n / 10 = 0
    · simp [h]
    · simp only [h, if_false]
      rw [ih (n / 10) (Nat.digitChar (n % 10) :: ds), ih (n / 10) [Nat.digitChar (n % 10)]]
      simp

theorem digitsValue_append_single (l : List Char) (c : Char) :
    digitsValue (l ++ [c]) = 10 * digitsValue l + (c.toNat - 48) := by
  simp [digitsValue, List.foldl_append]

theorem digitsValue_toDigitsCore (f : Nat) : ∀ n : Nat, n < f →
    digitsValue (Nat.toDigitsCore 10 f n []) = n := by
  induction f with
  | zero => intro n h; omega
  | succ f ih =>
    intro n hn
    simp only [Nat.toDigitsCore]
    by_cases h : n / 10 = 0
    · simp only [h, if_true]
      have hlt : n < 10 := by omega
      have := (digitChar_value (n % 10) (Nat.mod_lt _ (by decide))).1
      simp only [digitsValue, List.foldl, this]
      omega
    · simp only [h, if_false]
      rw [toDigitsCore_append, digitsValue_append_single, ih (n / 10) (by omega),
        (digitChar_value (n % 10) (Nat.mod_lt _ (by decide))).1]
      omega

theorem toDigitsCore_no_dash (f : Nat) : ∀ (n : Nat) (ds : List Char),
    '-' ∉ ds → '-' ∉ Nat.toDigitsCore 10 f n ds := by
  induction f with
  | zero => intro n ds h; simpa [Nat.toDigitsCore] using h
  | succ f ih =>
    intro n ds hds
    have hd : '-' ∉ Nat.digitChar (n % 10) :: ds := by
      intro hmem
      rcases List.mem_cons.1 hmem with h1 | h1
      · exact (digitChar_value (n % 10) (Nat.mod_lt _ (by decide))).2 h1.symm
      · exact hds h1
    simp only [Nat.toDigitsCore]
    by_cases h : n / 10 = 0
    · simpa [h] using hd
    · simp only [h, if_false]
      exact ih _ _ hd

theorem toDigits_injective (a b : Nat) (h : Nat.toDigits 10 a = Nat.toDigits 10 b) : a = b := by
  have ha := digitsValue_toDigitsCore (a + 1) a (by omega)
  have hb := digitsValue_toDigitsCore (b + 1) b (by omega)
  unfold Nat.toDigits at h
  rw [h] at ha
  omega

/-- The identity string `"%d-%d"` determines inode and device. -/
theorem StateOS.String_injective (a b : StateOS) (h : a.String = b.String) : a = b := by
  have hdata : (Nat.toDigits 10 a.Inode) ++ '-' :: (Nat.toDigits 10 a.Device)
      = (Nat.toDigits 10 b.Inode) ++ '-' :: (Nat.toDigits 10 b.Device) := by
    have := congrArg String.data h
    simpa [StateOS.String, Nat.repr, List.asString] using this
  have h1 : '-' ∉ Nat.toDigits 10 a.Inode := toDigitsCore_no_dash _ _ _ (by simp)
  have h2 : '-' ∉ Nat.toDigits 10 a.Device := toDigitsCore_no_dash _ _ _ (by simp)
  obtain ⟨hi, -, hd⟩ := (List.append_cons_inj_of_not_mem h1 h2).1 hdata
  have e1 := toDigits_injective _ _ hi
  have e2 := toDigits_injective _ _ hd
  cases a; cases b; simp_all

/-! ## Identity of states -/

theorem StateOS.String_ne_empty (a : StateOS) : a.String ≠ "" := by
  intro h
  have := congrArg String.data h
  simp [StateOS.String, Nat.repr, List.asString] at this

theorem State.idString_eq (s : State) :
    s.idString = if s.Id = "" then s.FileStateOS.String else s.Id := by
  unfold State.idString State.ID
  split <;> rfl

theorem State.ID_snd_idString (s : State) : s.ID.2.idString = s.idString := by
  rw [State.idString_eq, State.idString_eq]
  unfold State.ID
  by_cases h : s.Id = ""
  · simp [h, StateOS.String_ne_empty]
  · simp [h]

theorem State.IsEqual_fst (a b : State) : (a.IsEqual b).1 = (a.idString == b.idString) := by
  simp [State.IsEqual, State.idString]

theorem State.IsEqual_snd_idString (a b : State) :
    (a.IsEqual b).2.2.idString = b.idString := by
  simp [State.IsEqual, State.ID_snd_idString]

theorem sameFile_iff (a b : State) : sameFile a b ↔ a.idString = b.idString := by
  simp [sameFile, State.IsEqual_fst]

theorem not_sameFile_iff (a b : State) :
    (a.IsEqual b).1 = false ↔ ¬ sameFile a b := by
  simp [sameFile]

/-! ## States.findPrevious and States.Update -/

theorem findPreviousLoop_none (states : List State) : ∀ (index : Int) (newState s : State),
    newState.idString = s.idString → (∀ t ∈ states, ¬ sameFile t s) →
    (findPreviousLoop states index newState).1 = -1 := by
  induction states with
  | nil => intro index newState s _ _; rfl
  | cons t rest ih =>
    intro index newState s hid hno
    have ht : ¬ sameFile t newState := by
      rw [sameFile_iff, hid, ← sameFile_iff]; exact hno t (List.mem_cons_self _ _)
    have hf : (t.IsEqual newState).1 = false := (not_sameFile_iff _ _).2 ht
    have hnext := State.IsEqual_snd_idString t newState
    unfold findPreviousLoop
    rcases hres : t.IsEqual newState with ⟨eq, t1, n1⟩
    rw [hres] at hf hnext
    simp only at hf hnext
    subst hf
    exact ih (index + 1) n1 s (hnext.trans hid) (fun x hx => hno x (List.mem_cons_of_mem _ hx))

theorem findPreviousLoop_some (pre : List State) : ∀ (index : Int) (newState s t : State)
    (post : List State),
    newState.idString = s.idString → (∀ x ∈ pre, ¬ sameFile x s) → sameFile t s →
    (findPreviousLoop (pre ++ t :: post) index newState).1 = index + pre.length := by
  induction pre with
  | nil =>
    intro index newState s t post hid _ hsame
    have ht : (t.IsEqual newState).1 = true := by
      show sameFile t newState
      rw [sameFile_iff, hid, ← sameFile_iff]; exact hsame
    simp only [List.nil_append, findPreviousLoop]
    rcases hres : t.IsEqual newState with ⟨eq, t1, n1⟩
    rw [hres] at ht
    simp only at ht
    subst ht
    simp
  | cons x rest ih =>
    intro index newState s t post hid hno hsame
    have hx : ¬ sameFile x newState := by
      rw [sameFile_iff, hid, ← sameFile_iff]; exact hno x (List.mem_cons_self _ _)
    have hf : (x.IsEqual newState).1 = false := (not_sameFile_iff _ _).2 hx
    have hnext := State.IsEqual_snd_idString x newState
    simp only [List.cons_append, findPreviousLoop]
    rcases hres : x.IsEqual newState with ⟨eq, x1, n1⟩
    rw [hres] at hf hnext
    simp only at hf hnext
    subst hf
    have key := ih (index + 1) n1 s t post (hnext.trans hid)
      (fun y hy => hno y (List.mem_cons_of_mem _ hy)) hsame
    show (findPreviousLoop (rest ++ t :: post) (index + 1) n1).1 = index + ↑(x :: rest).length
    rw [key]
    simp only [List.length_cons]
    push_cast
    ring

/-- The store after `Update` when no stored state is the same file: the new
state, stamped, is appended. -/
theorem Update_append (states : List State) (s : State) (now : Int)
    (hno : ∀ t ∈ states, ¬ sameFile t s) :
    States.Update states s now = states ++ [{ s with Timestamp := now }] := by
  unfold States.Update States.findPrevious
  rw [findPreviousLoop_none states 0 s s rfl hno]
  simp

/-- The store after `Update` when the first stored state that is the same file
is found after `pre`: that state is replaced by the new one, stamped. -/
theorem Update_replace (pre post : List State) (t s : State) (now : Int)
    (hno : ∀ x ∈ pre, ¬ sameFile x s) (hsame : sameFile t s) :
    States.Update (pre ++ t :: post) s now = pre ++ { s with Timestamp := now } :: post := by
  unfold States.Update States.findPrevious
  rw [findPreviousLoop_some pre 0 s s t post rfl hno hsame]
  have h0 : (0 : Int) + (pre.length : Int) ≥ 0 := by omega
  simp only [h0, if_true]
  have : ((0 : Int) + (pre.length : Int)).toNat = pre.length := by omega
  rw [this]
  simp

theorem getElem?_split {α : Type} (l : List α) (i : Nat) (t : α) (h : l[i]? = some t) :
    l = l.take i ++ t :: l.drop (i + 1) ∧ (l.take i).length = i := by
  obtain ⟨hi, ht⟩ := List.getElem?_eq_some.1 h
  refine ⟨?_, by simp; omega⟩
  have := List.take_append_drop i l
  rw [List.drop_eq_getElem_cons hi, ht] at this
  exact this.symm

theorem take_set_self {α : Type} (l : List α) : ∀ (k : Nat) (a : α),
    (l.set k a).take k = l.take k := by
  induction l with
  | nil => intro k a; simp
  | cons x xs ih =>
    intro k a
    cases k with
    | zero => simp
    | succ k => simp [ih]

theorem take_succ_set_self {α : Type} (l : List α) (k : Nat) (a : α) (h : k < l.length) :
    (l.set k a).take (k + 1) = l.take k ++ [a] := by
  rw [List.take_succ, take_set_self, List.getElem?_set_self h]
  rfl

/-! ## States.Cleanup -/

theorem cleanupLoop_spec (now : Int) (n : Nat) : ∀ (i k : Nat) (arr : List State),
    i + n = arr.length → k ≤ i →
    (cleanupLoop now n i k arr).2.take (cleanupLoop now n i k arr).1
      = arr.take k ++ (arr.drop i).filter (fun s => !removable now s) := by
  induction n with
  | zero =>
    intro i k arr hlen _
    have : arr.drop i = [] := List.drop_eq_nil_of_le (by omega)
    simp [cleanupLoop, this]
  | succ n ih =>
    intro i k arr hlen hk
    have hi : i < arr.length := by omega
    have hget : arr[i]? = some arr[i] := List.getElem?_eq_getElem hi
    have hdrop : arr.drop i = arr[i] :: arr.drop (i + 1) := List.drop_eq_getElem_cons hi
    have hkeep : (cleanupLoop now n (i + 1) (k + 1) (arr.set k arr[i])).2.take
        (cleanupLoop now n (i + 1) (k + 1) (arr.set k arr[i])).1
        = arr.take k ++ arr[i] :: (arr.drop (i + 1)).filter (fun s => !removable now s) := by
      rw [ih (i + 1) (k + 1) (arr.set k arr[i]) (by simp; omega) (by omega)]
      rw [List.drop_set_of_lt _ _ (by omega), take_succ_set_self _ _ _ (by omega)]
      simp
    simp only [cleanupLoop, hget]
    by_cases h1 : (arr[i].TTL == 0 || (decide (arr[i].TTL > 0) &&
        decide (timeSub now arr[i].Timestamp > arr[i].TTL))) = true
    · by_cases h2 : arr[i].Finished = true
      · have hrem : removable now arr[i] = true := by
          simp only [removable, h2, Bool.true_and]; exact h1
        simp only [h1, h2, if_true]
        rw [ih (i + 1) k arr (by omega) (by omega), hdrop, List.filter_cons]
        simp only [hrem, Bool.not_true, Bool.false_eq_true, if_false]
      · have h2f : arr[i].Finished = false := by simpa using h2
        have hrem : removable now arr[i] = false := by
          simp [removable, h2f]
        simp only [h1, h2f, if_true, Bool.false_eq_true, if_false]
        rw [hkeep, hdrop, List.filter_cons]
        simp only [hrem, Bool.not_false, if_true]
    · have h1f : (arr[i].TTL == 0 || (decide (arr[i].TTL > 0) &&
          decide (timeSub now arr[i].Timestamp > arr[i].TTL))) = false := by simpa using h1
      have hrem : removable now arr[i] = false := by
        simp only [removable, h1f, Bool.and_false]
      simp only [h1f, Bool.false_eq_true, if_false]
      rw [hkeep, hdrop, List.filter_cons]
      simp only [hrem, Bool.not_false, if_true]

theorem Cleanup_fst (states : List State) (now : Int) :
    (States.Cleanup states now).1 = states.filter (fun s => !removable now s) := by
  have := cleanupLoop_spec now states.length 0 0 states (by simp) (le_refl _)
  simpa [States.Cleanup] using this

theorem Cleanup_snd (states : List State) (now : Int) :
    (States.Cleanup states now).2 = (states.countP (removable now) : Int) := by
  have h1 := Cleanup_fst states now
  have h2 : (States.Cleanup states now).2
      = (states.length : Int) - ((States.Cleanup states now).1.length : Int) := by
    simp [States.Cleanup]
  rw [h2, h1]
  have h3 := List.length_eq_countP_add_countP (removable now) states
  have h4 : (states.filter (fun s => !removable now s)).length
      = states.countP (fun a => ¬ removable now a = true) := by
    rw [← List.countP_eq_length_filter]
    congr 1
    funext a
    simp
  omega

/-! ## resetStates -/

theorem resetStatesLoop_spec (n : Nat) : ∀ (key : Nat) (states : List State),
    key + n = states.length →
    resetStatesLoop n key states = states.take key ++ (states.drop key).map resetState := by
  induction n with
  | zero =>
    intro key states hlen
    have h1 : states.drop key = [] := List.drop_eq_nil_of_le (by omega)
    have h2 : states.take key = states := List.take_of_length_le (by omega)
    simp only [resetStatesLoop, h1, h2, List.map_nil, List.append_nil]
  | succ n ih =>
    intro key states hlen
    have hi : key < states.length := by omega
    have hget : states[key]? = some states[key] := List.getElem?_eq_getElem hi
    simp only [resetStatesLoop, hget]
    rw [ih (key + 1) _ (by rw [List.length_set]; omega), List.drop_set_of_lt _ _ (by omega),
      take_succ_set_self _ _ _ hi]
    conv_rhs => rw [List.drop_eq_getElem_cons hi]
    simp only [List.map_cons, List.append_assoc, List.singleton_append, resetState]

theorem resetStates_eq_map (states : List State) :
    resetStates states = states.map resetState := by
  have := resetStatesLoop_spec states.length 0 states (by simp)
  simpa [resetStates] using this

/-! ## The claims on the state store -/

theorem NoDuplicates_iff (states : List State) :
    NoDuplicates states ↔ (states.map State.idString).Nodup := by
  unfold NoDuplicates List.Nodup
  rw [List.pairwise_map]
  constructor <;> intro h <;> refine h.imp ?_ <;> intro a b hab
  · rwa [sameFile_iff] at hab
  · rwa [sameFile_iff]

theorem idString_stamp (s : State) (now : Int) :
    State.idString { s with Timestamp := now } = s.idString := by
  simp [State.idString_eq]

theorem first_sameFile_split (s : State) : ∀ (states : List State),
    (∃ t ∈ states, sameFile t s) →
    ∃ pre t post, states = pre ++ t :: post ∧ sameFile t s ∧ ∀ x ∈ pre, ¬ sameFile x s := by
  intro states
  induction states with
  | nil => rintro ⟨t, ht, _⟩; simp at ht
  | cons x rest ih =>
    intro hex
    by_cases hx : sameFile x s
    · exact ⟨[], x, rest, rfl, hx, by simp⟩
    · obtain ⟨t, ht, hts⟩ := hex
      have htr : t ∈ rest := by
        rcases List.mem_cons.1 ht with h | h
        · subst h; exact absurd hts hx
        · exact h
      obtain ⟨pre, t1, post, hsplit, hsame, hpre⟩ := ih ⟨t, htr, hts⟩
      refine ⟨x :: pre, t1, post, by simp [hsplit], hsame, ?_⟩
      intro y hy
      rcases List.mem_cons.1 hy with h | h
      · subst h; exact hx
      · exact hpre y h

theorem Update_NoDuplicates (states : List State) (s : State) (now : Int)
    (h : NoDuplicates states) : NoDuplicates (States.Update states s now) := by
  by_cases hex : ∃ t ∈ states, sameFile t s
  · obtain ⟨pre, t, post, hsplit, hsame, hpre⟩ := first_sameFile_split s states hex
    subst hsplit
    rw [Update_replace pre post t s now hpre hsame]
    rw [NoDuplicates_iff] at h ⊢
    have : State.idString { s with Timestamp := now } = t.idString := by
      rw [idString_stamp]; exact ((sameFile_iff t s).1 hsame).symm
    simpa [this] using h
  · have hno : ∀ t ∈ states, ¬ sameFile t s := fun t ht hts => hex ⟨t, ht, hts⟩
    rw [Update_append states s now hno]
    rw [NoDuplicates_iff] at h ⊢
    rw [List.map_append, List.nodup_append]
    refine ⟨h, by simp, ?_⟩
    intro a ha hb
    simp only [List.map_cons, List.map_nil, List.mem_singleton] at hb
    obtain ⟨t, ht, hta⟩ := List.mem_map.1 ha
    apply hno t ht
    rw [sameFile_iff, hta, hb, idString_stamp]

theorem Cleanup_NoDuplicates (states : List State) (now : Int)
    (h : NoDuplicates states) : NoDuplicates (States.Cleanup states now).1 := by
  rw [Cleanup_fst]
  exact List.Pairwise.sublist (List.filter_sublist _) h

/-- C2, as amended.  Starting from an empty store, after any sequence of
`Update`, `Cleanup` and `SetStates` operations in which every list handed to
`SetStates` holds no two states that are `IsEqual`, the store holds no two
states that are `IsEqual`: at most one state per file identity. -/
theorem store_one_state_per_identity (ops : List StoreOp)
    (hset : ∀ l, StoreOp.setStates l ∈ ops → NoDuplicates l) :
    NoDuplicates (runOps [] ops) := by
  have key : ∀ (ops : List StoreOp) (store : List State), NoDuplicates store →
      (∀ l, StoreOp.setStates l ∈ ops → NoDuplicates l) → NoDuplicates (runOps store ops) := by
    intro ops
    induction ops with
    | nil => intro store h _; exact h
    | cons op rest ih =>
      intro store h hops
      have hrest : ∀ l, StoreOp.setStates l ∈ rest → NoDuplicates l :=
        fun l hl => hops l (List.mem_cons_of_mem _ hl)
      show NoDuplicates (runOps (StoreOp.apply store op) rest)
      apply ih _ _ hrest
      cases op with
      | update s now => exact Update_NoDuplicates store s now h
      | cleanup now => exact Cleanup_NoDuplicates store now h
      | setStates l => exact hops l (List.mem_cons_self _ _)
  exact key ops [] List.Pairwise.nil hset

/-- C2, witness: six operations that end with a replacing `Update`. -/
theorem store_one_state_per_identity_witness :
    NoDuplicates (runOps [] [StoreOp.update stateA 1, StoreOp.update stateB 2,
      StoreOp.cleanup 3, StoreOp.setStates [stateA, stateB], StoreOp.update stateB2 4]) :=
  store_one_state_per_identity _ (by
    intro l hl
    have : l = [stateA, stateB] := by simpa using hl
    subst this
    rw [NoDuplicates_iff]
    decide)

/-- C2, counterexample: `SetStates` stores the list it is given as it is, so
after `SetStates [stateA, stateA]` on the empty store two stored states are
`IsEqual`. -/
theorem store_one_state_per_identity_fails :
    ¬ NoDuplicates (runOps [] [StoreOp.setStates [stateA, stateA]]) := by
  rw [NoDuplicates_iff]
  decide

/-- C3.  For every store and every state `s`: when the state stored at index
`i` is the first one that is `IsEqual` to `s`, `Update` puts `s`, with its
timestamp set to now, at index `i`, and the length and every other entry stay
as they were; when no stored state is `IsEqual` to `s`, `Update` appends `s`,
stamped, and every entry already stored stays as it was. -/
theorem Update_replaces_in_place_or_appends (states : List State) (s : State) (now : Int) :
    (∀ (i : Nat) (t : State), states[i]? = some t → sameFile t s →
        (∀ (j : Nat) (x : State), j < i → states[j]? = some x → ¬ sameFile x s) →
        States.Update states s now = states.set i { s with Timestamp := now } ∧
        (States.Update states s now).length = states.length ∧
        (States.Update states s now)[i]? = some { s with Timestamp := now } ∧
        ∀ j, j ≠ i → (States.Update states s now)[j]? = states[j]?) ∧
    ((∀ t ∈ states, ¬ sameFile t s) →
        States.Update states s now = states ++ [{ s with Timestamp := now }] ∧
        ∀ j, j < states.length → (States.Update states s now)[j]? = states[j]?) := by
  constructor
  · intro i t hget hsame hfirst
    obtain ⟨hsplit, hlen⟩ := getElem?_split states i t hget
    have hi : i < states.length := (List.getElem?_eq_some.1 hget).1
    have hpre : ∀ x ∈ states.take i, ¬ sameFile x s := by
      intro x hx
      obtain ⟨j, hj, hjx⟩ := List.getElem_of_mem hx
      have hji : j < i := by simpa [hlen] using hj
      apply hfirst j x hji
      rw [← hjx, List.getElem_take]
      exact List.getElem?_eq_getElem _
    have hupd : States.Update states s now = states.set i { s with Timestamp := now } := by
      conv_lhs => rw [hsplit]
      rw [Update_replace _ _ t s now hpre hsame]
      conv_rhs => rw [hsplit]
      rw [List.set_append_right _ _ (by omega)]
      simp [hlen]
    refine ⟨hupd, ?_, ?_, ?_⟩
    · rw [hupd, List.length_set]
    · rw [hupd, List.getElem?_set_self hi]
    · intro j hj
      rw [hupd, List.getElem?_set_ne (Ne.symm hj)]
  · intro hno
    have hupd := Update_append states s now hno
    refine ⟨hupd, ?_⟩
    intro j hj
    rw [hupd, List.getElem?_append_left hj]

/-- C3, witness: `stateB2` replaces `stateB`, the same file, at index 1 of a
store of two, and is appended to a store that holds only `stateA`. -/
theorem Update_replaces_in_place_or_appends_witness :
    States.Update [stateA, stateB] stateB2 7
        = [stateA, { stateB2 with Timestamp := 7 }] ∧
      States.Update [stateA] stateB2 7 = [stateA, { stateB2 with Timestamp := 7 }] :=
  ⟨((Update_replaces_in_place_or_appends [stateA, stateB] stateB2 7).1 1 stateB rfl
      (by decide) (by
        intro j x hj hx
        have hj0 : j = 0 := by omega
        subst hj0
        have : x = stateA := by simpa using hx.symm
        subst this
        decide)).1,
   ((Update_replaces_in_place_or_appends [stateA] stateB2 7).2 (by
        intro t ht
        have : t = stateA := by simpa using ht
        subst this
        decide)).1⟩

/-- C4.  For every store and every clock value now, `Cleanup` keeps exactly
the states that are not (finished and (ttl = 0 or (ttl > 0 and now - timestamp
> ttl))), in their original order, and returns the number of states it
removed; a state that is not finished is kept, and so is a state with negative
ttl.  Here now - timestamp is `Time.Sub`. -/
theorem Cleanup_removes_exactly_finished_expired (states : List State) (now : Int) :
    (States.Cleanup states now).1 = states.filter (fun s => !removable now s) ∧
    (States.Cleanup states now).2 = (states.countP (removable now) : Int) ∧
    (∀ s ∈ states, s.Finished = false → s ∈ (States.Cleanup states now).1) ∧
    (∀ s ∈ states, s.TTL < 0 → s ∈ (States.Cleanup states now).1) := by
  refine ⟨Cleanup_fst states now, Cleanup_snd states now, ?_, ?_⟩
  · intro s hs hf
    rw [Cleanup_fst, List.mem_filter]
    exact ⟨hs, by simp [removable, hf]⟩
  · intro s hs hneg
    rw [Cleanup_fst, List.mem_filter]
    refine ⟨hs, ?_⟩
    have h1 : ¬ s.TTL = 0 := by omega
    have h2 : ¬ s.TTL > 0 := by omega
    simp [removable, h1, h2]

/-- C4, witness: at time 200 the finished states with ttl 0 and with an
exceeded ttl of 50 are removed; the state whose worker has not finished and the
state with ttl -1 are kept. -/
theorem Cleanup_removes_exactly_finished_expired_witness :
    States.Cleanup [stateA, stateB, stateC, stateD] 200 = ([stateA, stateD], 2) ∧
      stateD ∈ (States.Cleanup [stateA, stateB, stateC, stateD] 200).1 ∧
      stateA ∈ (States.Cleanup [stateA, stateB, stateC, stateD] 200).1 :=
  ⟨by decide,
   (Cleanup_removes_exactly_finished_expired [stateA, stateB, stateC, stateD] 200).2.2.1
      stateD (by decide) (by decide),
   (Cleanup_removes_exactly_finished_expired [stateA, stateB, stateC, stateD] 200).2.2.2
      stateA (by decide) (by decide)⟩

/-- C5.  For all states `a` and `b` with no cached `Id`, `a.IsEqual(b)` holds
if and only if their `FileStateOS` have the same inode and the same device,
that is, exactly when `StateOS.IsSame` holds; the answer is the same for any
two states with these `FileStateOS`, whatever their other fields. -/
theorem IsEqual_iff_same_inode_and_device (a b : State) (ha : a.Id = "") (hb : b.Id = "") :
    ((a.IsEqual b).1 = true ↔
        a.FileStateOS.Inode = b.FileStateOS.Inode ∧ a.FileStateOS.Device = b.FileStateOS.Device) ∧
    (a.IsEqual b).1 = a.FileStateOS.IsSame b.FileStateOS ∧
    (∀ a2 b2 : State, a2.Id = "" → b2.Id = "" → a2.FileStateOS = a.FileStateOS →
        b2.FileStateOS = b.FileStateOS → (a2.IsEqual b2).1 = (a.IsEqual b).1) := by
  have key : ∀ x y : State, x.Id = "" → y.Id = "" →
      ((x.IsEqual y).1 = true ↔ x.FileStateOS = y.FileStateOS) := by
    intro x y hx hy
    rw [State.IsEqual_fst, State.idString_eq, State.idString_eq, if_pos hx, if_pos hy]
    simp only [beq_iff_eq]
    exact ⟨StateOS.String_injective _ _, fun h => by rw [h]⟩
  have hiff : (a.IsEqual b).1 = true ↔
      a.FileStateOS.Inode = b.FileStateOS.Inode ∧ a.FileStateOS.Device = b.FileStateOS.Device := by
    rw [key a b ha hb]
    constructor
    · intro h; rw [h]; exact ⟨rfl, rfl⟩
    · rintro ⟨h1, h2⟩
      cases hA : a.FileStateOS; cases hB : b.FileStateOS
      simp_all
  refine ⟨hiff, ?_, ?_⟩
  · rw [Bool.eq_iff_iff, hiff]
    simp [StateOS.IsSame]
  · intro a2 b2 ha2 hb2 hao hbo
    rw [Bool.eq_iff_iff, key a2 b2 ha2 hb2, key a b ha hb, hao, hbo]

/-- C5, witness: `stateB` and `stateB2` differ in path, offset, ttl and
timestamp and have the same inode and device, so they are `IsEqual`. -/
theorem IsEqual_iff_same_inode_and_device_witness :
    (stateB.IsEqual stateB2).1 = stateB.FileStateOS.IsSame stateB2.FileStateOS ∧
      (stateB.IsEqual stateB2).1 = true ∧ stateB.Source ≠ stateB2.Source :=
  ⟨(IsEqual_iff_same_inode_and_device stateB stateB2 rfl rfl).2.1,
   (IsEqual_iff_same_inode_and_device stateB stateB2 rfl rfl).1.2 ⟨rfl, rfl⟩,
   by decide⟩

/-- C7.  For every list of decoded states, `resetStates` returns a list of the
same length in which the state at each index is the decoded state of that
index with `Finished` set to true and `TTL` set to -2: its identity, source,
offset, timestamp and type are those decoded. -/
theorem resetStates_marks_finished_unclaimed (states : List State) :
    (resetStates states).length = states.length ∧
    ∀ (i : Nat) (s : State), states[i]? = some s →
      ∃ r : State, (resetStates states)[i]? = some r ∧ r.Finished = true ∧ r.TTL = -2 ∧
        r.FileStateOS = s.FileStateOS ∧ r.Id = s.Id ∧ r.Source = s.Source ∧
        r.Offset = s.Offset ∧ r.Timestamp = s.Timestamp ∧ r.Type_ = s.Type_ ∧
        r.Fileinfo = s.Fileinfo := by
  rw [resetStates_eq_map]
  refine ⟨by simp, ?_⟩
  intro i s hs
  refine ⟨resetState s, by simp [hs], ?_⟩
  simp [resetState]

/-- C7, witness: the decoded pair `stateA`, `stateB`. -/
theorem resetStates_marks_finished_unclaimed_witness :
    ∃ r : State, (resetStates [stateA, stateB])[0]? = some r ∧ r.Finished = true ∧ r.TTL = -2 ∧
        r.FileStateOS = stateA.FileStateOS ∧ r.Id = stateA.Id ∧ r.Source = stateA.Source ∧
        r.Offset = stateA.Offset ∧ r.Timestamp = stateA.Timestamp ∧ r.Type_ = stateA.Type_ ∧
        r.Fileinfo = stateA.Fileinfo :=
  (resetStates_marks_finished_unclaimed [stateA, stateB]).2 0 stateA rfl

/-! ## The registry file -/

theorem decodeRune_utf8EncodeChar (c : Char) (rest : List Nat) :
    decodeRune (utf8EncodeChar c.toNat ++ rest)
      = (c.toNat, (utf8EncodeChar c.toNat).length) := by
  have hv : c.toNat < 0xD800 ∨ (0xDFFF < c.toNat ∧ c.toNat < 0x110000) := c.valid
  generalize c.toNat = n at hv
  unfold utf8EncodeChar
  split_ifs with h1 h2 h3
  · simp [decodeRune, h1]
  · simp only [List.cons_append, List.nil_append, decodeRune, List.length_cons, List.length_nil]
    rw [if_neg (by omega), if_pos (by omega), if_pos (by omega)]
    simp only [Prod.mk.injEq, and_true]
    omega
  · simp only [List.cons_append, List.nil_append, decodeRune, List.length_cons, List.length_nil]
    rw [if_neg (by omega), if_neg (by omega), if_pos (by omega), if_pos (by split_ifs <;> omega)]
    simp only [Prod.mk.injEq, and_true]
    omega
  · simp only [List.cons_append, List.nil_append, decodeRune, List.length_cons, List.length_nil]
    rw [if_neg (by omega), if_neg (by omega), if_neg (by omega), if_pos (by omega),
      if_pos (by split_ifs <;> omega)]
    simp only [Prod.mk.injEq, and_true]
    omega

theorem utf8EncodeChar_length_pos (n : Nat) : 0 < (utf8EncodeChar n).length := by
  unfold utf8EncodeChar
  split_ifs <;> simp

theorem jsonTextLoop_goBytesOf : ∀ (cs : List Char) (fuel : Nat),
    (goBytesOf cs).length ≤ fuel → jsonTextLoop fuel (goBytesOf cs) = cs := by
  intro cs
  induction cs with
  | nil =>
    intro fuel _
    cases fuel <;> rfl
  | cons c rest ih =>
    intro fuel hfuel
    have hpos := utf8EncodeChar_length_pos c.toNat
    have hdec := decodeRune_utf8EncodeChar c (goBytesOf rest)
    simp only [goBytesOf, List.length_append] at hfuel ⊢
    cases fuel with
    | zero => omega
    | succ f =>
      cases henc : utf8EncodeChar c.toNat ++ goBytesOf rest with
      | nil =>
        have := congrArg List.length henc
        simp only [List.length_append, List.length_nil] at this
        omega
      | cons b0 tl =>
        rw [henc] at hdec
        simp only [jsonTextLoop, hdec]
        rw [← henc, List.drop_left, ih f (by omega)]
        simp [Char.ofNat_toNat]

/-- What `encoding/json` writes for a Go string that is valid UTF-8 is its
text. -/
theorem jsonText_goBytes (s : String) : jsonText (goBytes s) = s := by
  unfold jsonText goBytes
  rw [jsonTextLoop_goBytesOf s.data _ (le_refl _)]

/-- A byte that is no valid UTF-8 is written as U+FFFD: the Go string of the
one byte 0xFF comes back as the three bytes of U+FFFD. -/
theorem jsonText_invalid_byte :
    jsonText [0xFF] = String.mk [Char.ofNat 0xFFFD] ∧
    goBytes (jsonText [0xFF]) = [0xEF, 0xBF, 0xBD] ∧
    jsonText [0x61, 0xC3, 0x28] = String.mk [Char.ofNat 0x61, Char.ofNat 0xFFFD, Char.ofNat 0x28] := by
  decide

/-- The decoder matches a key with a field without regard to case, applies the
members in the order of the document, and skips a key that is for no field. -/
theorem decodeState_key_fold :
    decodeState parseTimeX
        (Json.obj [("SOURCE", Json.str "/t/a.log"), ("Offset", Json.num 3),
          ("offset", Json.null), ("id", Json.str "x")])
      = some { State.zero with Source := "/t/a.log", Offset := 3 } := by
  decide

/-- A number out of the range of the field is an error of the decoder. -/
theorem decodeInt_out_of_range :
    decodeInt 0 (Json.num 9223372036854775808) = none ∧
    decodeInt 0 (Json.num 9223372036854775807) = some 9223372036854775807 ∧
    decodeUint 0 (Json.num (-1)) = none ∧
    decodeUint 0 (Json.num 18446744073709551616) = none ∧
    decodeInt 0 Json.float = none := by
  decide

theorem decodeStateOS_encodeStateOS (old fs : StateOS)
    (hi : (fs.Inode : Int) ≤ maxUint64) (hd : (fs.Device : Int) ≤ maxUint64) :
    decodeStateOS old (encodeStateOS fs) = some fs := by
  have k1 : keyMatches "inode" "inode" = true := by decide
  have k2 : keyMatches "inode" "device" = false := by decide
  have k3 : keyMatches "device" "device" = true := by decide
  have hi0 : (0 : Int) ≤ fs.Inode := by omega
  have hd0 : (0 : Int) ≤ fs.Device := by omega
  simp only [decodeStateOS, encodeStateOS, decodeMembers, decodeStateOSMember, k1, k2, k3,
    if_true, Bool.false_eq_true, if_false, decodeUint, hi, hd, hi0, hd0, and_self,
    Option.map_some', Int.toNat_ofNat]

theorem decodeState_encodeState (format : Int → String) (parse : String → Option Int)
    (s : State) (hrange : s.InRange) (htime : timeInRange s.Timestamp = true)
    (hparse : parse (format s.Timestamp) = some s.Timestamp) :
    ∃ j, encodeState format s = some j ∧ decodeState parse j = some (persisted s) := by
  obtain ⟨h1, h2, h3, h4, h5, h6⟩ := hrange
  have henc : encodeState format s =
      some (Json.obj [("source", Json.str (jsonText (goBytes s.Source))),
        ("offset", Json.num s.Offset), ("timestamp", Json.str (format s.Timestamp)),
        ("ttl", Json.num s.TTL), ("type", Json.str (jsonText (goBytes s.Type_))),
        ("FileStateOS", encodeStateOS s.FileStateOS)]) := by
    simp only [encodeState, htime, if_true]
  refine ⟨_, henc, ?_⟩
  have ks : keyMatches "source" "source" = true := by decide
  have ko1 : keyMatches "source" "offset" = false := by decide
  have ko : keyMatches "offset" "offset" = true := by decide
  have kt1 : keyMatches "source" "timestamp" = false := by decide
  have kt2 : keyMatches "offset" "timestamp" = false := by decide
  have kt : keyMatches "timestamp" "timestamp" = true := by decide
  have kl1 : keyMatches "source" "ttl" = false := by decide
  have kl2 : keyMatches "offset" "ttl" = false := by decide
  have kl3 : keyMatches "timestamp" "ttl" = false := by decide
  have kl : keyMatches "ttl" "ttl" = true := by decide
  have ky1 : keyMatches "source" "type" = false := by decide
  have ky2 : keyMatches "offset" "type" = false := by decide
  have ky3 : keyMatches "timestamp" "type" = false := by decide
  have ky4 : keyMatches "ttl" "type" = false := by decide
  have ky : keyMatches "type" "type" = true := by decide
  have kf1 : keyMatches "source" "FileStateOS" = false := by decide
  have kf2 : keyMatches "offset" "FileStateOS" = false := by decide
  have kf3 : keyMatches "timestamp" "FileStateOS" = false := by decide
  have kf4 : keyMatches "ttl" "FileStateOS" = false := by decide
  have kf5 : keyMatches "type" "FileStateOS" = false := by decide
  have kf : keyMatches "FileStateOS" "FileStateOS" = true := by decide
  simp only [decodeState, decodeMembers, decodeStateMember, ks, ko1, ko, kt1, kt2, kt, kl1, kl2,
    kl3, kl, ky1, ky2, ky3, ky4, ky, kf1, kf2, kf3, kf4, kf5, kf, if_true, Bool.false_eq_true,
    if_false, decodeString, decodeInt, decodeTime, hparse, h1, h2, h3, h4, and_self,
    Option.map_some', jsonText_goBytes, decodeStateOS_encodeStateOS _ _ h5 h6]
  rfl

theorem encodeStateList_decode (format : Int → String) (parse : String → Option Int) :
    ∀ states : List State, (∀ s ∈ states, s.InRange) →
    (∀ s ∈ states,
      timeInRange s.Timestamp = true ∧ parse (format s.Timestamp) = some s.Timestamp) →
    ∃ l, encodeStateList format states = some l ∧
      decodeStateList parse l = some (states.map persisted) := by
  intro states
  induction states with
  | nil => intro _ _; exact ⟨[], rfl, rfl⟩
  | cons s rest ih =>
    intro hrange htime
    obtain ⟨l, hl1, hl2⟩ := ih (fun x hx => hrange x (List.mem_cons_of_mem _ hx))
      (fun x hx => htime x (List.mem_cons_of_mem _ hx))
    obtain ⟨j, hj1, hj2⟩ := decodeState_encodeState format parse s
      (hrange s (List.mem_cons_self _ _)) (htime s (List.mem_cons_self _ _)).1
      (htime s (List.mem_cons_self _ _)).2
    refine ⟨j :: l, ?_, ?_⟩
    · simp only [encodeStateList, hj1, hl1]
    · simp only [decodeStateList, hj2, hl2, List.map_cons]

theorem encodeState_time_out_of_range (format : Int → String) (s : State)
    (h : timeInRange s.Timestamp = false) : encodeState format s = none := by
  simp only [encodeState, h, Bool.false_eq_true, if_false]

theorem runSteps_untouched (tmp p : String) (hp : p ≠ tmp) : ∀ (steps : List FsStep)
    (fs : FileSystem), (∀ st ∈ steps, touchesOnly tmp st) → runSteps fs steps p = fs p := by
  intro steps
  induction steps with
  | nil => intro fs _; rfl
  | cons st rest ih =>
    intro fs h
    show runSteps (FsStep.apply fs st) rest p = fs p
    rw [ih _ (fun x hx => h x (List.mem_cons_of_mem _ hx))]
    have hst := h st (List.mem_cons_self _ _)
    cases st with
    | openTrunc path =>
      simp only [touchesOnly] at hst
      simp [FsStep.apply, hst, hp]
    | write path data =>
      simp only [touchesOnly] at hst
      simp [FsStep.apply, hst, hp]
    | close path => rfl
    | rename a b => exact absurd hst (by simp [touchesOnly])

theorem runSteps_writes (tmp : String) : ∀ (chunks : List (List Nat)) (fs : FileSystem)
    (content : List Nat), fs tmp = some content →
    runSteps fs (chunks.map (FsStep.write tmp)) tmp = some (content ++ chunks.flatten) := by
  intro chunks
  induction chunks with
  | nil => intro fs content h; simpa [runSteps] using h
  | cons c rest ih =>
    intro fs content h
    show runSteps (FsStep.apply fs (FsStep.write tmp c)) (rest.map (FsStep.write tmp)) tmp = _
    rw [ih _ (content ++ c) (by simp [FsStep.apply, h])]
    simp

theorem runSteps_append (fs : FileSystem) (a b : List FsStep) :
    runSteps fs (a ++ b) = runSteps (runSteps fs a) b := by
  simp [runSteps, List.foldl_append]

theorem tempfile_ne (registrarFile : String) : registrarFile ≠ registrarFile ++ ".new" := by
  intro h
  have := congrArg String.length h
  simp [String.length_append] at this
  exact absurd this (by decide)

/-- C8.  Take `writeRegistrar` as its sequence of file operations: create or
truncate the temporary file `path + ".new"`, write the encoded states there in
any number of pieces, close it, rename it over the live path.  After every
prefix of this sequence the live registry path holds either what it held
before (the complete previous snapshot, or no file) or the complete new
snapshot; and after the whole sequence it holds the complete new snapshot. -/
theorem writeRegistrar_live_file_never_partial (fs : FileSystem) (registrarFile : String)
    (chunks : List (List Nat)) (k : Nat) :
    (runSteps fs ((writeRegistrarSteps registrarFile chunks).take k) registrarFile
        = fs registrarFile ∨
      runSteps fs ((writeRegistrarSteps registrarFile chunks).take k) registrarFile
        = some chunks.flatten) ∧
    runSteps fs (writeRegistrarSteps registrarFile chunks) registrarFile = some chunks.flatten := by
  have hne := tempfile_ne registrarFile
  set tmp := registrarFile ++ ".new" with htmp
  set pre : List FsStep :=
    [FsStep.openTrunc tmp] ++ chunks.map (FsStep.write tmp) ++ [FsStep.close tmp] with hpre
  have hsteps : writeRegistrarSteps registrarFile chunks = pre ++ [FsStep.rename tmp registrarFile] := by
    simp [writeRegistrarSteps, hpre, htmp]
  have htouch : ∀ st ∈ pre, touchesOnly tmp st := by
    intro st hst
    simp only [hpre, List.mem_append, List.mem_singleton, List.mem_map] at hst
    rcases hst with (h | ⟨c, _, h⟩) | h <;> subst h <;> simp [touchesOnly]
  have hfull : runSteps fs (pre ++ [FsStep.rename tmp registrarFile]) registrarFile
      = some chunks.flatten := by
    have htmpc : runSteps fs pre tmp = some chunks.flatten := by
      rw [hpre, runSteps_append, runSteps_append]
      have h1 : runSteps (runSteps fs [FsStep.openTrunc tmp]) (chunks.map (FsStep.write tmp)) tmp
          = some ([] ++ chunks.flatten) :=
        runSteps_writes tmp chunks _ [] (by simp [runSteps, FsStep.apply])
      simpa [runSteps, FsStep.apply] using h1
    rw [runSteps_append]
    show FsStep.apply (runSteps fs pre) (FsStep.rename tmp registrarFile) registrarFile = _
    simp [FsStep.apply, htmpc]
  refine ⟨?_, by rw [hsteps]; exact hfull⟩
  rw [hsteps]
  by_cases hk : k ≤ pre.length
  · left
    rw [List.take_append_of_le_length hk]
    exact runSteps_untouched tmp registrarFile hne _ fs
      (fun st hst => htouch st (List.mem_of_mem_take hst))
  · right
    rw [List.take_of_length_le (by simp; omega)]
    exact hfull

/-! ## The worker -/

theorem Update_mem (states : List State) (s : State) (now : Int) :
    { s with Timestamp := now } ∈ States.Update states s now := by
  by_cases hex : ∃ t ∈ states, sameFile t s
  · obtain ⟨pre, t, post, hsplit, hsame, hpre⟩ := first_sameFile_split s states hex
    subst hsplit
    rw [Update_replace pre post t s now hpre hsame]
    simp
  · rw [Update_append states s now (fun t ht hts => hex ⟨t, ht, hts⟩)]
    simp

theorem Update_entry_unique (states : List State) (s : State) (now : Int)
    (h : NoDuplicates states) (t : State) (ht : t ∈ States.Update states s now)
    (hts : sameFile t s) : t = { s with Timestamp := now } := by
  have hnd := (NoDuplicates_iff _).1 (Update_NoDuplicates states s now h)
  apply List.inj_on_of_nodup_map hnd ht (Update_mem states s now)
  exact ((sameFile_iff t s).1 hts).trans (idString_stamp s now).symm

theorem with_FileStateOS_self (st : State) (info : FileInfo)
    (h : st.FileStateOS = GetOSState info) :
    { st with FileStateOS := GetOSState info } = st := by
  cases st
  simp_all

theorem idString_of_inv (st : State) (info : FileInfo)
    (h1 : st.FileStateOS = GetOSState info) (h2 : st.Id = "") :
    st.idString = (GetOSState info).String := by
  rw [State.idString_eq, if_pos h2, h1]

theorem trimFirst_Bytes (offset : Int) (message : Message) :
    (trimFirst offset message).Bytes = message.Bytes := by
  unfold trimFirst
  split <;> rfl

theorem buildData_state (config : Config) (state : State) (message : Message) :
    (buildData config true state message).state = state := by
  unfold buildData
  simp only [if_true]
  split <;> rfl

/-- One iteration of the loop of `Run` on a message read without error, for a
worker whose source has state: the store is updated with the advanced state,
then the event is published; the worker takes the advanced state as its own
when the publish succeeded, and `Run` returns when it failed. -/
theorem runMessage_spec {σ : Type} (env : Env σ) (w : Scanner σ) (message : Message)
    (src : Source) (info : FileInfo) (hhas : src.HasState = true)
    (hinv : WorkerInv src info w) :
    ∃ ev : Event,
      runMessage env w message =
        (if env.publish w.publishCalls ev = true then none else some Outcome.returned,
         { w with
           state := if env.publish w.publishCalls ev = true then
               { w.state with Offset := w.state.Offset + message.Bytes } else w.state,
           states := States.Update w.states
               { w.state with Offset := w.state.Offset + message.Bytes } (env.clock w.clockReads),
           clockReads := w.clockReads + 1,
           publishCalls := w.publishCalls + 1,
           trace := w.trace ++
             [Action.update { w.state with Offset := w.state.Offset + message.Bytes },
              Action.publish ev (env.publish w.publishCalls ev)] }) := by
  obtain ⟨⟨c, hsrc⟩, hfi, hos, _, _⟩ := hinv
  obtain ⟨config, source, state, states, reader, cr, pc, trace⟩ := w
  obtain ⟨id, fin, fi, path, off, ts, ttl, ty, os⟩ := state
  simp only at hsrc hfi hos
  subst hsrc hfi hos
  refine ⟨(buildData config true
    { Id := id, Finished := fin, Fileinfo := some info, Source := path,
      Offset := off + message.Bytes, Timestamp := ts, TTL := ttl, Type_ := ty,
      FileStateOS := GetOSState info } (trimFirst off message)).Event, ?_⟩
  simp only [runMessage, hhas, getState, Bool.not_true, Bool.false_eq_true, if_false,
    trimFirst_Bytes, sendEvent, if_true, buildData_state]
  split <;> rename_i ok w1 heq <;> simp only [Prod.mk.injEq] at heq <;>
    obtain ⟨hok, hw1⟩ := heq <;> subst hw1 <;> simp only [hok, Bool.false_eq_true, if_false,
      if_true, List.append_assoc, List.cons_append, List.nil_append]

theorem runMessage_inv {σ : Type} (env : Env σ) (w : Scanner σ) (message : Message)
    (src : Source) (info : FileInfo) (hhas : src.HasState = true)
    (hinv : WorkerInv src info w) : WorkerInv src info (runMessage env w message).2 := by
  obtain ⟨ev, hev⟩ := runMessage_spec env w message src info hhas hinv
  obtain ⟨hsrc, hfi, hos, hid, hnd⟩ := hinv
  rw [hev]
  refine ⟨hsrc, ?_, ?_, ?_, Update_NoDuplicates _ _ _ hnd⟩ <;> simp only <;> split <;> assumption

theorem runLoop_inv {σ : Type} (env : Env σ) (src : Source) (info : FileInfo)
    (hhas : src.HasState = true) : ∀ (fuel check : Nat) (w : Scanner σ),
    WorkerInv src info w → WorkerInv src info (runLoop env fuel check w).2 := by
  intro fuel
  induction fuel with
  | zero => intro check w h; exact h
  | succ fuel ih =>
    intro check w h
    unfold runLoop
    split
    · exact h
    · split
      · exact h
      · exact h
      · split
        · exact h
        · exact h
      · rename_i message reader hnext
        have hw : WorkerInv src info { w with reader := reader } := h
        have hm := runMessage_inv env { w with reader := reader } message src info hhas hw
        split
        · rename_i outcome w1 heq
          rw [heq] at hm; exact hm
        · rename_i w1 heq
          rw [heq] at hm; exact ih _ _ hm

theorem cleanup_states {σ : Type} (env : Env σ) (w : Scanner σ) (src : Source) (info : FileInfo)
    (hhas : src.HasState = true) (hinv : WorkerInv src info w) :
    (cleanup env w).states = States.Update w.states { w.state with Finished := true }
      (env.clock w.clockReads) := by
  obtain ⟨⟨c, hsrc⟩, _⟩ := hinv
  simp [cleanup, hsrc, SendStateUpdate, hhas]

theorem sameFile_of_inv (a b : State) (info : FileInfo)
    (ha1 : a.FileStateOS = GetOSState info) (ha2 : a.Id = "")
    (hb1 : b.FileStateOS = GetOSState info) (hb2 : b.Id = "") (t : State) :
    sameFile t a ↔ sameFile t b := by
  rw [sameFile_iff, sameFile_iff, idString_of_inv a info ha1 ha2, idString_of_inv b info hb1 hb2]

/-- After `cleanup`, for a worker in good standing: the store holds an entry for
the file of the worker, and every such entry is finished and carries the
offset of the state of the worker. -/
theorem cleanup_entry {σ : Type} (env : Env σ) (w : Scanner σ) (src : Source) (info : FileInfo)
    (hhas : src.HasState = true) (hinv : WorkerInv src info w) :
    (∃ t ∈ (cleanup env w).states, sameFile t w.state) ∧
    ∀ t ∈ (cleanup env w).states, sameFile t w.state →
      t.Offset = w.state.Offset ∧ t.Finished = true := by
  rw [cleanup_states env w src info hhas hinv]
  obtain ⟨_, _, hos, hid, hnd⟩ := hinv
  have hsf : ∀ t, sameFile t w.state ↔ sameFile t { w.state with Finished := true } :=
    fun t => sameFile_of_inv w.state { w.state with Finished := true } info hos hid hos hid t
  constructor
  · refine ⟨_, Update_mem _ _ _, ?_⟩
    rw [sameFile_iff, idString_stamp]
    exact (sameFile_iff _ _).1 ((hsf _).2 ((sameFile_iff _ _).2 rfl))
  · intro t ht hts
    have := Update_entry_unique _ _ _ hnd t ht ((hsf t).1 hts)
    subst this
    exact ⟨rfl, rfl⟩

/-- C1, the code at the input of scenario S1.  The worker reads the content
`"a\nb\nc\n"` from offset 0 with no multiline, no JSON, no line filters and
every publish succeeding, and returns.  It emits three events with the
messages a, b, c, and their offsets are 1, 2, 3: `Line.Next` reports the length
of the line without its terminator, so the offsets are not the byte counts
2, 4, 6 of the lines read. -/
theorem Run_S1_offsets_omit_line_terminators :
    (Scanner.Run (envX true false) 10 (workerX readsS1)).1 = Outcome.returned ∧
    (publishedEvents (Scanner.Run (envX true false) 10 (workerX readsS1)).2.trace).map
        (fun p => (p.1.message, p.1.offset, p.2))
      = [(some [97], some 1, true), (some [98], some 2, true), (some [99], some 3, true)] ∧
    (Scanner.Run (envX true false) 10 (workerX readsS1)).2.state.Offset = 3 := by
  decide!

/-- C9, as amended.  In an iteration of the run loop of a worker in good
standing that reads a message without error, the shared store is first updated
with the state whose offset is advanced past the message, and then the event is
handed to the publisher, whatever the outcome of the publish.  When the publish
succeeds the worker takes the advanced state as its own and the loop goes on.
When the publish fails the worker keeps its state, `Run` returns, and after its
cleanup every store entry of the file carries the offset held before the
message and is finished. -/
theorem store_update_precedes_publish {σ : Type} (env : Env σ) (fuel check : Nat)
    (w : Scanner σ) (src : Source) (info : FileInfo) (message : Message) (reader : σ)
    (hhas : src.HasState = true) (hinv : WorkerInv src info w)
    (hdone : env.done check = false)
    (hnext : env.next w.reader = NextResult.msg message none reader) :
    ∃ ev : Event,
      (runMessage env { w with reader := reader } message).2.trace
        = w.trace ++ [Action.update { w.state with Offset := w.state.Offset + message.Bytes },
                      Action.publish ev (env.publish w.publishCalls ev)] ∧
      (∃ t ∈ (runMessage env { w with reader := reader } message).2.states, sameFile t w.state) ∧
      (∀ t ∈ (runMessage env { w with reader := reader } message).2.states, sameFile t w.state →
        t.Offset = w.state.Offset + message.Bytes) ∧
      (env.publish w.publishCalls ev = true →
        (runMessage env { w with reader := reader } message).1 = none ∧
        (runMessage env { w with reader := reader } message).2.state
          = { w.state with Offset := w.state.Offset + message.Bytes }) ∧
      (env.publish w.publishCalls ev = false →
        (runLoop env (fuel + 1) check w).1 = Outcome.returned ∧
        (runLoop env (fuel + 1) check w).2.state = w.state ∧
        (∃ t ∈ (cleanup env (runLoop env (fuel + 1) check w).2).states, sameFile t w.state) ∧
        ∀ t ∈ (cleanup env (runLoop env (fuel + 1) check w).2).states, sameFile t w.state →
          t.Offset = w.state.Offset ∧ t.Finished = true) := by
  have hw : WorkerInv src info { w with reader := reader } := hinv
  obtain ⟨ev, hev⟩ := runMessage_spec env { w with reader := reader } message src info hhas hw
  have hinv1 := runMessage_inv env { w with reader := reader } message src info hhas hw
  obtain ⟨_, _, hos, hid, hnd⟩ := hinv
  have hadv : ∀ t, sameFile t w.state ↔
      sameFile t { w.state with Offset := w.state.Offset + message.Bytes } :=
    fun t => sameFile_of_inv w.state { w.state with Offset := w.state.Offset + message.Bytes }
      info hos hid hos hid t
  refine ⟨ev, ?_, ?_, ?_, ?_, ?_⟩
  · rw [hev]
  · rw [hev]
    refine ⟨_, Update_mem _ _ _, ?_⟩
    rw [sameFile_iff, idString_stamp]
    exact (sameFile_iff _ _).1 ((hadv _).2 ((sameFile_iff _ _).2 rfl))
  · intro t ht hts
    rw [hev] at ht
    have := Update_entry_unique _ _ _ hnd t ht ((hadv t).1 hts)
    subst this
    rfl
  · intro hok
    rw [hev]
    simp [hok]
  · intro hok
    have hloop : runLoop env (fuel + 1) check w
        = (Outcome.returned, (runMessage env { w with reader := reader } message).2) := by
      rw [runLoop]
      simp only [hdone, hnext, Bool.false_eq_true, if_false]
      rw [hev]
      simp [hok]
    rw [hloop]
    have hst : (runMessage env { w with reader := reader } message).2.state = w.state := by
      rw [hev]; simp [hok]
    refine ⟨rfl, hst, ?_⟩
    have hce := cleanup_entry env _ src info hhas hinv1
    rw [hst] at hce
    exact hce

/-- C9, witness: the first iteration of the worker of scenario S1 with a
failing publisher. -/
theorem store_update_precedes_publish_witness :
    ∃ ev : Event,
      (runMessage (envX false false) { workerX readsS1 with reader := readerAfterA }
          messageA).2.trace
        = (workerX readsS1).trace ++
            [Action.update { stateX with Offset := stateX.Offset + messageA.Bytes },
             Action.publish ev ((envX false false).publish (workerX readsS1).publishCalls ev)] :=
  (store_update_precedes_publish (envX false false) 9 1 (workerX readsS1)
    { HasState := true, closed := false }
    { Name := "x.log", Size := 6, ModTime := 0, Ino := 7, Dev := 1 } messageA readerAfterA
    rfl ⟨⟨false, rfl⟩, rfl, rfl, rfl, by rw [NoDuplicates_iff]; decide⟩ rfl rfl).imp
    (fun _ h => h.1)

/-- C9, counterexample: the worker of scenario S1 with a publisher that fails.
The store is set to offset 1, beyond the offset 0 held before the first
message, before the event is published, although the publish then fails; the
cleanup of `Run` sets the entry back to offset 0. -/
theorem store_update_only_after_publish_fails :
    (Scanner.Run (envX false false) 10 (workerX readsS1)).2.trace.map Action.kind
      = [ActionKind.stored 1 false, ActionKind.published false, ActionKind.closed,
         ActionKind.stored 0 true] := by
  decide

/-- C10, as amended.  For a worker in good standing, started on a file whose
source has state: when the first check of `Run` finds cancellation already
signalled, `Run` returns at once and leaves the worker and the store as they
are; on every other return path of `Run` its cleanup has run, the store holds
an entry for the file of the worker, and every such entry is finished. -/
theorem Run_return_marks_finished {σ : Type} (env : Env σ) (fuel : Nat) (w : Scanner σ)
    (src : Source) (info : FileInfo) (hhas : src.HasState = true)
    (hinv : WorkerInv src info w) :
    (env.done 0 = true → Scanner.Run env fuel w = (Outcome.returned, w)) ∧
    (env.done 0 = false → (Scanner.Run env fuel w).1 = Outcome.returned →
      (∃ t ∈ (Scanner.Run env fuel w).2.states, sameFile t w.state) ∧
      ∀ t ∈ (Scanner.Run env fuel w).2.states, sameFile t w.state → t.Finished = true) := by
  constructor
  · intro hdone
    simp [Scanner.Run, hdone]
  · intro hdone hret
    have hinv1 := runLoop_inv env src info hhas fuel 1 w hinv
    have hce := cleanup_entry env _ src info hhas hinv1
    have hsf : ∀ t, sameFile t (runLoop env fuel 1 w).2.state ↔ sameFile t w.state :=
      fun t => sameFile_of_inv _ _ info hinv1.2.2.1 hinv1.2.2.2.1 hinv.2.2.1 hinv.2.2.2.1 t
    have hrun : (Scanner.Run env fuel w).2 = cleanup env (runLoop env fuel 1 w).2 := by
      unfold Scanner.Run at hret ⊢
      simp only [hdone, Bool.false_eq_true, if_false] at hret ⊢
      split at hret
      · exact absurd hret (by simp)
      · rename_i outcome w1 hne heq
        rw [heq]
    rw [hrun]
    obtain ⟨⟨t, ht, hts⟩, hall⟩ := hce
    exact ⟨⟨t, ht, (hsf t).1 hts⟩, fun t ht hts => (hall t ht ((hsf t).2 hts)).2⟩

/-- C10, witness: the worker of scenario S1, not cancelled, returns when the
file has been idle, and its store entry is finished. -/
theorem Run_return_marks_finished_witness :
    (∃ t ∈ (Scanner.Run (envX true false) 10 (workerX readsS1)).2.states,
        sameFile t (workerX readsS1).state) ∧
      ∀ t ∈ (Scanner.Run (envX true false) 10 (workerX readsS1)).2.states,
        sameFile t (workerX readsS1).state → t.Finished = true :=
  (Run_return_marks_finished (envX true false) 10 (workerX readsS1)
    { HasState := true, closed := false }
    { Name := "x.log", Size := 6, ModTime := 0, Ino := 7, Dev := 1 }
    rfl ⟨⟨false, rfl⟩, rfl, rfl, rfl, by rw [NoDuplicates_iff]; decide⟩).2 rfl (by decide!)

/-- C10, counterexample: the worker of scenario S1 is registered in the store
unfinished, and cancellation is signalled before `Run` begins.  `Run` returns
without running its cleanup, and the store entry of the file is still
unfinished. -/
theorem Run_cancelled_before_start_leaves_unfinished :
    (Scanner.Run (envX true true) 10 (workerX readsS1)).1 = Outcome.returned ∧
    (Scanner.Run (envX true true) 10 (workerX readsS1)).2.states = [stateX] ∧
    sameFile stateX (workerX readsS1).state ∧ stateX.Finished = false := by
  decide

/-! ## The line splitter -/

/-- C16, the code on three inputs.  On the stream `"a\n"` the line splitter
hands out one message with the content `a` and bytes = 1, not the 2 bytes of the
line with its terminator; on `"a\r\n"` the message has bytes = 1, not 3; on
the 6 bytes `"a\nb\nc\n"` of scenario S1 the bytes of the three messages sum to
3. -/
theorem Encode_Next_bytes_omit_terminator :
    (Encode.Next (lineReader [([97, 10], none)])).summary = some ([97], 1, none) ∧
    (Encode.Next (lineReader [([97, 13, 10], none)])).summary = some ([97], 1, none) ∧
    firstResults Encode.Next 3 (lineReader readsS1)
      = [([97], 1, none), ([98], 1, none), ([99], 1, none)] := by
  decide

/-- C17, the code at the end of a file.  When the read reports `io.EOF` and no
unread data remains, `Line.Next` returns an empty message with bytes = 0 and no
error, call after call; the worker started on such a file has not returned
after ten iterations of its loop, in which it handed nine empty events to the
publisher after the one of the line. -/
theorem Line_Next_hides_EOF :
    (Line.Next { reads := [([], some ReadError.EOF)], buf := [], err := none }).map
        (fun r => r.1) = some ([], 0, none) ∧
    firstResults Encode.Next 4 (lineReader readsEOF)
      = [([97], 1, none), ([], 0, none), ([], 0, none), ([], 0, none)] ∧
    (Scanner.Run (envX true false) 10 (workerX readsEOF)).1 = Outcome.running ∧
    ((Scanner.Run (envX true false) 10 (workerX readsEOF)).2.trace.map Action.kind).count
        (ActionKind.published true) = 10 := by
  decide!

/-! ## The file reader -/

/-- C14, as amended.  When the read ends with `io.EOF`, `errorChecks` returns
the outcome of the first rule that matches, in this order: the source is not
continuable, `io.EOF`; `close_eof` is set, `io.EOF`; `Stat` on the open file
fails, the error of `Stat`; size < offset, `ErrFileTruncate`; now -
last_read_time > close_inactive, `ErrInactive`; `close_renamed` is set and the
path is no longer the same file, `ErrRenamed`; `close_removed` is set and the
path no longer exists, `ErrRemoved`.  It returns no error exactly when none of
these rules matches. -/
theorem errorChecks_first_matching_rule (f : Log) (probe : FileProbe) :
    (probe.continuable = false → f.errorChecks probe ReadError.EOF = some ReadError.EOF) ∧
    (probe.continuable = true → f.config.Close.EOF = true →
      f.errorChecks probe ReadError.EOF = some ReadError.EOF) ∧
    (∀ statErr, probe.continuable = true → f.config.Close.EOF = false →
      probe.stat = Except.error statErr → f.errorChecks probe ReadError.EOF = some statErr) ∧
    (∀ info, probe.continuable = true → f.config.Close.EOF = false →
      probe.stat = Except.ok info →
      (info.Size < f.offset → f.errorChecks probe ReadError.EOF = some ReadError.ErrFileTruncate) ∧
      (¬ info.Size < f.offset → timeSub probe.now f.lastTimeRead > f.config.Close.Inactive →
        f.errorChecks probe ReadError.EOF = some ReadError.ErrInactive) ∧
      (¬ info.Size < f.offset → ¬ timeSub probe.now f.lastTimeRead > f.config.Close.Inactive →
        f.config.Close.Renamed = true → probe.sameFile = false →
        f.errorChecks probe ReadError.EOF = some ReadError.ErrRenamed) ∧
      (¬ info.Size < f.offset → ¬ timeSub probe.now f.lastTimeRead > f.config.Close.Inactive →
        ¬ (f.config.Close.Renamed = true ∧ probe.sameFile = false) →
        f.config.Close.Removed = true → probe.pathExists = false →
        f.errorChecks probe ReadError.EOF = some ReadError.ErrRemoved)) ∧
    (f.errorChecks probe ReadError.EOF = none ↔
      probe.continuable = true ∧ f.config.Close.EOF = false ∧
      ∃ info, probe.stat = Except.ok info ∧ ¬ info.Size < f.offset ∧
        ¬ timeSub probe.now f.lastTimeRead > f.config.Close.Inactive ∧
        ¬ (f.config.Close.Renamed = true ∧ probe.sameFile = false) ∧
        ¬ (f.config.Close.Removed = true ∧ probe.pathExists = false)) := by
  refine ⟨?_, ?_, ?_, ?_, ?_⟩
  · intro h; simp [Log.errorChecks, h]
  · intro h1 h2; simp [Log.errorChecks, h1, h2]
  · intro e h1 h2 h3; simp [Log.errorChecks, h1, h2, h3]
  · intro info h1 h2 h3
    refine ⟨?_, ?_, ?_, ?_⟩
    · intro h4; simp [Log.errorChecks, h1, h2, h3, h4]
    · intro h4 h5; simp [Log.errorChecks, h1, h2, h3, h4, h5]
    · intro h4 h5 h6 h7; simp [Log.errorChecks, h1, h2, h3, h4, h5, h6, h7]
    · intro h4 h5 h6 h7 h8
      have h9 : (f.config.Close.Renamed && !probe.sameFile) = false := by
        cases hr : f.config.Close.Renamed <;> cases hs : probe.sameFile <;> simp_all
      simp [Log.errorChecks, h1, h2, h3, h4, h5, h7, h8, h9]
  · unfold Log.errorChecks
    simp only [ne_eq, not_true_eq_false, if_false]
    cases hc : probe.continuable <;> simp
    cases he : f.config.Close.EOF <;> simp
    cases hs : probe.stat with
    | error e => simp
    | ok info =>
      simp only [Except.ok.injEq, exists_eq_left']
      by_cases h4 : info.Size < f.offset
      · simp [h4]
      · by_cases h5 : timeSub probe.now f.lastTimeRead > f.config.Close.Inactive
        · simp [h4, h5]
        · have h4b : f.offset ≤ info.Size := by omega
          have h5b : timeSub probe.now f.lastTimeRead ≤ f.config.Close.Inactive := by omega
          cases hr : f.config.Close.Renamed <;> cases hsf : probe.sameFile <;>
            cases hm : f.config.Close.Removed <;> cases hp : probe.pathExists <;>
            simp [h4, h5, h4b, h5b]

/-- C14, witness: the file shrank to 3 bytes under a reader at offset 6. -/
theorem errorChecks_first_matching_rule_witness :
    Log.errorChecks (NewLog 6 logConfigX 0) (probeIdle 3 10) ReadError.EOF
      = some ReadError.ErrFileTruncate :=
  ((errorChecks_first_matching_rule (NewLog 6 logConfigX 0) (probeIdle 3 10)).2.2.2.1
    { Name := "x.log", Size := 3, ModTime := 0, Ino := 7, Dev := 1 } rfl rfl rfl).1 (by decide)

/-- C14, counterexample: the source is continuable, `close_eof` is not set and
`Stat` on the open file fails.  `errorChecks` returns the error of `Stat`,
which is none of the six outcomes of the rules listed and is not nil. -/
theorem errorChecks_returns_stat_error :
    probeStatFails.continuable = true ∧ logConfigX.Close.EOF = false ∧
    Log.errorChecks (NewLog 6 logConfigX 0) probeStatFails ReadError.EOF
      = some (ReadError.other "stat: input/output error") := by
  decide

/-- C15, the code on a fresh reader.  With backoff_min = 1s, backoff_max = 10s
and factor 2, a reader that `NewLog` has just built sleeps 10s, 10s, 10s
at its first three empty reads, not 1s, 2s, 4s: `NewLog` starts the backoff at
`BackOff.Max`.  After a read that returned data the next three empty reads
sleep 1s, 2s, 4s. -/
theorem fresh_reader_sleeps_backoff_max :
    (NewLog 0 logConfigX 0).backoff = 10000000000 ∧
    (Log.Read (NewLog 0 logConfigX 0) 4096
        [emptyRead 0 1, emptyRead 0 2, emptyRead 0 3, dataRead [97, 10] 4]).map
        (fun r => (r.slept, r.n, r.log.backoff))
      = some ([10000000000, 10000000000, 10000000000], 2, 1000000000) ∧
    (Log.Read { NewLog 2 logConfigX 4 with backoff := 1000000000 } 4096
        [emptyRead 2 5, emptyRead 2 6, emptyRead 2 7, dataRead [98, 10] 8]).map
        (fun r => r.slept)
      = some [1000000000, 2000000000, 4000000000] := by
  decide

/-! ## The scan of the collector -/

theorem ite_calls (p : Prop) [Decidable p] (a b : Collector) (x : List CollectorCall)
    (h1 : a.calls = x) (h2 : b.calls = x) : (if p then a else b).calls = x := by
  split <;> assumption

theorem startScanner_calls (c : Collector) (env : CollectorEnv) (state : State) (offset : Int) :
    (c.startScanner env state offset).calls
      = c.calls ++ [CollectorCall.startScanner state offset] := by
  unfold Collector.startScanner
  exact ite_calls _ _ _ _ rfl (ite_calls _ _ _ _ rfl rfl)

/-- C12, as amended.  For every previous state `prev` and every candidate file
of size `size` found at `new.source`: `rescan` calls `startScanner` with
`prev.offset` when `prev` is finished and size > `prev.offset`, and with
offset 0 when `prev` is finished and size < `prev.offset`; in every other case
it starts no worker, and it records `prev` with its source rewritten to
`new.source` (offset and identity kept) exactly when `prev` is finished, its
source is not empty and differs from `new.source`; when `prev` is not finished
it makes no call and leaves the store as it is. -/
theorem rescan_decision (c : Collector) (env : CollectorEnv) (newState oldState : State)
    (info : FileInfo) (hinfo : newState.Fileinfo = some info) :
    (oldState.Finished = true → info.Size > oldState.Offset →
      c.rescan env newState oldState = some (c.startScanner env newState oldState.Offset) ∧
      (c.startScanner env newState oldState.Offset).calls
        = c.calls ++ [CollectorCall.startScanner newState oldState.Offset]) ∧
    (oldState.Finished = true → info.Size < oldState.Offset →
      c.rescan env newState oldState = some (c.startScanner env newState 0) ∧
      (c.startScanner env newState 0).calls
        = c.calls ++ [CollectorCall.startScanner newState 0]) ∧
    (¬ (oldState.Finished = true ∧ info.Size ≠ oldState.Offset) →
      ∃ c1, c.rescan env newState oldState = some c1 ∧ c1.started = c.started ∧
        (∀ s o, CollectorCall.startScanner s o ∉ c1.calls ∨
          CollectorCall.startScanner s o ∈ c.calls) ∧
        ((oldState.Finished = true ∧ oldState.Source ≠ "" ∧
            oldState.Source ≠ newState.Source) →
          c1.calls = c.calls ++
            [CollectorCall.updateState { oldState with Source := newState.Source }] ∧
          ∃ stored, c1.states = States.Update c.states stored (env.clock c.clockReads) ∧
            stored.Source = newState.Source ∧ stored.Offset = oldState.Offset ∧
            stored.FileStateOS = oldState.FileStateOS ∧ stored.Id = oldState.Id) ∧
        (¬ (oldState.Finished = true ∧ oldState.Source ≠ "" ∧
            oldState.Source ≠ newState.Source) → c1 = c)) ∧
    (oldState.Finished = false → c.rescan env newState oldState = some c) := by
  refine ⟨?_, ?_, ?_, ?_⟩
  · intro hf hs
    exact ⟨by simp [Collector.rescan, hinfo, hf, hs], startScanner_calls _ _ _ _⟩
  · intro hf hs
    have hs2 : ¬ info.Size > oldState.Offset := by omega
    exact ⟨by simp [Collector.rescan, hinfo, hf, hs, hs2], startScanner_calls _ _ _ _⟩
  · intro hno
    have h1 : (oldState.Finished && decide (info.Size > oldState.Offset)) = false := by
      cases hf : oldState.Finished
      · simp
      · have : info.Size = oldState.Offset := by
          by_contra hne; exact hno ⟨hf, hne⟩
        simp [this]
    have h2 : (oldState.Finished && decide (info.Size < oldState.Offset)) = false := by
      cases hf : oldState.Finished
      · simp
      · have : info.Size = oldState.Offset := by
          by_contra hne; exact hno ⟨hf, hne⟩
        simp [this]
    by_cases hren : oldState.Finished = true ∧ oldState.Source ≠ "" ∧
        oldState.Source ≠ newState.Source
    · obtain ⟨hf, hs1, hs2⟩ := hren
      refine ⟨c.updateState env { oldState with Source := newState.Source }, ?_, rfl, ?_, ?_, ?_⟩
      · have heq : info.Size = oldState.Offset := by
          by_contra hne; exact hno ⟨hf, hne⟩
        simp [Collector.rescan, hinfo, hf, hs1, hs2, heq]
      · intro s o
        by_cases hmem : CollectorCall.startScanner s o ∈ c.calls
        · exact Or.inr hmem
        · left
          simp [Collector.updateState, hmem]
      · intro _
        refine ⟨rfl, ?_⟩
        unfold Collector.updateState
        simp only
        split
        · exact ⟨_, rfl, rfl, rfl, rfl, rfl⟩
        · exact ⟨_, rfl, rfl, rfl, rfl, rfl⟩
      · intro hneg; exact absurd ⟨hf, hs1, hs2⟩ hneg
    · refine ⟨c, ?_, rfl, ?_, ?_, fun _ => rfl⟩
      · unfold Collector.rescan
        simp only [hinfo, h1, h2, Bool.false_eq_true, if_false]
        by_cases hsrc : (oldState.Source != "" && oldState.Source != newState.Source) = true
        · have hf : oldState.Finished = false := by
            cases hf : oldState.Finished
            · rfl
            · exfalso; apply hren
              simp only [Bool.and_eq_true, bne_iff_ne, ne_eq] at hsrc
              exact ⟨hf, hsrc.1, hsrc.2⟩
          simp [hsrc, hf]
        · simp [hsrc]
      · intro s o
        by_cases hmem : CollectorCall.startScanner s o ∈ c.calls
        · exact Or.inr hmem
        · exact Or.inl hmem
      · intro h; exact absurd h hren
  · intro hf
    unfold Collector.rescan
    simp only [hinfo, hf, Bool.false_and, Bool.false_eq_true, if_false]
    split <;> rfl

/-- C12, witness: `stateB` (finished, offset 4) and its file found with 4 bytes
under the new path `/t/b.log.1`: the source is rewritten, no worker starts. -/
theorem rescan_decision_witness :
    ∃ c1, (collectorX [stateB]).rescan collectorEnvX stateBMoved stateB = some c1 ∧
      c1.started = (collectorX [stateB]).started ∧
      c1.calls = (collectorX [stateB]).calls ++
        [CollectorCall.updateState { stateB with Source := stateBMoved.Source }] :=
  match (rescan_decision (collectorX [stateB]) collectorEnvX stateBMoved stateB
      { Name := "b.log.1", Size := 4, ModTime := 5, Ino := 12, Dev := 1 } rfl).2.2.1
      (by decide) with
  | ⟨c1, h1, h2, _, h4, _⟩ => ⟨c1, h1, h2, (h4 (by decide)).1⟩

/-- C12, counterexample: the previous state is finished, at offset 4, with an
empty source, and its file is found unchanged in size at `/t/b.log.1`.  The
sources differ, yet `rescan` records nothing: store and calls stay as they are. -/
theorem rescan_keeps_empty_source :
    stateBNoSource.Finished = true ∧ stateBNoSource.Source ≠ stateBMoved.Source ∧
    stateBNoSource.IsEmpty = false ∧
    ((collectorX [stateBNoSource]).rescan collectorEnvX stateBMoved stateBNoSource).map
        (fun c1 => (c1.states, c1.calls, c1.started))
      = some ([stateBNoSource], [], []) := by
  decide

theorem State.ID_snd_Id_ne (s : State) : s.ID.2.Id ≠ "" := by
  unfold State.ID
  by_cases h : s.Id = ""
  · simp only [h, if_true]
    exact StateOS.String_ne_empty _
  · simp only [h, if_false]
    exact h

theorem findPreviousLoop_none_snd (states : List State) : ∀ (index : Int) (newState s : State),
    newState.idString = s.idString → (∀ t ∈ states, ¬ sameFile t s) →
    (findPreviousLoop states index newState).2 = State.zero := by
  induction states with
  | nil => intro index newState s _ _; rfl
  | cons t rest ih =>
    intro index newState s hid hno
    have ht : ¬ sameFile t newState := by
      rw [sameFile_iff, hid, ← sameFile_iff]; exact hno t (List.mem_cons_self _ _)
    have hf : (t.IsEqual newState).1 = false := (not_sameFile_iff _ _).2 ht
    have hnext := State.IsEqual_snd_idString t newState
    unfold findPreviousLoop
    rcases hres : t.IsEqual newState with ⟨eq, t1, n1⟩
    rw [hres] at hf hnext
    simp only at hf hnext
    subst hf
    exact ih (index + 1) n1 s (hnext.trans hid) (fun x hx => hno x (List.mem_cons_of_mem _ hx))

theorem findPreviousLoop_found_Id (states : List State) : ∀ (index : Int) (newState s : State),
    newState.idString = s.idString → (∃ t ∈ states, sameFile t s) →
    (findPreviousLoop states index newState).2.Id ≠ "" := by
  induction states with
  | nil => intro index newState s _ h; obtain ⟨t, ht, _⟩ := h; simp at ht
  | cons t rest ih =>
    intro index newState s hid hex
    have hnext := State.IsEqual_snd_idString t newState
    have hfst : (t.IsEqual newState).2.1 = t.ID.2 := by simp [State.IsEqual]
    unfold findPreviousLoop
    rcases hres : t.IsEqual newState with ⟨eq, t1, n1⟩
    rw [hres] at hnext hfst
    simp only at hnext hfst
    cases eq with
    | true =>
      simp only
      rw [hfst]
      exact State.ID_snd_Id_ne t
    | false =>
      simp only
      have ht : ¬ sameFile t s := by
        rw [sameFile_iff, ← hid, ← sameFile_iff]
        show ¬ (t.IsEqual newState).1 = true
        rw [hres]; simp
      obtain ⟨x, hx, hxs⟩ := hex
      have hxr : x ∈ rest := by
        rcases List.mem_cons.1 hx with h | h
        · subst h; exact absurd hxs ht
        · exact h
      exact ih (index + 1) n1 s (hnext.trans hid) ⟨x, hxr, hxs⟩

theorem FindPrevious_IsEmpty_iff (states : List State) (s : State) :
    (States.FindPrevious states s).IsEmpty = true ↔ ∀ t ∈ states, ¬ sameFile t s := by
  constructor
  · intro h t ht hts
    have hid := findPreviousLoop_found_Id states 0 s s rfl ⟨t, ht, hts⟩
    have hz : States.FindPrevious states s = State.zero := by
      simpa [State.IsEmpty] using h
    apply hid
    show (States.FindPrevious states s).Id = ""
    rw [hz]; rfl
  · intro h
    have := findPreviousLoop_none_snd states 0 s s rfl h
    simp [State.IsEmpty, States.FindPrevious, States.findPrevious, this]

theorem sameFile_congr_right (t a b : State) (h : a.idString = b.idString) :
    sameFile t a ↔ sameFile t b := by
  rw [sameFile_iff, sameFile_iff, h]

theorem idString_same_os (a b : State) (ha : a.Id = "") (hb : b.Id = "")
    (hos : a.FileStateOS = b.FileStateOS) : a.idString = b.idString := by
  rw [State.idString_eq, State.idString_eq, if_pos ha, if_pos hb, hos]

theorem not_sameFile_same_os (t a b : State) (ha : a.Id = "") (hb : b.Id = "")
    (hos : a.FileStateOS = b.FileStateOS) (h : ¬ sameFile t b) : ¬ sameFile t a :=
  fun hta => h ((sameFile_congr_right t a b (idString_same_os a b ha hb hos)).1 hta)

theorem sameFile_same_os (a b : State) (ha : a.Id = "") (hb : b.Id = "")
    (hos : a.FileStateOS = b.FileStateOS) : sameFile a b :=
  (sameFile_iff a b).2 (idString_same_os a b ha hb hos)

/-- C13.  For every candidate file met with `ignore_older` > 0 and an age that
exceeds it: when no previous state exists for its identity and
`clean_inactive` does not apply to the file, the scan appends exactly one state
for that identity to the store, finished and with the offset equal to the file
size, and starts no worker; in every other case the scan leaves the store as it
is, makes no call and starts no worker. -/
theorem visitFile_ignore_older (c : Collector) (env : CollectorEnv) (path : String)
    (info : FileInfo) (hio : c.config.IgnoreOlder > 0)
    (hage : timeSub (env.clock (c.clockReads + 1)) info.ModTime > c.config.IgnoreOlder) :
    (((∀ t ∈ c.states,
          ¬ sameFile t (NewState info path c.config.Type_ (env.clock c.clockReads))) ∧
        (c.config.CleanInactive ≤ 0 ∨
          ¬ timeSub (env.clock (c.clockReads + 2)) info.ModTime > c.config.CleanInactive)) →
      ∃ c1 s, c.visitFile env path info = some c1 ∧ c1.states = c.states ++ [s] ∧
        sameFile s (NewState info path c.config.Type_ (env.clock c.clockReads)) ∧
        s.Finished = true ∧ s.Offset = info.Size ∧ s.Source = path ∧
        c1.started = c.started ∧
        ∀ st o, CollectorCall.startScanner st o ∈ c1.calls →
          CollectorCall.startScanner st o ∈ c.calls) ∧
    (¬ ((∀ t ∈ c.states,
          ¬ sameFile t (NewState info path c.config.Type_ (env.clock c.clockReads))) ∧
        (c.config.CleanInactive ≤ 0 ∨
          ¬ timeSub (env.clock (c.clockReads + 2)) info.ModTime > c.config.CleanInactive)) →
      ∃ c1, c.visitFile env path info = some c1 ∧ c1.states = c.states ∧
        c1.started = c.started ∧ c1.calls = c.calls) := by
  have hne : (c.config.IgnoreOlder == 0) = false := by
    simp only [beq_eq_false_iff_ne, ne_eq]; omega
  have hvisit : c.visitFile env path info =
      Collector.handleIgnoreOlder { c with clockReads := c.clockReads + 1 + 1 } env
        (States.FindPrevious c.states (NewState info path c.config.Type_ (env.clock c.clockReads)))
        (NewState info path c.config.Type_ (env.clock c.clockReads)) := by
    simp only [Collector.visitFile, Collector.isIgnoreOlder, hne, Bool.false_eq_true, if_false,
      NewState, hage, decide_True]
  rw [hvisit]
  constructor
  · rintro ⟨hnone, hclean⟩
    have hemp := (FindPrevious_IsEmpty_iff c.states _).2 hnone
    have hci : Collector.isCleanInactive { c with clockReads := c.clockReads + 1 + 1 }
        (NewState info path c.config.Type_ (env.clock c.clockReads))
        (env.clock (c.clockReads + 1 + 1)) = some false := by
      unfold Collector.isCleanInactive
      by_cases h0 : c.config.CleanInactive ≤ 0
      · simp [h0]
      · rcases hclean with h | h
        · exact absurd h h0
        · simp [h0, NewState, h]
    unfold Collector.handleIgnoreOlder
    simp only [hemp, Bool.not_true, Bool.false_eq_true, if_false, hci]
    simp only [NewState, Collector.updateState]
    by_cases h0 : c.config.CleanInactive ≤ 0
    · have h1 : ¬ c.config.CleanInactive > 0 := by omega
      simp only [h0, if_true, h1, decide_False, Bool.false_and, Bool.false_eq_true, if_false]
      refine ⟨_, ({ Id := "", Finished := true, Fileinfo := some info, Source := path,
                    Offset := info.Size, Timestamp := env.clock (c.clockReads + 1 + 1),
                    TTL := -1, Type_ := c.config.Type_,
                    FileStateOS := GetOSState info } : State),
        rfl, ?_, ?_, rfl, rfl, rfl, rfl, ?_⟩
      · exact Update_append _ _ _ (fun t ht =>
          not_sameFile_same_os t _ _ rfl rfl rfl (hnone t ht))
      · exact sameFile_same_os _ _ rfl rfl rfl
      · intro st o hmem
        simpa using hmem
    · have h1 : c.config.CleanInactive > 0 := by omega
      simp only [h0, if_false, h1, decide_True, Bool.true_and, bne_iff_ne, ne_eq,
        Int.reduceNeg, show ¬ ((-1 : Int) = 0) by decide, not_false_eq_true, if_true]
      refine ⟨_, ({ Id := "", Finished := true, Fileinfo := some info, Source := path,
                    Offset := info.Size, Timestamp := env.clock (c.clockReads + 1 + 1 + 1),
                    TTL := c.config.CleanInactive, Type_ := c.config.Type_,
                    FileStateOS := GetOSState info } : State),
        rfl, ?_, ?_, rfl, rfl, rfl, rfl, ?_⟩
      · exact Update_append _ _ _ (fun t ht =>
          not_sameFile_same_os t _ _ rfl rfl rfl (hnone t ht))
      · exact sameFile_same_os _ _ rfl rfl rfl
      · intro st o hmem
        simpa using hmem
  · intro hneg
    unfold Collector.handleIgnoreOlder
    by_cases hnone : ∀ t ∈ c.states,
        ¬ sameFile t (NewState info path c.config.Type_ (env.clock c.clockReads))
    · have hemp := (FindPrevious_IsEmpty_iff c.states _).2 hnone
      have hc : ¬ (c.config.CleanInactive ≤ 0 ∨
          ¬ timeSub (env.clock (c.clockReads + 2)) info.ModTime > c.config.CleanInactive) :=
        fun h => hneg ⟨hnone, h⟩
      have h0 : ¬ c.config.CleanInactive ≤ 0 := fun h => hc (Or.inl h)
      have h2 : timeSub (env.clock (c.clockReads + 2)) info.ModTime > c.config.CleanInactive := by
        by_contra h; exact hc (Or.inr h)
      have hci : Collector.isCleanInactive { c with clockReads := c.clockReads + 1 + 1 }
          (NewState info path c.config.Type_ (env.clock c.clockReads))
          (env.clock (c.clockReads + 1 + 1)) = some true := by
        unfold Collector.isCleanInactive
        simp [h0, NewState, h2]
      simp only [hemp, Bool.not_true, Bool.false_eq_true, if_false, hci]
      exact ⟨_, rfl, rfl, rfl, rfl⟩
    · have hemp : (States.FindPrevious c.states
          (NewState info path c.config.Type_ (env.clock c.clockReads))).IsEmpty = false := by
        cases h : (States.FindPrevious c.states
          (NewState info path c.config.Type_ (env.clock c.clockReads))).IsEmpty
        · rfl
        · exact absurd ((FindPrevious_IsEmpty_iff c.states _).1 h) hnone
      simp only [hemp, Bool.not_false, if_true]
      exact ⟨_, rfl, rfl, rfl, rfl⟩

/-- C13, witness: a file last modified at time 0, met at time 1000 with
`ignore_older` of 100 and no state in the store. -/
theorem visitFile_ignore_older_witness :
    ∃ c1 s, collectorIgnoreOlder.visitFile collectorEnvX "/t/a.log"
        { Name := "a.log", Size := 10, ModTime := 0, Ino := 11, Dev := 1 } = some c1 ∧
      c1.states = collectorIgnoreOlder.states ++ [s] ∧ s.Finished = true ∧ s.Offset = 10 ∧
      c1.started = collectorIgnoreOlder.started :=
  match (visitFile_ignore_older collectorIgnoreOlder collectorEnvX "/t/a.log"
      { Name := "a.log", Size := 10, ModTime := 0, Ino := 11, Dev := 1 }
      (by decide) (by decide)).1 ⟨by intro t ht; simp [collectorIgnoreOlder] at ht,
        Or.inl (by decide)⟩ with
  | ⟨c1, s, h1, h2, _, h4, h5, _, h7, _⟩ => ⟨c1, s, h1, h2, h4, h5, h7⟩

/-! ## The offsets a worker records -/

theorem runLoop_eq_why {σ : Type} (env : Env σ) : ∀ (fuel check : Nat) (w : Scanner σ),
    runLoop env fuel check w
      = ((runLoopWhy env fuel check w).1.outcome, (runLoopWhy env fuel check w).2) := by
  intro fuel
  induction fuel with
  | zero => intro check w; rfl
  | succ fuel ih =>
    intro check w
    unfold runLoop runLoopWhy
    split
    · rfl
    · split
      · rfl
      · rfl
      · simp only
        split <;> rfl
      · rename_i message reader hnext
        rcases hm : runMessage env { w with reader := reader } message with ⟨o, w1⟩
        cases o with
        | none => simp only; exact ih _ _
        | some oc => cases oc <;> rfl

theorem getLastD_cons_cons (a d : Int) (L : List Int) :
    (a :: L).getLastD d = L.getLastD a := by
  cases L <;> simp [List.getLastD]

theorem storedOffsets_append (a b : List Action) :
    storedOffsets (a ++ b) = storedOffsets a ++ storedOffsets b := by
  induction a with
  | nil => rfl
  | cons x rest ih =>
    cases x <;> simp [storedOffsets, ih]

/-- The offsets stored in the loop of `Run` by a worker in good standing whose
reader counts no negative bytes: they never decrease, starting from the offset
of the worker, and the offset the worker is left with is the last of them,
except after a truncate (0) and after a failed publish (the one before the last). -/
theorem runLoopWhy_offsets {σ : Type} (env : Env σ) (src : Source) (info : FileInfo)
    (hhas : src.HasState = true)
    (hbytes : ∀ r m r1, env.next r = NextResult.msg m none r1 → 0 ≤ m.Bytes) :
    ∀ (fuel check : Nat) (w : Scanner σ), WorkerInv src info w →
    ∃ L : List Int,
      storedOffsets (runLoopWhy env fuel check w).2.trace = storedOffsets w.trace ++ L ∧
      List.Chain (· ≤ ·) w.state.Offset L ∧
      ((runLoopWhy env fuel check w).1 = ExitCause.readError ReadError.ErrFileTruncate →
        (runLoopWhy env fuel check w).2.state.Offset = 0) ∧
      ((runLoopWhy env fuel check w).1 = ExitCause.publishFailed →
        ∃ L1 x, L = L1 ++ [x] ∧
          (runLoopWhy env fuel check w).2.state.Offset = L1.getLastD w.state.Offset) ∧
      ((runLoopWhy env fuel check w).1 ≠ ExitCause.readError ReadError.ErrFileTruncate →
        (runLoopWhy env fuel check w).1 ≠ ExitCause.publishFailed →
        (runLoopWhy env fuel check w).2.state.Offset = L.getLastD w.state.Offset) := by
  intro fuel
  induction fuel with
  | zero =>
    intro check w _
    exact ⟨[], by simp [runLoopWhy], List.Chain.nil, by simp [runLoopWhy],
      by simp [runLoopWhy], by simp [runLoopWhy]⟩
  | succ fuel ih =>
    intro check w hinv
    unfold runLoopWhy
    split
    · exact ⟨[], by simp, List.Chain.nil, by simp, by simp, by simp⟩
    · split
      · exact ⟨[], by simp, List.Chain.nil, by simp, by simp, by simp⟩
      · exact ⟨[], by simp, List.Chain.nil, by simp, by simp, by simp⟩
      · rename_i m err reader hnext
        simp only
        split
        · exact ⟨[], by simp, List.Chain.nil, by simp, by simp, by simp_all⟩
        · rename_i hne
          exact ⟨[], by simp, List.Chain.nil, by simp_all, by simp, by simp⟩
      · rename_i message reader hnext
        have hb : 0 ≤ message.Bytes := hbytes _ _ _ hnext
        have hw : WorkerInv src info { w with reader := reader } := hinv
        obtain ⟨ev, hev⟩ := runMessage_spec env { w with reader := reader } message src info hhas hw
        have hinv1 := runMessage_inv env { w with reader := reader } message src info hhas hw
        rw [hev] at hinv1 ⊢
        cases hok : env.publish w.publishCalls ev with
        | false =>
          simp only [hok, Bool.false_eq_true, if_false]
          refine ⟨[w.state.Offset + message.Bytes], ?_, ?_, by simp, ?_, by simp⟩
          · simp [storedOffsets_append, storedOffsets]
          · exact List.Chain.cons (by omega) List.Chain.nil
          · intro _
            exact ⟨[], _, rfl, rfl⟩
        | true =>
          simp only [hok, if_true] at hinv1 ⊢
          obtain ⟨L, hL, hchain, htr, hpf, hoth⟩ := ih (check + 1) _ hinv1
          refine ⟨(w.state.Offset + message.Bytes) :: L, ?_, ?_, htr, ?_, ?_⟩
          · rw [hL]
            simp [storedOffsets_append, storedOffsets]
          · exact List.Chain.cons (by omega) hchain
          · intro h
            obtain ⟨L1, x, hx, hoff⟩ := hpf h
            refine ⟨(w.state.Offset + message.Bytes) :: L1, x, by simp [hx], ?_⟩
            rw [hoff]
            exact (getLastD_cons_cons _ _ _).symm
          · intro h1 h2
            rw [hoth h1 h2]
            exact (getLastD_cons_cons _ _ _).symm

theorem Line_Next_size_nonneg (l : Line) (c : List Nat) (sz : Int) (err : Option ReadError)
    (l1 : Line) (h : l.Next = some ((c, sz, err), l1)) : 0 ≤ sz := by
  unfold Line.Next at h
  split at h
  · cases h
  · split at h
    · simp only [Option.some.injEq, Prod.mk.injEq] at h
      obtain ⟨⟨_, hsz, _⟩, _⟩ := h
      rw [← hsz]; exact Int.natCast_nonneg _
    · simp only [Option.some.injEq, Prod.mk.injEq] at h
      obtain ⟨⟨_, hsz, _⟩, _⟩ := h
      rw [← hsz]
  · simp only [Option.some.injEq, Prod.mk.injEq] at h
    obtain ⟨⟨_, hsz, _⟩, _⟩ := h
    rw [← hsz]

theorem Encode_Next_Bytes_nonneg (e : Encode) (m : Message) (err : Option ReadError)
    (e1 : Encode) (h : e.Next = NextResult.msg m err e1) : 0 ≤ m.Bytes := by
  unfold Encode.Next at h
  split at h
  · cases h
  · rename_i c sz err1 l1 hn
    simp only [NextResult.msg.injEq] at h
    obtain ⟨hm, _, _⟩ := h
    rw [← hm]
    exact Line_Next_size_nonneg _ _ _ _ _ hn

/-- Every message of the plain reader counts a number of bytes that is not
negative. -/
theorem plainReaderNext_Bytes_nonneg (maxBytes : Int) (e : Encode) (m : Message)
    (err : Option ReadError) (e1 : Encode) (h : plainReaderNext maxBytes e = NextResult.msg m err e1) :
    0 ≤ m.Bytes := by
  unfold plainReaderNext Limit.Next at h
  have hs : ∀ m2 err2 e2, StripNewline.Next Encode.Next e = NextResult.msg m2 err2 e2 →
      0 ≤ m2.Bytes := by
    intro m2 err2 e2 h2
    unfold StripNewline.Next at h2
    split at h2
    · rename_i m3 err3 p1 hn
      simp only [NextResult.msg.injEq] at h2
      rw [← h2.1]; exact Encode_Next_Bytes_nonneg _ m3 _ _ hn
    · rename_i m3 p1 hn
      simp only [NextResult.msg.injEq] at h2
      rw [← h2.1]; exact Encode_Next_Bytes_nonneg _ m3 _ _ hn
    · cases h2
    · cases h2
  split at h
  · rename_i m2 err2 p1 hn
    have := hs _ _ _ hn
    split at h
    · split at h
      · cases h
      · simp only [NextResult.msg.injEq] at h
        rw [← h.1]; exact this
    · simp only [NextResult.msg.injEq] at h
      rw [← h.1]; exact this
  · cases h
  · cases h

theorem cleanup_trace {σ : Type} (env : Env σ) (w : Scanner σ) (src : Source) (info : FileInfo)
    (hhas : src.HasState = true) (hinv : WorkerInv src info w) :
    (cleanup env w).trace
      = w.trace ++ [Action.close, Action.update { w.state with Finished := true }] := by
  obtain ⟨⟨c, hsrc⟩, _⟩ := hinv
  simp [cleanup, hsrc, SendStateUpdate, hhas]

theorem Run_eq_why {σ : Type} (env : Env σ) (fuel : Nat) (w : Scanner σ)
    (hdone : env.done 0 = false) (hret : (Scanner.Run env fuel w).1 = Outcome.returned) :
    Scanner.Run env fuel w = (Outcome.returned, cleanup env (runLoopWhy env fuel 1 w).2) ∧
    (runLoop env fuel 1 w).2 = (runLoopWhy env fuel 1 w).2 := by
  have heq := runLoop_eq_why env fuel 1 w
  unfold Scanner.Run at hret ⊢
  simp only [hdone, Bool.false_eq_true, if_false] at hret ⊢
  rw [heq] at hret ⊢
  cases hc : (runLoopWhy env fuel 1 w).1 <;> rw [hc] at hret <;>
    simp [ExitCause.outcome] at hret ⊢

/-- C11, counterexample: the worker of scenario S1 whose second publish fails.
The store is updated with offset 1, then with offset 2, and then, by `cleanup`,
with offset 1 again; the loop ended on the failed publish, not on a truncate. -/
theorem Run_stored_offset_decreases :
    (Scanner.Run envFailSecond 10 (workerX readsS1)).1 = Outcome.returned ∧
    ((Scanner.Run envFailSecond 10 (workerX readsS1)).2.trace.map Action.kind
      = [ActionKind.stored 1 false, ActionKind.published true,
         ActionKind.stored 2 false, ActionKind.published false,
         ActionKind.closed, ActionKind.stored 1 true]) ∧
    storedOffsets (Scanner.Run envFailSecond 10 (workerX readsS1)).2.trace = [1, 2, 1] ∧
    (runLoopWhy envFailSecond 10 1 (workerX readsS1)).1 = ExitCause.publishFailed ∧
    (∀ t ∈ (Scanner.Run envFailSecond 10 (workerX readsS1)).2.states, t.Offset = 1) := by
  decide!

/-- C11, amended.  A worker in good standing whose source has state and whose
reader counts no negative bytes runs and returns.  The offsets it stores are
those of the updates of the loop, which never decrease from the offset the
worker started with, followed by the one update of `cleanup`, which is the
offset the store holds for the file afterwards.  That last offset is 0 when the
worker exits on a detected truncate, the offset before the last update of the
loop when it exits on a failed publish (the recorded offset may decrease
there), and the offset of the last update of the loop otherwise. -/
theorem Run_stored_offsets {σ : Type} (env : Env σ) (fuel : Nat) (w : Scanner σ)
    (src : Source) (info : FileInfo) (hhas : src.HasState = true)
    (hinv : WorkerInv src info w)
    (hbytes : ∀ r m r1, env.next r = NextResult.msg m none r1 → 0 ≤ m.Bytes)
    (hdone : env.done 0 = false)
    (hret : (Scanner.Run env fuel w).1 = Outcome.returned) :
    ∃ (L : List Int) (final : Int),
      storedOffsets (Scanner.Run env fuel w).2.trace = storedOffsets w.trace ++ L ++ [final] ∧
      List.Chain (· ≤ ·) w.state.Offset L ∧
      (∀ t ∈ (Scanner.Run env fuel w).2.states, sameFile t w.state → t.Offset = final) ∧
      ((runLoopWhy env fuel 1 w).1 = ExitCause.readError ReadError.ErrFileTruncate →
        final = 0) ∧
      ((runLoopWhy env fuel 1 w).1 = ExitCause.publishFailed →
        ∃ L1 x, L = L1 ++ [x] ∧ final = L1.getLastD w.state.Offset) ∧
      ((runLoopWhy env fuel 1 w).1 ≠ ExitCause.readError ReadError.ErrFileTruncate →
        (runLoopWhy env fuel 1 w).1 ≠ ExitCause.publishFailed →
        final = L.getLastD w.state.Offset) := by
  obtain ⟨hrun, hsame⟩ := Run_eq_why env fuel w hdone hret
  have hinv1 : WorkerInv src info (runLoopWhy env fuel 1 w).2 := by
    rw [← hsame]; exact runLoop_inv env src info hhas fuel 1 w hinv
  obtain ⟨L, hL, hchain, htr, hpf, hoth⟩ :=
    runLoopWhy_offsets env src info hhas hbytes fuel 1 w hinv
  refine ⟨L, (runLoopWhy env fuel 1 w).2.state.Offset, ?_, hchain, ?_, htr, hpf, hoth⟩
  · rw [hrun]
    simp only
    rw [cleanup_trace env _ src info hhas hinv1, storedOffsets_append, hL]
    simp [storedOffsets]
  · rw [hrun]
    simp only
    intro t ht hts
    have hiff := sameFile_of_inv w.state (runLoopWhy env fuel 1 w).2.state info
      hinv.2.2.1 hinv.2.2.2.1 hinv1.2.2.1 hinv1.2.2.2.1 t
    exact ((cleanup_entry env _ src info hhas hinv1).2 t ht (hiff.1 hts)).1

theorem Run_stored_offsets_witness :
    ∃ (L : List Int) (final : Int),
      storedOffsets (Scanner.Run (envX true false) 10 (workerX readsS1)).2.trace
        = storedOffsets (workerX readsS1).trace ++ L ++ [final] ∧
      List.Chain (· ≤ ·) (workerX readsS1).state.Offset L ∧
      (∀ t ∈ (Scanner.Run (envX true false) 10 (workerX readsS1)).2.states,
        sameFile t (workerX readsS1).state → t.Offset = final) ∧
      ((runLoopWhy (envX true false) 10 1 (workerX readsS1)).1
          = ExitCause.readError ReadError.ErrFileTruncate → final = 0) ∧
      ((runLoopWhy (envX true false) 10 1 (workerX readsS1)).1 = ExitCause.publishFailed →
        ∃ L1 x, L = L1 ++ [x] ∧ final = L1.getLastD (workerX readsS1).state.Offset) ∧
      ((runLoopWhy (envX true false) 10 1 (workerX readsS1)).1
          ≠ ExitCause.readError ReadError.ErrFileTruncate →
        (runLoopWhy (envX true false) 10 1 (workerX readsS1)).1 ≠ ExitCause.publishFailed →
        final = L.getLastD (workerX readsS1).state.Offset) :=
  Run_stored_offsets (envX true false) 10 (workerX readsS1)
    { HasState := true, closed := false }
    { Name := "x.log", Size := 6, ModTime := 0, Ino := 7, Dev := 1 } rfl
    ⟨⟨false, rfl⟩, rfl, rfl, rfl, by rw [NoDuplicates_iff]; decide⟩
    (fun r m r1 h => plainReaderNext_Bytes_nonneg 10485760 r m none r1 h) rfl (by decide!)

/-! ## The multiline reader over a replayed upstream -/

theorem addLine_reader {σ : Type} (mlr : Multiline σ) (m : Message) :
    (mlr.addLine m).reader = mlr.reader := by
  unfold Multiline.addLine
  split
  · rfl
  · simp only; split_ifs <;> rfl

theorem addLine_state {σ : Type} (mlr : Multiline σ) (m : Message) :
    (mlr.addLine m).state = mlr.state := by
  unfold Multiline.addLine
  split
  · rfl
  · simp only; split_ifs <;> rfl

theorem addLine_Bytes {σ : Type} (mlr : Multiline σ) (m : Message) (h : 0 ≤ m.Bytes) :
    (mlr.addLine m).message.Bytes = mlr.message.Bytes + m.Bytes := by
  unfold Multiline.addLine
  split
  · have : m.Bytes = 0 := by omega
    rw [this]; simp
  · simp only; split_ifs <;> rfl

theorem addLine_last {σ : Type} (mlr : Multiline σ) (m : Message) (h : 0 < m.Bytes) :
    (mlr.addLine m).last = m.Content := by
  unfold Multiline.addLine
  split
  · omega
  · rfl

theorem addLine_LinesInv {σ : Type} (mlr : Multiline σ) (m : Message) (h : LinesInv mlr) :
    LinesInv (mlr.addLine m) := by
  obtain ⟨h0, h1⟩ := h
  unfold Multiline.addLine
  split
  · exact ⟨h0, h1⟩
  · rename_i hb
    by_cases hn : mlr.numLines = 0
    · obtain ⟨_, hc⟩ := h1 hn
      have hk : ((decide (mlr.maxBytes ≤ 0) || decide (mlr.maxBytes - (mlr.message.Content.length : Int) > 0)) &&
            (decide (mlr.maxLines ≤ 0) || decide (mlr.numLines < mlr.maxLines))) = true := by
        rw [hc, hn]
        simp only [List.length_nil, Nat.cast_zero, sub_zero, Bool.and_eq_true, Bool.or_eq_true,
          decide_eq_true_eq]
        omega
      simp only [hc, List.length_nil, gt_iff_lt, lt_self_iff_false, decide_False, Bool.false_and,
        Bool.false_eq_true, if_false] at hk ⊢
      rw [if_pos hk]
      refine ⟨by simp only; omega, fun h => ?_⟩
      simp only at h
      omega
    · simp only
      split_ifs
      all_goals refine ⟨by simp only; omega, fun h => ?_⟩
      all_goals simp only at h
      all_goals omega

theorem sumBytes_cons (p : Message × Option ReadError) (l : List (Message × Option ReadError)) :
    sumBytes (p :: l) = p.1.Bytes + sumBytes l := by
  simp [sumBytes]

theorem sumBytes_append (a b : List (Message × Option ReadError)) :
    sumBytes (a ++ b) = sumBytes a + sumBytes b := by
  simp [sumBytes]

theorem load_LinesInv {σ : Type} (mlr : Multiline σ) (m : Message) (h : LinesInv mlr) :
    LinesInv (mlr.load m) := addLine_LinesInv mlr m h

theorem clear_LinesInv {σ : Type} (mlr : Multiline σ) : LinesInv mlr.clear :=
  ⟨le_refl _, fun _ => ⟨rfl, rfl⟩⟩

theorem LinesInv_of_zero {σ : Type} (mlr : Multiline σ) (h1 : mlr.numLines = 0)
    (h2 : mlr.message = Message.zero) : LinesInv mlr :=
  ⟨by rw [h1], fun _ => by rw [h2]; exact ⟨rfl, rfl⟩⟩

theorem load_Bytes {σ : Type} (mlr : Multiline σ) (m : Message) (h : 0 ≤ m.Bytes) :
    (mlr.load m).message.Bytes = mlr.message.Bytes + m.Bytes := addLine_Bytes mlr m h

theorem load_reader {σ : Type} (mlr : Multiline σ) (m : Message) :
    (mlr.load m).reader = mlr.reader := addLine_reader mlr m

theorem load_state {σ : Type} (mlr : Multiline σ) (m : Message) :
    (mlr.load m).state = mlr.state := addLine_state mlr m

/-- The bytes of a call of `readNext` over a replayed upstream: the bytes of
the message returned and of the accumulator left make up those of the
accumulator found and of the upstream messages taken. -/
theorem readNextLoop_bytes : ∀ (fuel : Nat) (mlr : Multiline (List (Message × Option ReadError)))
    (R : Message) (err : Option ReadError) (mlr1 : Multiline (List (Message × Option ReadError))),
    (∀ p ∈ mlr.reader, UpstreamOk p) → LinesInv mlr → mlr.state = MultilineState.readNext →
    readNextLoop replayNext fuel mlr = NextResult.msg R err mlr1 →
    ∃ consumed, mlr.reader = consumed ++ mlr1.reader ∧
      R.Bytes + mlr1.message.Bytes = mlr.message.Bytes + sumBytes consumed ∧ AccInv mlr1 := by
  intro fuel
  induction fuel with
  | zero => intro mlr R err mlr1 _ _ _ h; cases h
  | succ fuel ih =>
    intro mlr R err mlr1 hup hN hst h
    rcases hr : mlr.reader with _ | ⟨⟨m, e⟩, rest⟩
    · simp only [readNextLoop, hr, replayNext] at h
      cases h
    · have hm : UpstreamOk (m, e) := hup _ (by rw [hr]; exact List.mem_cons_self _ _)
      have hrest : ∀ p ∈ rest, UpstreamOk p :=
        fun p hp => hup p (by rw [hr]; exact List.mem_cons_of_mem _ hp)
      obtain ⟨hmb, hmt⟩ := hm
      simp only at hmb hmt
      have hN1 : LinesInv { mlr with reader := rest } := hN
      cases e with
      | some e1 =>
        simp only [readNextLoop, hr, replayNext] at h
        split_ifs at h with h1 h2 h3 h4 h5
        · -- timeout, no lines: go on
          obtain ⟨c, hc, hb, hinv⟩ := ih _ R err mlr1 hrest hN1 hst h
          refine ⟨(m, some e1) :: c, ?_, ?_, hinv⟩
          · simp only at hc; rw [hc]; rfl
          · rw [sumBytes_cons]; simp only at hb ⊢
            have := hmt (by rw [h1]); omega
        · -- timeout, lines: flush
          simp only [NextResult.msg.injEq] at h
          obtain ⟨hR, _, hm1⟩ := h
          subst hR hm1
          refine ⟨[(m, some e1)], rfl, ?_, ⟨LinesInv_of_zero _ rfl rfl, fun _ => rfl⟩⟩
          have := hmt (by rw [h1])
          simp [sumBytes, Multiline.finalize, Multiline.clear, Multiline.resetState, Message.zero, this]
        · -- error, no bytes, no lines
          simp only [NextResult.msg.injEq] at h
          obtain ⟨hR, _, hm1⟩ := h
          subst hR hm1
          have hz : mlr.numLines = 0 := by simpa using h4
          have hb0 : m.Bytes = 0 := by simpa using h3
          refine ⟨[(m, some e1)], rfl, ?_, ⟨hN1, fun hne => absurd hst hne⟩⟩
          simp [sumBytes, Message.zero, hb0]
        · -- error, no bytes, lines
          simp only [NextResult.msg.injEq] at h
          obtain ⟨hR, _, hm1⟩ := h
          subst hR hm1
          have hb0 : m.Bytes = 0 := by simpa using h3
          refine ⟨[(m, some e1)], rfl, ?_, ⟨LinesInv_of_zero _ rfl rfl, fun _ => rfl⟩⟩
          simp [sumBytes, Multiline.finalize, Multiline.clear, Message.zero, hb0]
        · -- error with bytes, the line belongs to the message
          simp only [NextResult.msg.injEq] at h
          obtain ⟨hR, _, hm1⟩ := h
          subst hR hm1
          refine ⟨[(m, some e1)], ?_, ?_, ⟨LinesInv_of_zero _ rfl rfl, fun _ => rfl⟩⟩
          · simp [Multiline.finalize, Multiline.clear, addLine_reader]
          simp only [Multiline.finalize, Multiline.clear, Message.zero, sumBytes_cons, sumBytes,
            List.map_nil, List.sum_nil, add_zero, List.map_cons, List.sum_cons]
          exact addLine_Bytes _ m hmb
        · -- error with bytes, the line starts a message
          simp only [NextResult.msg.injEq] at h
          obtain ⟨hR, _, hm1⟩ := h
          subst hR hm1
          refine ⟨[(m, some e1)], ?_, ?_, ⟨load_LinesInv _ m (clear_LinesInv _), ?_⟩⟩
          · rw [load_reader]; rfl
          · rw [load_Bytes _ m hmb]
            simp [sumBytes, Multiline.finalize, Multiline.clear, Message.zero]
          · intro hne
            rw [load_state] at hne
            exact absurd hst hne
      | none =>
        simp only [readNextLoop, hr, replayNext] at h
        split_ifs at h with h1 h2
        · -- flush pattern
          simp only [NextResult.msg.injEq] at h
          obtain ⟨hR, _, hm1⟩ := h
          subst hR hm1
          refine ⟨[(m, none)], ?_, ?_, ⟨LinesInv_of_zero _ rfl rfl, fun _ => rfl⟩⟩
          · simp [Multiline.finalize, Multiline.clear, Multiline.resetState, addLine_reader]
          simp only [Multiline.finalize, Multiline.clear, Multiline.resetState, Message.zero,
            sumBytes_cons, sumBytes, List.map_nil, List.sum_nil, add_zero, List.map_cons,
            List.sum_cons]
          exact addLine_Bytes _ m hmb
        · -- the line starts a message
          simp only [NextResult.msg.injEq] at h
          obtain ⟨hR, _, hm1⟩ := h
          subst hR hm1
          refine ⟨[(m, none)], ?_, ?_, ⟨load_LinesInv _ m (clear_LinesInv _), ?_⟩⟩
          · rw [load_reader]; rfl
          · rw [load_Bytes _ m hmb]
            simp [sumBytes, Multiline.finalize, Multiline.clear, Message.zero]
          · intro hne
            rw [load_state] at hne
            exact absurd hst hne
        · -- the line belongs to the message: go on
          obtain ⟨c, hc, hb, hinv⟩ := ih _ R err mlr1 (by rw [addLine_reader]; exact hrest)
            (addLine_LinesInv _ m hN1) (by rw [addLine_state]; exact hst) h
          refine ⟨(m, none) :: c, ?_, ?_, hinv⟩
          · rw [addLine_reader] at hc; simp only at hc; rw [hc]; rfl
          · rw [addLine_Bytes _ m hmb] at hb
            rw [sumBytes_cons]; simp only at hb ⊢; omega

/-- The bytes of a call of `readFirst` over a replayed upstream, on an
accumulator that holds no bytes. -/
theorem readFirstLoop_bytes : ∀ (fuel : Nat) (mlr : Multiline (List (Message × Option ReadError)))
    (R : Message) (err : Option ReadError) (mlr1 : Multiline (List (Message × Option ReadError))),
    (∀ p ∈ mlr.reader, UpstreamOk p) → LinesInv mlr → mlr.message.Bytes = 0 →
    mlr.state = MultilineState.readFirst →
    readFirstLoop replayNext fuel mlr = NextResult.msg R err mlr1 →
    ∃ consumed, mlr.reader = consumed ++ mlr1.reader ∧
      R.Bytes + mlr1.message.Bytes = mlr.message.Bytes + sumBytes consumed ∧ AccInv mlr1 := by
  intro fuel
  induction fuel with
  | zero => intro mlr R err mlr1 _ _ _ _ h; cases h
  | succ fuel ih =>
    intro mlr R err mlr1 hup hN hz hst h
    rcases hr : mlr.reader with _ | ⟨⟨m, e⟩, rest⟩
    · simp only [readFirstLoop, hr, replayNext] at h
      cases h
    · have hm : UpstreamOk (m, e) := hup _ (by rw [hr]; exact List.mem_cons_self _ _)
      have hrest : ∀ p ∈ rest, UpstreamOk p :=
        fun p hp => hup p (by rw [hr]; exact List.mem_cons_of_mem _ hp)
      obtain ⟨hmb, hmt⟩ := hm
      simp only at hmb hmt
      have hN1 : LinesInv { mlr with reader := rest } := hN
      cases e with
      | some e1 =>
        simp only [readFirstLoop, hr, replayNext] at h
        split_ifs at h with h1
        · obtain ⟨c, hc, hb, hinv⟩ := ih _ R err mlr1 hrest hN1 hz hst h
          refine ⟨(m, some e1) :: c, ?_, ?_, hinv⟩
          · simp only at hc; rw [hc]; rfl
          · rw [sumBytes_cons]; simp only at hb ⊢
            have := hmt (by rw [h1]); omega
        · simp only [NextResult.msg.injEq] at h
          obtain ⟨hR, _, hm1⟩ := h
          subst hR hm1
          refine ⟨[(m, some e1)], rfl, ?_, ⟨hN1, fun _ => hz⟩⟩
          simp only [sumBytes, List.map_cons, List.map_nil, List.sum_cons, List.sum_nil, add_zero]
          omega
      | none =>
        simp only [readFirstLoop, hr, replayNext] at h
        split_ifs at h with h1
        · obtain ⟨c, hc, hb, hinv⟩ := ih _ R err mlr1 hrest hN1 hz hst h
          have hb0 : m.Bytes = 0 := by simpa using h1
          refine ⟨(m, none) :: c, ?_, ?_, hinv⟩
          · simp only at hc; rw [hc]; rfl
          · rw [sumBytes_cons]; simp only at hb ⊢; omega
        · obtain ⟨c, hc, hb, hinv⟩ := readNextLoop_bytes fuel
            { (({ mlr with reader := rest } : Multiline _).clear.load m) with
              state := MultilineState.readNext } R err mlr1
            (by simp only [load_reader]; exact hrest)
            (load_LinesInv _ m (clear_LinesInv _)) rfl h
          refine ⟨(m, none) :: c, ?_, ?_, hinv⟩
          · have hc2 : rest = c ++ mlr1.reader := by
              simpa [load_reader, Multiline.clear] using hc
            exact congrArg (List.cons (m, none)) hc2
          · simp only at hb
            rw [load_Bytes _ m hmb] at hb
            rw [sumBytes_cons]
            simp only [Multiline.clear, Message.zero] at hb ⊢
            omega

/-- The bytes of a call of `Next` over a replayed upstream. -/
theorem Multiline_Next_bytes (fuel : Nat) (mlr : Multiline (List (Message × Option ReadError)))
    (R : Message) (err : Option ReadError) (mlr1 : Multiline (List (Message × Option ReadError)))
    (hup : ∀ p ∈ mlr.reader, UpstreamOk p) (hinv : AccInv mlr)
    (h : Multiline.Next replayNext fuel mlr = NextResult.msg R err mlr1) :
    ∃ consumed, mlr.reader = consumed ++ mlr1.reader ∧
      R.Bytes + mlr1.message.Bytes = mlr.message.Bytes + sumBytes consumed ∧ AccInv mlr1 := by
  unfold Multiline.Next at h
  split at h
  · rename_i hst
    exact readFirstLoop_bytes fuel mlr R err mlr1 hup hinv.1 (hinv.2 (by rw [hst]; decide)) hst h
  · rename_i hst
    exact readNextLoop_bytes fuel mlr R err mlr1 hup hinv.1 hst h
  · rename_i hst
    simp only [Multiline.readFailed, NextResult.msg.injEq] at h
    obtain ⟨hR, _, hm1⟩ := h
    subst hR hm1
    have hz := hinv.2 (by rw [hst]; decide)
    refine ⟨[], rfl, ?_, ⟨hinv.1, fun _ => hz⟩⟩
    simp [sumBytes, Message.zero, Multiline.resetState]

/-- The bytes of a run of calls of `Next` over a replayed upstream. -/
theorem Multiline_run_bytes (fuel : Nat) : ∀ (n : Nat)
    (mlr0 mlr : Multiline (List (Message × Option ReadError))),
    (∀ p ∈ mlr0.reader, UpstreamOk p) → AccInv mlr0 →
    afterCalls (Multiline.Next replayNext fuel) n mlr0 = some mlr →
    AccInv mlr ∧ (∀ p ∈ mlr.reader, UpstreamOk p) ∧
    ∃ consumed, mlr0.reader = consumed ++ mlr.reader ∧
      ((firstResults (Multiline.Next replayNext fuel) n mlr0).map (fun r => r.2.1)).sum
          + mlr.message.Bytes = mlr0.message.Bytes + sumBytes consumed := by
  intro n
  induction n with
  | zero =>
    intro mlr0 mlr hup hinv h
    simp only [afterCalls, Option.some.injEq] at h
    subst h
    exact ⟨hinv, hup, [], rfl, by simp [firstResults, sumBytes]⟩
  | succ n ih =>
    intro mlr0 mlr hup hinv h
    unfold afterCalls at h
    unfold firstResults
    split at h
    · rename_i R err mlr1 hnext
      obtain ⟨c, hc, hb, hinv1⟩ := Multiline_Next_bytes fuel mlr0 R err mlr1 hup hinv hnext
      have hup1 : ∀ p ∈ mlr1.reader, UpstreamOk p :=
        fun p hp => hup p (by rw [hc]; exact List.mem_append_right _ hp)
      obtain ⟨hinv2, hup2, c2, hc2, hb2⟩ := ih mlr1 mlr hup1 hinv1 h
      refine ⟨hinv2, hup2, c ++ c2, ?_, ?_⟩
      · rw [hc, hc2, List.append_assoc]
      · simp only [hnext, sumBytes_append, List.map_cons, List.sum_cons]
        omega
    · cases h
    · cases h

theorem NewMultiLine_init {σ : Type} (reader : σ) (sep : List Nat) (maxBytes : Int)
    (config : MultilineConfig) (mlr0 : Multiline σ)
    (h : NewMultiLine reader sep maxBytes config = some mlr0) :
    mlr0.reader = reader ∧ mlr0.numLines = 0 ∧ mlr0.message = Message.zero ∧
    mlr0.state = MultilineState.readFirst ∧ mlr0.maxBytes = maxBytes ∧ mlr0.separator = sep ∧
    mlr0.maxLines = config.MaxLines.getD defaultMaxLines ∧
    mlr0.flushMatcher = config.FlushPattern := by
  unfold NewMultiLine at h
  simp only at h
  split at h
  · cases h
  · split at h
    · cases h
    · simp only [Option.some.injEq] at h
      subst h
      refine ⟨rfl, rfl, rfl, rfl, rfl, rfl, ?_, rfl⟩
      cases config.MaxLines <;> rfl

/-- A line that `addLine` drops because a limit is reached leaves the content
and the number of lines as they are. -/
theorem addLine_dropped {σ : Type} (mlr : Multiline σ) (m : Message)
    (h : (0 < mlr.maxLines ∧ mlr.maxLines ≤ mlr.numLines) ∨
      (0 < mlr.maxBytes ∧ mlr.maxBytes ≤ (mlr.message.Content.length : Int) +
        (if mlr.message.Content.length > 0 ∧ mlr.separator.length > 0
          then (mlr.separator.length : Int) else 0))) :
    (mlr.addLine m).message.Content = mlr.message.Content ∧
    (mlr.addLine m).numLines = mlr.numLines := by
  unfold Multiline.addLine
  split
  · exact ⟨rfl, rfl⟩
  · simp only [Bool.and_eq_true, decide_eq_true_eq] at h ⊢
    split_ifs at h ⊢ with h1 h2 h3 h4
    all_goals first
      | exact ⟨rfl, rfl⟩
      | (exfalso
         simp only [Bool.and_eq_true, Bool.or_eq_true, decide_eq_true_eq] at *
         omega)

theorem joinLines_append_one (sep : List Nat) (parts : List (List Nat)) (p : List Nat) :
    joinLines sep (parts ++ [p])
      = (if (joinLines sep parts).length > 0 && sep.length > 0 then joinLines sep parts ++ sep
          else joinLines sep parts) ++ p := by
  simp [joinLines, List.foldl_append]

theorem addLine_maxBytes {σ : Type} (mlr : Multiline σ) (m : Message) :
    (mlr.addLine m).maxBytes = mlr.maxBytes := by
  unfold Multiline.addLine
  split
  · rfl
  · simp only; split_ifs <;> rfl

theorem addLine_maxLines {σ : Type} (mlr : Multiline σ) (m : Message) :
    (mlr.addLine m).maxLines = mlr.maxLines := by
  unfold Multiline.addLine
  split
  · rfl
  · simp only; split_ifs <;> rfl

theorem addLine_separator {σ : Type} (mlr : Multiline σ) (m : Message) :
    (mlr.addLine m).separator = mlr.separator := by
  unfold Multiline.addLine
  split
  · rfl
  · simp only; split_ifs <;> rfl

/-- What `addLine` does to content and number of lines: nothing, or it
appends, after the separator if one is due, the first `k` bytes of the line,
and counts one more line; it does so only with the limits of lines and
bytes not reached, and the content stays within a positive `maxBytes`. -/
theorem addLine_cases {σ : Type} (mlr : Multiline σ) (m : Message) :
    ((mlr.addLine m).message.Content = mlr.message.Content ∧
      (mlr.addLine m).numLines = mlr.numLines) ∨
    ∃ k : Nat,
      (mlr.addLine m).message.Content
        = (if mlr.message.Content.length > 0 && mlr.separator.length > 0
            then mlr.message.Content ++ mlr.separator else mlr.message.Content)
          ++ m.Content.take k ∧
      (mlr.addLine m).numLines = mlr.numLines + 1 ∧
      (mlr.maxLines ≤ 0 ∨ mlr.numLines < mlr.maxLines) ∧
      (mlr.maxBytes ≤ 0 ∨ (((mlr.addLine m).message.Content.length : Nat) : Int) ≤ mlr.maxBytes) := by
  unfold Multiline.addLine
  split
  · exact Or.inl ⟨rfl, rfl⟩
  · simp only [Message.AddFields]
    split_ifs with h1 h2 h3 h4 h5
    all_goals first
      | exact Or.inl ⟨rfl, rfl⟩
      | (refine Or.inr ⟨_, rfl, rfl, ?_, ?_⟩
         · simp only [Bool.and_eq_true, Bool.or_eq_true, decide_eq_true_eq] at *
           omega
         · simp only [Bool.and_eq_true, Bool.or_eq_true, decide_eq_true_eq, List.length_append,
             List.length_take, Nat.cast_add, Nat.cast_min] at *
           omega)

theorem AccBound_message {σ : Type} (ups : List (Message × Option ReadError)) (sep : List Nat)
    (maxBytes maxLines : Int) (mlr : Multiline σ) (h : AccBound ups sep maxBytes maxLines mlr) :
    WithinBounds ups sep maxBytes maxLines mlr.message.Content := by
  obtain ⟨_, _, _, hlen, hnl, parts, hp, hc, hpre⟩ := h
  exact ⟨hlen, parts, by omega, hc, hpre⟩

theorem WithinBounds_nil (ups : List (Message × Option ReadError)) (sep : List Nat)
    (maxBytes maxLines : Int) (hmb : 0 < maxBytes) (hml : 0 < maxLines) :
    WithinBounds ups sep maxBytes maxLines [] :=
  ⟨by simp; omega, [], by simp; omega, rfl, fun p hp => by cases hp⟩

theorem AccBound_of_zero {σ : Type} (ups : List (Message × Option ReadError)) (sep : List Nat)
    (maxBytes maxLines : Int) (mlr : Multiline σ) (hmb : 0 < maxBytes) (hml : 0 < maxLines)
    (h1 : mlr.maxBytes = maxBytes) (h2 : mlr.maxLines = maxLines) (h3 : mlr.separator = sep)
    (h4 : mlr.numLines = 0) (h5 : mlr.message = Message.zero) :
    AccBound ups sep maxBytes maxLines mlr := by
  refine ⟨h1, h2, h3, ?_, ?_, [], ?_, ?_, ?_⟩
  · rw [h5]; simp [Message.zero]; omega
  · omega
  · rw [h4]; rfl
  · rw [h5]; rfl
  · intro p hp; cases hp

theorem addLine_AccBound {σ : Type} (ups : List (Message × Option ReadError)) (sep : List Nat)
    (maxBytes maxLines : Int) (mlr : Multiline σ) (m : Message) (e : Option ReadError)
    (hm : (m, e) ∈ ups) (hmb : 0 < maxBytes) (hml : 0 < maxLines)
    (h : AccBound ups sep maxBytes maxLines mlr) :
    AccBound ups sep maxBytes maxLines (mlr.addLine m) := by
  obtain ⟨h1, h2, h3, hlen, hnl, parts, hp, hc, hpre⟩ := h
  refine ⟨by rw [addLine_maxBytes]; exact h1, by rw [addLine_maxLines]; exact h2,
    by rw [addLine_separator]; exact h3, ?_⟩
  rcases addLine_cases mlr m with ⟨hC, hN⟩ | ⟨k, hC, hN, hL, hB⟩
  · rw [hC, hN]
    exact ⟨hlen, hnl, parts, hp, hc, hpre⟩
  · refine ⟨by omega, by omega, parts ++ [m.Content.take k], ?_, ?_, ?_⟩
    · rw [hN]; simp only [List.length_append, List.length_singleton, Nat.cast_add, Nat.cast_one]
      omega
    · rw [hC, joinLines_append_one, ← hc, ← h3]
    · intro p hp1
      rcases List.mem_append.1 hp1 with hp2 | hp2
      · exact hpre p hp2
      · rw [List.mem_singleton] at hp2
        exact ⟨(m, e), hm, by rw [hp2]; exact List.take_prefix _ _⟩

theorem load_AccBound {σ : Type} (ups : List (Message × Option ReadError)) (sep : List Nat)
    (maxBytes maxLines : Int) (mlr : Multiline σ) (m : Message) (e : Option ReadError)
    (hm : (m, e) ∈ ups) (hmb : 0 < maxBytes) (hml : 0 < maxLines)
    (h : AccBound ups sep maxBytes maxLines mlr) :
    AccBound ups sep maxBytes maxLines (mlr.load m) :=
  addLine_AccBound ups sep maxBytes maxLines mlr m e hm hmb hml h

theorem clear_AccBound {σ : Type} (ups : List (Message × Option ReadError)) (sep : List Nat)
    (maxBytes maxLines : Int) (mlr : Multiline σ) (hmb : 0 < maxBytes) (hml : 0 < maxLines)
    (h : AccBound ups sep maxBytes maxLines mlr) :
    AccBound ups sep maxBytes maxLines mlr.clear :=
  AccBound_of_zero ups sep maxBytes maxLines _ hmb hml h.1 h.2.1 h.2.2.1 rfl rfl

/-- The bounds at a call of `readNext` over a replayed upstream. -/
theorem readNextLoop_bounds (ups : List (Message × Option ReadError)) (sep : List Nat)
    (maxBytes maxLines : Int) (hmb : 0 < maxBytes) (hml : 0 < maxLines) :
    ∀ (fuel : Nat) (mlr : Multiline (List (Message × Option ReadError)))
    (R : Message) (err : Option ReadError) (mlr1 : Multiline (List (Message × Option ReadError))),
    (∀ p ∈ mlr.reader, p ∈ ups) → AccBound ups sep maxBytes maxLines mlr →
    readNextLoop replayNext fuel mlr = NextResult.msg R err mlr1 →
    WithinBounds ups sep maxBytes maxLines R.Content ∧ (∀ p ∈ mlr1.reader, p ∈ ups) ∧
      AccBound ups sep maxBytes maxLines mlr1 := by
  intro fuel
  induction fuel with
  | zero => intro mlr R err mlr1 _ _ h; cases h
  | succ fuel ih =>
    intro mlr R err mlr1 hup hB h
    rcases hr : mlr.reader with _ | ⟨⟨m, e⟩, rest⟩
    · simp only [readNextLoop, hr, replayNext] at h
      cases h
    · have hm : (m, e) ∈ ups := hup _ (by rw [hr]; exact List.mem_cons_self _ _)
      have hrest : ∀ p ∈ rest, p ∈ ups :=
        fun p hp => hup p (by rw [hr]; exact List.mem_cons_of_mem _ hp)
      have hB1 : AccBound ups sep maxBytes maxLines { mlr with reader := rest } := hB
      have hBc := clear_AccBound ups sep maxBytes maxLines _ hmb hml hB1
      have hBa := addLine_AccBound ups sep maxBytes maxLines _ m e hm hmb hml hB1
      have hBac := clear_AccBound ups sep maxBytes maxLines _ hmb hml hBa
      have hBl := load_AccBound ups sep maxBytes maxLines _ m e hm hmb hml hBc
      cases e with
      | some e1 =>
        simp only [readNextLoop, hr, replayNext] at h
        split_ifs at h with h1 h2 h3 h4 h5
        · exact ih _ R err mlr1 hrest hB1 h
        · simp only [NextResult.msg.injEq] at h
          obtain ⟨hR, _, hm1⟩ := h
          subst hR hm1
          exact ⟨AccBound_message _ _ _ _ _ hB1, hrest, hBc⟩
        · simp only [NextResult.msg.injEq] at h
          obtain ⟨hR, _, hm1⟩ := h
          subst hR hm1
          exact ⟨WithinBounds_nil ups sep maxBytes maxLines hmb hml, hrest, hB1⟩
        · simp only [NextResult.msg.injEq] at h
          obtain ⟨hR, _, hm1⟩ := h
          subst hR hm1
          exact ⟨AccBound_message _ _ _ _ _ hB1, hrest, hBc⟩
        · simp only [NextResult.msg.injEq] at h
          obtain ⟨hR, _, hm1⟩ := h
          subst hR hm1
          refine ⟨AccBound_message _ _ _ _ _ hBa, ?_, hBac⟩
          simp only [Multiline.finalize, Multiline.clear, addLine_reader]
          exact hrest
        · simp only [NextResult.msg.injEq] at h
          obtain ⟨hR, _, hm1⟩ := h
          subst hR hm1
          refine ⟨AccBound_message _ _ _ _ _ hB1, ?_, hBl⟩
          simp only [load_reader]
          exact hrest
      | none =>
        simp only [readNextLoop, hr, replayNext] at h
        split_ifs at h with h1 h2
        · simp only [NextResult.msg.injEq] at h
          obtain ⟨hR, _, hm1⟩ := h
          subst hR hm1
          refine ⟨AccBound_message _ _ _ _ _ hBa, ?_, hBac⟩
          simp only [Multiline.finalize, Multiline.clear, Multiline.resetState, addLine_reader]
          exact hrest
        · simp only [NextResult.msg.injEq] at h
          obtain ⟨hR, _, hm1⟩ := h
          subst hR hm1
          refine ⟨AccBound_message _ _ _ _ _ hB1, ?_, hBl⟩
          simp only [load_reader]
          exact hrest
        · exact ih _ R err mlr1 (by rw [addLine_reader]; exact hrest) hBa h

/-- The bounds at a call of `readFirst` over a replayed upstream. -/
theorem readFirstLoop_bounds (ups : List (Message × Option ReadError)) (sep : List Nat)
    (maxBytes maxLines : Int) (hmb : 0 < maxBytes) (hml : 0 < maxLines) :
    ∀ (fuel : Nat) (mlr : Multiline (List (Message × Option ReadError)))
    (R : Message) (err : Option ReadError) (mlr1 : Multiline (List (Message × Option ReadError))),
    (∀ p ∈ mlr.reader, p ∈ ups) → AccBound ups sep maxBytes maxLines mlr →
    readFirstLoop replayNext fuel mlr = NextResult.msg R err mlr1 →
    (err = none → WithinBounds ups sep maxBytes maxLines R.Content) ∧
      (∀ p ∈ mlr1.reader, p ∈ ups) ∧ AccBound ups sep maxBytes maxLines mlr1 := by
  intro fuel
  induction fuel with
  | zero => intro mlr R err mlr1 _ _ h; cases h
  | succ fuel ih =>
    intro mlr R err mlr1 hup hB h
    rcases hr : mlr.reader with _ | ⟨⟨m, e⟩, rest⟩
    · simp only [readFirstLoop, hr, replayNext] at h
      cases h
    · have hm : (m, e) ∈ ups := hup _ (by rw [hr]; exact List.mem_cons_self _ _)
      have hrest : ∀ p ∈ rest, p ∈ ups :=
        fun p hp => hup p (by rw [hr]; exact List.mem_cons_of_mem _ hp)
      have hB1 : AccBound ups sep maxBytes maxLines { mlr with reader := rest } := hB
      have hBc := clear_AccBound ups sep maxBytes maxLines _ hmb hml hB1
      have hBl := load_AccBound ups sep maxBytes maxLines _ m e hm hmb hml hBc
      cases e with
      | some e1 =>
        simp only [readFirstLoop, hr, replayNext] at h
        split_ifs at h with h1
        · exact ih _ R err mlr1 hrest hB1 h
        · simp only [NextResult.msg.injEq] at h
          obtain ⟨hR, he, hm1⟩ := h
          subst hR hm1
          exact ⟨fun hn => (by rw [hn] at he; cases he), hrest, hB1⟩
      | none =>
        simp only [readFirstLoop, hr, replayNext] at h
        split_ifs at h with h1
        · exact ih _ R err mlr1 hrest hB1 h
        · obtain ⟨hW, hr1, hB2⟩ := readNextLoop_bounds ups sep maxBytes maxLines hmb hml fuel
            { (({ mlr with reader := rest } : Multiline _).clear.load m) with
              state := MultilineState.readNext } R err mlr1
            (by simp only [load_reader]; exact hrest) hBl h
          exact ⟨fun _ => hW, hr1, hB2⟩

/-- The bounds at a call of `Next` over a replayed upstream. -/
theorem Multiline_Next_bounds (ups : List (Message × Option ReadError)) (sep : List Nat)
    (maxBytes maxLines : Int) (hmb : 0 < maxBytes) (hml : 0 < maxLines)
    (fuel : Nat) (mlr : Multiline (List (Message × Option ReadError)))
    (R : Message) (err : Option ReadError) (mlr1 : Multiline (List (Message × Option ReadError)))
    (hup : ∀ p ∈ mlr.reader, p ∈ ups) (hB : AccBound ups sep maxBytes maxLines mlr)
    (h : Multiline.Next replayNext fuel mlr = NextResult.msg R err mlr1) :
    (err = none → WithinBounds ups sep maxBytes maxLines R.Content) ∧
      (∀ p ∈ mlr1.reader, p ∈ ups) ∧ AccBound ups sep maxBytes maxLines mlr1 := by
  unfold Multiline.Next at h
  split at h
  · exact readFirstLoop_bounds ups sep maxBytes maxLines hmb hml fuel mlr R err mlr1 hup hB h
  · obtain ⟨hW, hr1, hB2⟩ :=
      readNextLoop_bounds ups sep maxBytes maxLines hmb hml fuel mlr R err mlr1 hup hB h
    exact ⟨fun _ => hW, hr1, hB2⟩
  · simp only [Multiline.readFailed, NextResult.msg.injEq] at h
    obtain ⟨hR, _, hm1⟩ := h
    subst hR hm1
    exact ⟨fun _ => WithinBounds_nil ups sep maxBytes maxLines hmb hml, hup, hB⟩

/-- The bounds over a run of calls of `Next` over a replayed upstream. -/
theorem Multiline_run_bounds (ups : List (Message × Option ReadError)) (sep : List Nat)
    (maxBytes maxLines : Int) (hmb : 0 < maxBytes) (hml : 0 < maxLines) (fuel : Nat) :
    ∀ (n : Nat) (mlr : Multiline (List (Message × Option ReadError))),
    (∀ p ∈ mlr.reader, p ∈ ups) → AccBound ups sep maxBytes maxLines mlr →
    ∀ r ∈ firstResults (Multiline.Next replayNext fuel) n mlr, r.2.2 = none →
      WithinBounds ups sep maxBytes maxLines r.1 := by
  intro n
  induction n with
  | zero => intro mlr _ _ r hr; cases hr
  | succ n ih =>
    intro mlr hup hB r hr
    unfold firstResults at hr
    split at hr
    · rename_i R err mlr1 hnext
      obtain ⟨hW, hup1, hB1⟩ :=
        Multiline_Next_bounds ups sep maxBytes maxLines hmb hml fuel mlr R err mlr1 hup hB hnext
      rcases List.mem_cons.1 hr with hr1 | hr1
      · intro he
        rw [hr1] at he ⊢
        exact hW he
      · exact ih mlr1 hup1 hB1 r hr1
    · cases hr
    · cases hr

theorem addLine_pred {σ : Type} (mlr : Multiline σ) (m : Message) :
    (mlr.addLine m).pred = mlr.pred := by
  unfold Multiline.addLine
  split
  · rfl
  · simp only; split_ifs <;> rfl

theorem addLine_flushMatcher {σ : Type} (mlr : Multiline σ) (m : Message) :
    (mlr.addLine m).flushMatcher = mlr.flushMatcher := by
  unfold Multiline.addLine
  split
  · rfl
  · simp only; split_ifs <;> rfl

/-- A line with bytes and content that `addLine` takes with the limits not
reached is appended whole, after the separator if one is due. -/
theorem addLine_keep {σ : Type} (mlr : Multiline σ) (m : Message) (hb : 0 < m.Bytes)
    (hc : m.Content ≠ [])
    (hl : mlr.maxLines ≤ 0 ∨ mlr.numLines < mlr.maxLines)
    (hm : mlr.maxBytes < 0 ∨
      ((((if mlr.message.Content.length > 0 && mlr.separator.length > 0
            then mlr.message.Content ++ mlr.separator else mlr.message.Content)
          ++ m.Content).length : Nat) : Int) ≤ mlr.maxBytes) :
    (mlr.addLine m).message.Content
      = (if mlr.message.Content.length > 0 && mlr.separator.length > 0
          then mlr.message.Content ++ mlr.separator else mlr.message.Content) ++ m.Content ∧
    (mlr.addLine m).numLines = mlr.numLines + 1 := by
  have hlen : 0 < m.Content.length := List.length_pos.2 hc
  unfold Multiline.addLine
  split
  · omega
  · simp only [Message.AddFields]
    split_ifs at hm ⊢ with h1 h2 h3 h4 h5
    all_goals simp only [Bool.and_eq_true, Bool.or_eq_true, decide_eq_true_eq, List.length_append,
      Nat.cast_add, not_and, not_or, not_lt, not_le] at *
    all_goals first
      | (refine ⟨?_, trivial⟩
         congr 1
         apply List.take_of_length_le
         omega)
      | (exfalso; omega)

theorem joinLines_foldl_length (sep : List Nat) (b : List (List Nat)) : ∀ acc : List Nat,
    acc.length ≤ (b.foldl (fun acc p =>
      (if acc.length > 0 && sep.length > 0 then acc ++ sep else acc) ++ p) acc).length := by
  induction b with
  | nil => intro acc; exact le_refl _
  | cons p rest ih =>
    intro acc
    simp only [List.foldl_cons]
    refine le_trans ?_ (ih _)
    split_ifs <;> simp only [List.length_append] <;> omega

theorem joinLines_length_mono (sep : List Nat) (a b : List (List Nat)) :
    (joinLines sep a).length ≤ (joinLines sep (a ++ b)).length := by
  unfold joinLines
  rw [List.foldl_append]
  exact joinLines_foldl_length sep b _

theorem joinLines_singleton (sep : List Nat) (p : List Nat) : joinLines sep [p] = p := by
  simp [joinLines]

theorem intercalate_append_one (sep : List Nat) (x : List Nat) : ∀ (xs : List (List Nat)),
    xs ≠ [] → List.intercalate sep (xs ++ [x]) = List.intercalate sep xs ++ sep ++ x := by
  intro xs
  induction xs with
  | nil => intro h; exact absurd rfl h
  | cons a rest ih =>
    intro _
    cases rest with
    | nil => simp [List.intercalate, List.intersperse]
    | cons b rest2 =>
      have := ih (by simp)
      simp only [List.intercalate, List.cons_append, List.intersperse, List.flatten_cons,
        List.append_assoc] at this ⊢
      exact congrArg (fun l => a ++ (sep ++ l)) this

/-- Lines that are not empty are joined by `joinLines` as by
`List.intercalate`: the separator stands between any two of them. -/
theorem joinLines_eq_intercalate (sep : List Nat) (parts : List (List Nat))
    (h : ∀ p ∈ parts, p ≠ []) : joinLines sep parts = List.intercalate sep parts := by
  induction parts using List.reverseRecOn with
  | nil => rfl
  | append_singleton xs x ih =>
    have hxs : ∀ p ∈ xs, p ≠ [] := fun p hp => h p (List.mem_append_left _ hp)
    rw [joinLines_append_one, ih hxs]
    rcases xs.eq_nil_or_concat with hnil | ⟨ys, y, hy⟩
    · subst hnil; simp [List.intercalate]
    · have hne : xs ≠ [] := by rw [hy]; simp
      rw [intercalate_append_one sep x xs hne]
      have hpos : 0 < (List.intercalate sep xs).length := by
        rw [← ih hxs, hy, List.concat_eq_append]
        have hy1 : y ≠ [] := hxs y (by rw [hy]; simp)
        rw [joinLines_append_one]
        have := List.length_pos.2 hy1
        simp only [List.length_append]
        omega
      by_cases hs : 0 < sep.length
      · simp [hpos, hs]
      · have : sep = [] := List.length_eq_zero.1 (by omega)
        subst this
        simp

theorem groupsFrom_head (pat : List Nat → Bool) : ∀ (rest cur : List Message),
    ∃ more tail, groupsFrom pat cur rest = (cur ++ more) :: tail := by
  intro rest
  induction rest with
  | nil => intro cur; exact ⟨[], [], by simp [groupsFrom]⟩
  | cons m rest ih =>
    intro cur
    unfold groupsFrom
    split
    · obtain ⟨more, tail, h⟩ := ih (cur ++ [m])
      exact ⟨m :: more, tail, by rw [h]; simp⟩
    · exact ⟨[], groupsFrom pat [m] rest, by simp⟩

theorem Multiline_Next_readNext {σ : Type} (next : σ → NextResult σ) (fuel : Nat)
    (mlr : Multiline σ) (h : mlr.state = MultilineState.readNext) :
    Multiline.Next next fuel mlr = readNextLoop next fuel mlr := by
  unfold Multiline.Next
  rw [h]

theorem firstResults_succ {σ : Type} (next : σ → NextResult σ) (n : Nat) (r : σ) :
    firstResults next (n + 1) r = consResult (next r) (firstResults next n) := by
  unfold firstResults consResult
  cases next r <;> rfl

theorem consResult_msg {σ : Type} (m : Message) (e : Option ReadError) (r1 : σ)
    (k : σ → List (List Nat × Int × Option ReadError)) :
    consResult (NextResult.msg m e r1) k = (m.Content, m.Bytes, e) :: k r1 := rfl

theorem sum_Bytes_pos : ∀ (cur : List Message), cur ≠ [] → (∀ m ∈ cur, LineOk m) →
    0 < (cur.map Message.Bytes).sum := by
  intro cur
  induction cur with
  | nil => intro h; exact absurd rfl h
  | cons a rest ih =>
    intro _ hok
    have ha := (hok a (List.mem_cons_self _ _)).1
    simp only [List.map_cons, List.sum_cons]
    cases rest with
    | nil => simpa using ha
    | cons b rest2 =>
      have := ih (by simp) (fun m hm => hok m (List.mem_cons_of_mem _ hm))
      omega

theorem Holding_addLine {σ : Type} (pat : List Nat → Bool) (sep : List Nat)
    (maxBytes maxLines : Int) (cur : List Message) (mlr : Multiline σ) (m : Message)
    (h : Holding pat sep maxBytes maxLines cur mlr) (hm : LineOk m)
    (hl : maxLines ≤ 0 ∨ ((cur ++ [m]).length : Int) ≤ maxLines)
    (hb : maxBytes < 0 ∨
      ((joinLines sep ((cur ++ [m]).map Message.Content)).length : Int) ≤ maxBytes) :
    Holding pat sep maxBytes maxLines (cur ++ [m]) (mlr.addLine m) := by
  obtain ⟨h1, h2, h3, h4, h5, h6, h7, h8⟩ := h
  have hj : joinLines sep ((cur ++ [m]).map Message.Content)
      = (if mlr.message.Content.length > 0 && mlr.separator.length > 0
          then mlr.message.Content ++ mlr.separator else mlr.message.Content) ++ m.Content := by
    rw [List.map_append, List.map_singleton, joinLines_append_one, ← h7, ← h3]
  obtain ⟨hC, hN⟩ := addLine_keep mlr m hm.1 hm.2
    (by rw [h5, h6]; simp only [List.length_append, List.length_singleton, Nat.cast_add,
          Nat.cast_one] at hl; omega)
    (by rw [h4, ← hj]; exact hb)
  refine ⟨by rw [addLine_pred]; exact h1, by rw [addLine_flushMatcher]; exact h2,
    by rw [addLine_separator]; exact h3, by rw [addLine_maxBytes]; exact h4,
    by rw [addLine_maxLines]; exact h5, ?_, ?_, ?_⟩
  · rw [hN, h6]; simp
  · rw [hC, hj]
  · rw [addLine_Bytes mlr m (le_of_lt hm.1), h8]; simp

theorem LimitsNotReached_head (pat : List Nat → Bool) (sep : List Nat)
    (maxBytes maxLines : Int) (cur rest : List Message)
    (h : LimitsNotReached pat sep maxBytes maxLines cur rest) :
    (maxLines ≤ 0 ∨ (cur.length : Int) ≤ maxLines) ∧
    (maxBytes < 0 ∨ ((joinLines sep (cur.map Message.Content)).length : Int) ≤ maxBytes) := by
  obtain ⟨more, tail, hg⟩ := groupsFrom_head pat rest cur
  obtain ⟨hl, hb⟩ := h
  rw [hg] at hl hb
  constructor
  · rcases hl with hl | hl
    · exact Or.inl hl
    · right
      have := hl _ (List.mem_cons_self _ _)
      simp only [List.length_append, Nat.cast_add] at this
      omega
  · rcases hb with hb | hb
    · exact Or.inl hb
    · right
      have := hb _ (List.mem_cons_self _ _)
      rw [List.map_append] at this
      have hmono := joinLines_length_mono sep (cur.map Message.Content)
        (more.map Message.Content)
      omega

/-- The results of `readNext`, and of the calls of `Next` after it, for a
reader of `match=after` that holds the lines `cur` and has the lines `rest`
and the end of the file to come: the groups of `cur` and `rest`, then the end
of the file. -/
theorem readNextLoop_groups (pat : List Nat → Bool) (sep : List Nat)
    (maxBytes maxLines : Int) (F : Nat) : ∀ (rest cur : List Message) (f : Nat)
    (mlr : Multiline (List (Message × Option ReadError))),
    cur ≠ [] → (∀ m ∈ cur, LineOk m) → (∀ m ∈ rest, LineOk m) →
    Holding pat sep maxBytes maxLines cur mlr → mlr.state = MultilineState.readNext →
    mlr.reader = rest.map (fun m => (m, none)) ++ [(Message.zero, some ReadError.EOF)] →
    rest.length < f → rest.length < F →
    LimitsNotReached pat sep maxBytes maxLines cur rest →
    consResult (readNextLoop replayNext f mlr)
        (firstResults (Multiline.Next replayNext F) (groupsFrom pat cur rest).length)
      = groupResults sep (groupsFrom pat cur rest) := by
  intro rest
  induction rest with
  | nil =>
    intro cur f mlr hne hcur _ hH hst hr hf _ _
    obtain ⟨f1, rfl⟩ : ∃ f1, f = f1 + 1 := ⟨f - 1, by simp at hf; omega⟩
    obtain ⟨h1, h2, h3, h4, h5, h6, h7, h8⟩ := hH
    have hnl : ¬ mlr.numLines = 0 := by
      rw [h6]
      have := List.length_pos.2 hne
      omega
    simp only [List.map_nil, List.nil_append] at hr
    simp only [readNextLoop, hr, replayNext, reduceCtorEq, if_false, Message.zero,
      beq_self_eq_true, if_true, beq_iff_eq, hnl, consResult, groupsFrom, List.length_singleton,
      firstResults_succ, Multiline.Next, Multiline.readFailed, Multiline.finalize,
      Multiline.clear, firstResults, groupResults, List.map_cons, List.map_nil,
      List.singleton_append, h7, h8]
  | cons m rest ih =>
    intro cur f mlr hne hcur hrest hH hst hr hf hF hlim
    obtain ⟨f1, rfl⟩ : ∃ f1, f = f1 + 1 := ⟨f - 1, by simp at hf; omega⟩
    have hm : LineOk m := hrest m (List.mem_cons_self _ _)
    have hrest1 : ∀ x ∈ rest, LineOk x := fun x hx => hrest x (List.mem_cons_of_mem _ hx)
    have hpos : 0 < mlr.message.Bytes := by
      rw [hH.2.2.2.2.2.2.2]; exact sum_Bytes_pos cur hne hcur
    simp only [List.map_cons, List.cons_append] at hr
    simp only [List.length_cons] at hf hF
    by_cases hp : pat m.Content = true
    · have hg : groupsFrom pat cur (m :: rest) = groupsFrom pat (cur ++ [m]) rest := by
        simp [groupsFrom, hp]
      have hlim0 : LimitsNotReached pat sep maxBytes maxLines (cur ++ [m]) rest := by
        unfold LimitsNotReached at hlim ⊢
        rw [hg] at hlim
        exact hlim
      rw [hg]
      have hhead := LimitsNotReached_head pat sep maxBytes maxLines _ _ hlim0
      have hH1 : Holding pat sep maxBytes maxLines (cur ++ [m])
          (({ mlr with reader := rest.map (fun m => (m, none)) ++
              [(Message.zero, some ReadError.EOF)] } : Multiline _).addLine m) :=
        Holding_addLine pat sep maxBytes maxLines cur _ m hH hm hhead.1 hhead.2
      have hstep : readNextLoop replayNext (f1 + 1) mlr
          = readNextLoop replayNext f1
            (({ mlr with reader := rest.map (fun m => (m, none)) ++
              [(Message.zero, some ReadError.EOF)] } : Multiline _).addLine m) := by
        simp only [readNextLoop, hr, replayNext, hH.2.1, hH.1, afterMatcher, hp,
          Bool.false_eq_true, if_false, Bool.not_true, Bool.and_false]
      rw [hstep]
      exact ih (cur ++ [m]) f1 _ (by simp)
        (fun x hx => by
          rcases List.mem_append.1 hx with h | h
          · exact hcur x h
          · rw [List.mem_singleton] at h; rw [h]; exact hm)
        hrest1 hH1 (by rw [addLine_state]; exact hst) (by rw [addLine_reader]) (by omega)
        (by omega) hlim0
    · have hg : groupsFrom pat cur (m :: rest) = cur :: groupsFrom pat [m] rest := by
        simp [groupsFrom, hp]
      have hlim1 : LimitsNotReached pat sep maxBytes maxLines [m] rest := by
        unfold LimitsNotReached at hlim ⊢
        rw [hg] at hlim
        exact ⟨hlim.1.imp id (fun h g hg => h g (List.mem_cons_of_mem _ hg)),
          hlim.2.imp id (fun h g hg => h g (List.mem_cons_of_mem _ hg))⟩
      rw [hg]
      have hhead := LimitsNotReached_head pat sep maxBytes maxLines _ _ hlim1
      have hH0 : Holding pat sep maxBytes maxLines []
          (({ mlr with reader := rest.map (fun m => (m, none)) ++
              [(Message.zero, some ReadError.EOF)] } : Multiline _).clear) :=
        ⟨hH.1, hH.2.1, hH.2.2.1, hH.2.2.2.1, hH.2.2.2.2.1, rfl, rfl, rfl⟩
      have hH1 : Holding pat sep maxBytes maxLines [m]
          ((({ mlr with reader := rest.map (fun m => (m, none)) ++
              [(Message.zero, some ReadError.EOF)] } : Multiline _).clear).load m) :=
        Holding_addLine pat sep maxBytes maxLines [] _ m hH0 hm hhead.1 hhead.2
      have hstep : readNextLoop replayNext (f1 + 1) mlr
          = NextResult.msg mlr.message none
            ((({ mlr with reader := rest.map (fun m => (m, none)) ++
              [(Message.zero, some ReadError.EOF)] } : Multiline _).clear).load m) := by
        simp only [readNextLoop, hr, replayNext, hH.2.1, hH.1, afterMatcher, hp,
          Bool.false_eq_true, if_false, Bool.not_false, Bool.and_true, hpos, gt_iff_lt,
          decide_True, if_true, Multiline.finalize]
      rw [hstep, consResult_msg, List.length_cons, firstResults_succ,
        Multiline_Next_readNext _ _ _ (by rw [load_state]; exact hst)]
      rw [ih [m] F _ (by simp)
        (fun x hx => by rw [List.mem_singleton] at hx; rw [hx]; exact hm)
        hrest1 hH1 (by rw [load_state]; exact hst) (by rw [load_reader]; rfl) (by omega)
        (by omega) hlim1]
      simp only [groupResults, List.map_cons, List.cons_append, hH.2.2.2.2.2.2.1,
        hH.2.2.2.2.2.2.2]

/-- The groups of `groupsFrom` are the lines in order, cut so that every group
is a first line followed by lines that match the pattern, and that the first
line of every group after the first one does not match it. -/
theorem groupsFrom_spec (pat : List Nat → Bool) : ∀ (rest cur : List Message),
    cur ≠ [] → (∀ m ∈ cur.tail, pat m.Content = true) →
    (groupsFrom pat cur rest).flatten = cur ++ rest ∧
    (∀ g ∈ groupsFrom pat cur rest, g ≠ [] ∧ ∀ m ∈ g.tail, pat m.Content = true) ∧
    (∀ g ∈ (groupsFrom pat cur rest).tail, ∀ h ∈ g.head?, pat h.Content = false) := by
  intro rest
  induction rest with
  | nil =>
    intro cur hne htail
    refine ⟨by simp [groupsFrom], ?_, ?_⟩
    · intro g hg
      simp only [groupsFrom, List.mem_singleton] at hg
      subst hg
      exact ⟨hne, htail⟩
    · intro g hg
      simp [groupsFrom] at hg
  | cons m rest ih =>
    intro cur hne htail
    by_cases hp : pat m.Content = true
    · have hg : groupsFrom pat cur (m :: rest) = groupsFrom pat (cur ++ [m]) rest := by
        simp [groupsFrom, hp]
      rw [hg]
      obtain ⟨h1, h2, h3⟩ := ih (cur ++ [m]) (by simp) (by
        intro x hx
        rw [List.tail_append_of_ne_nil hne] at hx
        rcases List.mem_append.1 hx with h | h
        · exact htail x h
        · rw [List.mem_singleton] at h; rw [h]; exact hp)
      exact ⟨by rw [h1]; simp, h2, h3⟩
    · have hg : groupsFrom pat cur (m :: rest) = cur :: groupsFrom pat [m] rest := by
        simp [groupsFrom, hp]
      rw [hg]
      obtain ⟨h1, h2, h3⟩ := ih [m] (by simp) (by intro x hx; simp at hx)
      refine ⟨by rw [List.flatten_cons, h1]; simp, ?_, ?_⟩
      · intro g hg1
        rcases List.mem_cons.1 hg1 with h | h
        · rw [h]; exact ⟨hne, htail⟩
        · exact h2 g h
      · intro g hg1 h hh
        simp only [List.tail_cons] at hg1
        obtain ⟨more, tail, heq⟩ := groupsFrom_head pat rest [m]
        rw [heq] at hg1 h3
        rcases List.mem_cons.1 hg1 with h4 | h4
        · rw [h4] at hh
          simp only [List.singleton_append, List.head?_cons, Option.mem_def,
            Option.some.injEq] at hh
          rw [← hh]
          simpa using hp
        · exact h3 g (by simpa using h4) h hh

theorem groupsFrom_mem (pat : List Nat → Bool) (rest cur : List Message) (hne : cur ≠ [])
    (htail : ∀ m ∈ cur.tail, pat m.Content = true) (g : List Message)
    (hg : g ∈ groupsFrom pat cur rest) (m : Message) (hm : m ∈ g) : m ∈ cur ++ rest := by
  rw [← (groupsFrom_spec pat rest cur hne htail).1]
  exact List.mem_flatten.2 ⟨g, hg, hm⟩

theorem NewMultiLine_after {σ : Type} (reader : σ) (sep : List Nat) (maxBytes : Int)
    (config : MultilineConfig) (mlr0 : Multiline σ)
    (hmatch : config.Match = "after") (hneg : config.Negate = false)
    (h : NewMultiLine reader sep maxBytes config = some mlr0) :
    mlr0 = { reader := reader, pred := afterMatcher config.Pattern,
             flushMatcher := config.FlushPattern, maxBytes := maxBytes,
             maxLines := config.MaxLines.getD defaultMaxLines, separator := sep,
             last := [], numLines := 0, err := none, state := MultilineState.readFirst,
             message := Message.zero } := by
  unfold NewMultiLine at h
  rw [hmatch, hneg] at h
  simp only [String.reduceEq, if_false, if_true, Bool.false_eq_true] at h
  split at h
  · cases h
  · simp only [Option.some.injEq] at h
    rw [← h]
    cases config.MaxLines <;> rfl

theorem readFirstLoop_line (f : Nat) (mlr : Multiline (List (Message × Option ReadError)))
    (m : Message) (r : List (Message × Option ReadError)) (hr : mlr.reader = (m, none) :: r)
    (hb : ¬ m.Bytes = 0) :
    readFirstLoop replayNext (f + 1) mlr
      = readNextLoop replayNext f
          { (({ mlr with reader := r } : Multiline _).clear.load m) with state := MultilineState.readNext } := by
  simp only [readFirstLoop, hr, replayNext, beq_iff_eq, hb, if_false]

theorem groupAfter_results (pat : List Nat → Bool) (sep : List Nat) (maxBytes maxLines : Int)
    (lines : List Message) (fuel : Nat) (mlr0 : Multiline (List (Message × Option ReadError)))
    (hpred : mlr0.pred = afterMatcher pat) (hflush : mlr0.flushMatcher = none)
    (hsep : mlr0.separator = sep) (hmb : mlr0.maxBytes = maxBytes)
    (hml : mlr0.maxLines = maxLines) (hst : mlr0.state = MultilineState.readFirst)
    (hreader : mlr0.reader
      = lines.map (fun m => (m, none)) ++ [(Message.zero, some ReadError.EOF)])
    (hlines : ∀ m ∈ lines, LineOk m)
    (hmaxl : maxLines ≤ 0 ∨ ∀ g ∈ groupAfter pat lines, (g.length : Int) ≤ maxLines)
    (hmaxb : maxBytes < 0 ∨ ∀ g ∈ groupAfter pat lines,
      ((List.intercalate sep (g.map Message.Content)).length : Int) ≤ maxBytes)
    (hfuel : lines.length < fuel) :
    firstResults (Multiline.Next replayNext fuel) ((groupAfter pat lines).length + 1) mlr0
      = (groupAfter pat lines).map (fun g =>
          (List.intercalate sep (g.map Message.Content), (g.map Message.Bytes).sum, none))
        ++ [([], 0, some ReadError.EOF)] := by
  obtain ⟨F1, rfl⟩ : ∃ F1, fuel = F1 + 1 := ⟨fuel - 1, by omega⟩
  cases lines with
  | nil =>
    simp only [List.map_nil, List.nil_append] at hreader
    simp [groupAfter, firstResults, Multiline.Next, hst, readFirstLoop, hreader, replayNext,
      Message.zero]
  | cons m rest =>
    have hm : LineOk m := hlines m (List.mem_cons_self _ _)
    have hrest : ∀ x ∈ rest, LineOk x := fun x hx => hlines x (List.mem_cons_of_mem _ hx)
    have hok : ∀ g ∈ groupsFrom pat [m] rest, ∀ p ∈ g.map Message.Content, p ≠ [] := by
      intro g hg p hp
      obtain ⟨x, hx, rfl⟩ := List.mem_map.1 hp
      exact (hlines x (groupsFrom_mem pat rest [m] (by simp) (by intro y hy; simp at hy)
        g hg x hx)).2
    have hlim : LimitsNotReached pat sep maxBytes maxLines [m] rest := by
      refine ⟨hmaxl, hmaxb.imp id (fun h g hg => ?_)⟩
      rw [joinLines_eq_intercalate sep _ (hok g hg)]
      exact h g hg
    have hhead := LimitsNotReached_head pat sep maxBytes maxLines _ _ hlim
    simp only [List.map_cons, List.cons_append] at hreader
    obtain ⟨r, hr⟩ : ∃ r, r = rest.map (fun m => (m, (none : Option ReadError))) ++
      [(Message.zero, some ReadError.EOF)] := ⟨_, rfl⟩
    rw [← hr] at hreader
    have hH0 : Holding pat sep maxBytes maxLines []
        ({ mlr0 with reader := r } : Multiline _).clear :=
      ⟨hpred, hflush, hsep, hmb, hml, rfl, rfl, rfl⟩
    have hH1 := Holding_addLine pat sep maxBytes maxLines [] _ m hH0 hm hhead.1 hhead.2
    have hb0 : ¬ m.Bytes = 0 := by have := hm.1; omega
    simp only [List.length_cons] at hfuel
    show firstResults (Multiline.Next replayNext (F1 + 1))
      ((groupsFrom pat [m] rest).length + 1) _ = _
    rw [firstResults_succ]
    have hnext : Multiline.Next replayNext (F1 + 1) mlr0
        = readFirstLoop replayNext (F1 + 1) mlr0 := by
      unfold Multiline.Next; rw [hst]
    rw [hnext, readFirstLoop_line F1 mlr0 m _ hreader hb0]
    have key := readNextLoop_groups pat sep maxBytes maxLines (F1 + 1) rest [m] F1
      { (({ mlr0 with reader := r } : Multiline _).clear.load m) with state := MultilineState.readNext }
      (by simp) (fun x hx => by rw [List.mem_singleton] at hx; rw [hx]; exact hm) hrest hH1 rfl
      (by simp only [load_reader]; exact hr) (by omega) (by omega) hlim
    refine Eq.trans key ?_
    unfold groupResults
    congr 1
    apply List.map_congr_left
    intro g hg
    rw [joinLines_eq_intercalate sep _ (hok g hg)]

/-- C18.  A multiline reader of `match=after`, `negate=false` and no flush
pattern reads the lines `lines`, none of them empty, and then the end of the
file, with no timeout and the limits not reached by any group.  Its calls of
`Next` return, in order, one message for each group of `groupAfter`, with the
lines of the group joined by the separator as content and the sum of their
bytes, and then the end of the file.  The groups are the lines in order, cut
so that each group is a first line followed by lines that match the pattern
and that the first line of each group after the first does not match it.  For
the lines `"ERR x"`, `"  at A"`, `"  at B"`, `"OK"` with the pattern `^\s` the
messages are `"ERR x\n  at A\n  at B"` and `"OK"`. -/
theorem Multiline_after_groups (pat : List Nat → Bool) (sep : List Nat) (maxBytes : Int)
    (config : MultilineConfig) (lines : List Message) (fuel : Nat)
    (mlr0 : Multiline (List (Message × Option ReadError)))
    (hmatch : config.Match = "after") (hneg : config.Negate = false)
    (hflush : config.FlushPattern = none) (hpat : config.Pattern = pat)
    (hlines : ∀ m ∈ lines, 0 < m.Bytes ∧ m.Content ≠ [])
    (hmaxl : config.MaxLines.getD defaultMaxLines ≤ 0 ∨
      ∀ g ∈ groupAfter pat lines, (g.length : Int) ≤ config.MaxLines.getD defaultMaxLines)
    (hmaxb : maxBytes < 0 ∨ ∀ g ∈ groupAfter pat lines,
      ((List.intercalate sep (g.map Message.Content)).length : Int) ≤ maxBytes)
    (hfuel : lines.length < fuel)
    (hnew : NewMultiLine
      (lines.map (fun m => (m, none)) ++ [(Message.zero, some ReadError.EOF)])
      sep maxBytes config = some mlr0) :
    firstResults (Multiline.Next replayNext fuel) ((groupAfter pat lines).length + 1) mlr0
      = (groupAfter pat lines).map (fun g =>
          (List.intercalate sep (g.map Message.Content), (g.map Message.Bytes).sum, none))
        ++ [([], 0, some ReadError.EOF)] ∧
    (groupAfter pat lines).flatten = lines ∧
    (∀ g ∈ groupAfter pat lines, g ≠ [] ∧ ∀ m ∈ g.tail, pat m.Content = true) ∧
    (∀ g ∈ (groupAfter pat lines).tail, ∀ h ∈ g.head?, pat h.Content = false) ∧
    NewMultiLine upsS5 [10] 10485760 configS5 = some mlrS5 ∧
    firstResults (Multiline.Next replayNext 5) 3 mlrS5
      = [([69, 82, 82, 32, 120, 10, 32, 32, 97, 116, 32, 65, 10, 32, 32, 97, 116, 32, 66],
            17, none),
         ([79, 75], 2, none), ([], 0, some ReadError.EOF)] := by
  have h0 := NewMultiLine_after _ sep maxBytes config mlr0 hmatch hneg hnew
  refine ⟨?_, ?_, ?_, ?_, rfl, by decide!⟩
  · exact groupAfter_results pat sep maxBytes (config.MaxLines.getD defaultMaxLines) lines fuel
      mlr0 (by rw [h0, hpat]) (by rw [h0]; exact hflush) (by rw [h0]) (by rw [h0]) (by rw [h0])
      (by rw [h0]) (by rw [h0]) hlines hmaxl hmaxb hfuel
  · cases lines with
    | nil => rfl
    | cons m rest =>
      exact (groupsFrom_spec pat rest [m] (by simp) (by intro x hx; simp at hx)).1
  · cases lines with
    | nil => intro g hg; simp [groupAfter] at hg
    | cons m rest =>
      exact (groupsFrom_spec pat rest [m] (by simp) (by intro x hx; simp at hx)).2.1
  · cases lines with
    | nil => intro g hg; simp [groupAfter] at hg
    | cons m rest =>
      exact (groupsFrom_spec pat rest [m] (by simp) (by intro x hx; simp at hx)).2.2

theorem Multiline_after_groups_witness :
    firstResults (Multiline.Next replayNext 5) ((groupAfter patS5 linesS5).length + 1) mlrS5
      = (groupAfter patS5 linesS5).map (fun g =>
          (List.intercalate [10] (g.map Message.Content), (g.map Message.Bytes).sum, none))
        ++ [([], 0, some ReadError.EOF)] :=
  (Multiline_after_groups patS5 [10] 10485760 configS5 linesS5 5 mlrS5 rfl rfl rfl rfl
    (by decide) (Or.inr (by decide)) (Or.inr (by decide)) (by decide) rfl).1

/-- C19.  A multiline reader built with `max_bytes` and `max_lines` positive
over any upstream sequence: every message a call of `Next` returns without
error has a content of at most `max_bytes` bytes, which is made, by
`joinLines` (separators included), of at most `max_lines` parts, each the
start of the content of an upstream message. -/
theorem Multiline_emitted_within_bounds (ups : List (Message × Option ReadError))
    (sep : List Nat) (maxBytes : Int) (config : MultilineConfig)
    (mlr0 : Multiline (List (Message × Option ReadError)))
    (hmb : 0 < maxBytes) (hml : 0 < config.MaxLines.getD defaultMaxLines)
    (hnew : NewMultiLine ups sep maxBytes config = some mlr0) (n fuel : Nat) :
    ∀ r ∈ firstResults (Multiline.Next replayNext fuel) n mlr0, r.2.2 = none →
      (r.1.length : Int) ≤ maxBytes ∧
      ∃ parts : List (List Nat),
        (parts.length : Int) ≤ config.MaxLines.getD defaultMaxLines ∧
        r.1 = joinLines sep parts ∧ ∀ p ∈ parts, ∃ u ∈ ups, p <+: u.1.Content := by
  obtain ⟨hr0, hn0, hm0, _, hb0, hs0, hl0, _⟩ :=
    NewMultiLine_init ups sep maxBytes config mlr0 hnew
  exact Multiline_run_bounds ups sep maxBytes (config.MaxLines.getD defaultMaxLines) hmb hml
    fuel n mlr0 (by rw [hr0]; exact fun p hp => hp)
    (AccBound_of_zero ups sep maxBytes _ mlr0 hmb hml hb0 hl0 hs0 hn0 hm0)

theorem Multiline_emitted_within_bounds_witness :
    firstResults (Multiline.Next replayNext 5) 3 mlrS5Small
      = [([69, 82, 82, 32, 120, 10, 32, 32, 97, 116, 32, 65], 17, none),
         ([79, 75], 2, none), ([], 0, some ReadError.EOF)] ∧
    ((12 : Nat) : Int) ≤ 12 ∧
    ∃ parts : List (List Nat),
      (parts.length : Int) ≤ configS5Small.MaxLines.getD defaultMaxLines ∧
      [69, 82, 82, 32, 120, 10, 32, 32, 97, 116, 32, 65] = joinLines [10] parts ∧
      ∀ p ∈ parts, ∃ u ∈ upsS5, p <+: u.1.Content :=
  ⟨by decide!,
   Multiline_emitted_within_bounds upsS5 [10] 12 configS5Small mlrS5Small (by decide)
    (by decide) rfl 3 5 ([69, 82, 82, 32, 120, 10, 32, 32, 97, 116, 32, 65], 17, none)
    (by decide!) rfl⟩


/-- C21, counterexample: `stateC` is finished with a ttl of 50 and was stamped
at 100.  A first `Cleanup` at time 120 keeps it; a second `Cleanup` at time
200, with no update in between, removes it and returns 1. -/
theorem Cleanup_twice_removes_newly_expired :
    States.Cleanup [stateA, stateC] 120 = ([stateA, stateC], 0) ∧
    States.Cleanup (States.Cleanup [stateA, stateC] 120).1 200 = ([stateA], 1) := by
  decide

/-- C21, as amended.  Two successive `Cleanup` calls with no update in between,
the first reading the clock at `now1` and the second at `now2`: when every
finished state with a positive ttl that is expired at `now2` was already
expired at `now1`, the second call removes nothing, returns 0 and leaves the
store equal to the result of the first; this is so whenever both calls read
the same time. -/
theorem Cleanup_twice (states : List State) (now1 now2 : Int)
    (h : ∀ s ∈ states, s.Finished = true → s.TTL > 0 →
      timeSub now2 s.Timestamp > s.TTL → timeSub now1 s.Timestamp > s.TTL) :
    States.Cleanup (States.Cleanup states now1).1 now2 = ((States.Cleanup states now1).1, 0) ∧
    States.Cleanup (States.Cleanup states now1).1 now1
      = ((States.Cleanup states now1).1, 0) := by
  have key : ∀ now : Int, (∀ s ∈ states, s.Finished = true → s.TTL > 0 →
      timeSub now s.Timestamp > s.TTL → timeSub now1 s.Timestamp > s.TTL) →
      States.Cleanup (States.Cleanup states now1).1 now = ((States.Cleanup states now1).1, 0) := by
    intro now hnow
    have hkept : ∀ s ∈ (States.Cleanup states now1).1, removable now s = false := by
      intro s hs
      rw [Cleanup_fst, List.mem_filter] at hs
      obtain ⟨hmem, hnot⟩ := hs
      by_contra hrem
      have hrem1 : removable now s = true := by simpa using hrem
      have hnot1 : removable now1 s = false := by simpa using hnot
      simp only [removable, Bool.and_eq_true, Bool.or_eq_true, beq_iff_eq,
        decide_eq_true_eq] at hrem1
      obtain ⟨hf, hexp⟩ := hrem1
      rcases hexp with h0 | ⟨hpos, hex⟩
      · simp [removable, hf, h0] at hnot1
      · have := hnow s hmem hf hpos hex
        simp [removable, hf, hpos, this] at hnot1
    apply Prod.ext
    · rw [Cleanup_fst]
      exact List.filter_eq_self.2 (fun s hs => by simp [hkept s hs])
    · rw [Cleanup_snd]
      have : (States.Cleanup states now1).1.countP (removable now) = 0 :=
        List.countP_eq_zero.2 (fun s hs => by simp [hkept s hs])
      simp [this]
  exact ⟨key now2 h, key now1 (fun _ _ _ _ hx => hx)⟩

/-- C21, witness: both calls read the clock at 200. -/
theorem Cleanup_twice_witness :
    States.Cleanup (States.Cleanup [stateA, stateB, stateC, stateD] 200).1 200
      = ((States.Cleanup [stateA, stateB, stateC, stateD] 200).1, 0) :=
  (Cleanup_twice [stateA, stateB, stateC, stateD] 200 200 (fun _ _ _ _ hx => hx)).1


/-! ## reloadModules -/

theorem mapHas_iff (m : List (Nat × Runner)) (k : Nat) :
    mapHas m k = true ↔ k ∈ m.map Prod.fst := by
  unfold mapHas
  simp only [List.any_eq_true, beq_iff_eq, List.mem_map]

theorem mapDelete_of_not_has (m : List (Nat × Runner)) (k : Nat) (h : mapHas m k = false) :
    mapDelete m k = m := by
  unfold mapDelete
  rw [List.filter_eq_self]
  intro e he
  simp only [bne_iff_ne, ne_eq]
  intro hk
  have : mapHas m k = true := (mapHas_iff m k).2 (hk ▸ List.mem_map_of_mem Prod.fst he)
  rw [h] at this
  exact Bool.false_ne_true this

theorem incomingHashes_cons (c : ModuleConfig) (rest : List ModuleConfig) :
    incomingHashes (c :: rest) =
      match effectiveHash c with
      | some hash => hash :: incomingHashes rest
      | none => incomingHashes rest := by
  unfold incomingHashes
  rw [List.filterMap_cons]
  cases effectiveHash c <;> rfl

theorem reloadLoop_cons (module : List (Nat × Runner)) (c : ModuleConfig)
    (rest : List ModuleConfig) (startList stopList : List (Nat × Runner))
    (calls : List ReloadCall) :
    reloadLoop module (c :: rest) startList stopList calls =
      match effectiveHash c with
      | none => reloadLoop module rest startList stopList calls
      | some hash =>
        if mapHas module hash then reloadLoop module rest startList (mapDelete stopList hash) calls
        else
          reloadLoop module rest
            (match c.created with
             | some runner => mapSet startList hash runner
             | none => startList)
            (mapDelete stopList hash) (calls ++ [ReloadCall.create c.created]) := by
  unfold effectiveHash
  rw [reloadLoop]
  cases c.enabled <;> cases c.hash <;> simp only [Bool.not_true, Bool.not_false, if_true,
    Bool.false_eq_true, if_false]
  cases mapHas module _ <;> cases c.created <;> simp

theorem reloadLoop_stopList (module : List (Nat × Runner)) :
    ∀ (configs : List ModuleConfig) (startList stopList : List (Nat × Runner))
      (calls : List ReloadCall),
      (reloadLoop module configs startList stopList calls).2.1 =
        stopList.filter (fun e => !decide (e.1 ∈ incomingHashes configs)) := by
  intro configs
  induction configs with
  | nil =>
    intro startList stopList calls
    simp [reloadLoop, incomingHashes]
  | cons c rest ih =>
    intro startList stopList calls
    rw [reloadLoop_cons, incomingHashes_cons]
    cases effectiveHash c with
    | none => exact ih _ _ _
    | some hash =>
      have hfil : (mapDelete stopList hash).filter
            (fun e => !decide (e.1 ∈ incomingHashes rest)) =
          stopList.filter (fun e => !decide (e.1 ∈ hash :: incomingHashes rest)) := by
        unfold mapDelete
        rw [List.filter_filter]
        congr 1
        funext e
        by_cases h1 : e.1 = hash <;> by_cases h2 : e.1 ∈ incomingHashes rest <;>
          simp [h1, h2]
      simp only []
      split_ifs
      · rw [ih, hfil]
      · rw [ih, hfil]

theorem reloadLoop_calls (module : List (Nat × Runner)) :
    ∀ (configs : List ModuleConfig) (startList stopList : List (Nat × Runner))
      (calls : List ReloadCall),
      (reloadLoop module configs startList stopList calls).2.2 =
        calls ++ (notRunning module configs).map (fun c => ReloadCall.create c.created) := by
  intro configs
  induction configs with
  | nil =>
    intro startList stopList calls
    simp [reloadLoop, notRunning]
  | cons c rest ih =>
    intro startList stopList calls
    rw [reloadLoop_cons]
    unfold notRunning
    rw [List.filter_cons]
    cases hc : effectiveHash c with
    | none =>
      simp only [Bool.false_eq_true, if_false]
      exact ih _ _ _
    | some hash =>
      simp only []
      by_cases hm : mapHas module hash = true
      · simp only [hm, if_true, Bool.not_true, Bool.false_eq_true, if_false]
        exact ih _ _ _
      · rw [Bool.not_eq_true] at hm
        simp only [hm, Bool.false_eq_true, if_false, Bool.not_false, if_true, List.map_cons]
        rw [ih]
        unfold notRunning
        simp

theorem mapSet_keys_nodup (m : List (Nat × Runner)) (k : Nat) (v : Runner)
    (h : (m.map Prod.fst).Nodup) : ((mapSet m k v).map Prod.fst).Nodup := by
  unfold mapSet mapDelete
  rw [List.map_append, List.nodup_append]
  refine ⟨(List.Nodup.sublist ((List.filter_sublist m).map Prod.fst) h), by simp, ?_⟩
  intro a ha hb
  simp only [List.map_cons, List.map_nil, List.mem_singleton] at hb
  subst hb
  simp only [List.mem_map, List.mem_filter, bne_iff_ne, ne_eq] at ha
  obtain ⟨e, ⟨_, hne⟩, he⟩ := ha
  exact hne he

theorem mem_mapSet (m : List (Nat × Runner)) (k : Nat) (v : Runner) (h : Nat) (run : Runner) :
    (h, run) ∈ mapSet m k v ↔ (h = k ∧ run = v) ∨ (h ≠ k ∧ (h, run) ∈ m) := by
  unfold mapSet mapDelete
  simp only [List.mem_append, List.mem_filter, bne_iff_ne, ne_eq, List.mem_singleton,
    Prod.mk.injEq]
  tauto

theorem reloadLoop_startList (module : List (Nat × Runner)) :
    ∀ (configs : List ModuleConfig) (startList stopList : List (Nat × Runner))
      (calls : List ReloadCall), (startList.map Prod.fst).Nodup →
      (((reloadLoop module configs startList stopList calls).1).map Prod.fst).Nodup ∧
      ∀ (h : Nat) (run : Runner),
        (h, run) ∈ (reloadLoop module configs startList stopList calls).1 ↔
          (mapHas module h = false ∧ lastCreated configs h = some run) ∨
          ((mapHas module h = false → lastCreated configs h = none) ∧ (h, run) ∈ startList) := by
  intro configs
  induction configs with
  | nil =>
    intro startList stopList calls hnd
    simp [reloadLoop, lastCreated, hnd]
  | cons c rest ih =>
    intro startList stopList calls hnd
    rw [reloadLoop_cons]
    cases hc : effectiveHash c with
    | none =>
      simp only []
      refine ⟨(ih _ _ _ hnd).1, ?_⟩
      intro h run
      rw [(ih startList stopList calls hnd).2 h run]
      simp only [lastCreated, hc]
      cases lastCreated rest h <;> simp
    | some hash =>
      simp only []
      cases hm : mapHas module hash
      · simp only [Bool.false_eq_true, if_false]
        cases hcr : c.created with
        | none =>
          simp only []
          refine ⟨(ih _ _ _ hnd).1, ?_⟩
          intro h run
          rw [(ih startList (mapDelete stopList hash) _ hnd).2 h run]
          simp only [lastCreated, hc, hcr]
          cases lastCreated rest h <;> simp
        | some runner =>
          simp only []
          have hnd1 := mapSet_keys_nodup startList hash runner hnd
          refine ⟨(ih _ _ _ hnd1).1, ?_⟩
          intro h run
          rw [(ih (mapSet startList hash runner) (mapDelete stopList hash) _ hnd1).2 h run,
            mem_mapSet]
          simp only [lastCreated, hc, hcr, Option.some.injEq]
          by_cases hh : h = hash
          · subst hh
            cases lastCreated rest h <;> simp [hm, eq_comm]
          · have hh1 : ¬ hash = h := fun e => hh e.symm
            cases lastCreated rest h <;> simp [hh, hh1]
      · simp only [if_true]
        refine ⟨(ih _ _ _ hnd).1, ?_⟩
        intro h run
        rw [(ih startList (mapDelete stopList hash) calls hnd).2 h run]
        simp only [lastCreated, hc]
        by_cases hh : h = hash
        · subst hh
          cases lastCreated rest h <;> simp [hm]
        · have hh1 : ¬ hash = h := fun e => hh e.symm
          cases lastCreated rest h <;> simp [hh1]

theorem Reload.eq_of_fields (a b : Reload) (h1 : a.module = b.module)
    (h2 : a.configs = b.configs) (h3 : a.calls = b.calls) : a = b := by
  cases a
  cases b
  simp only [Reload.mk.injEq]
  exact ⟨h1, h2, h3⟩

theorem stopRunners_spec :
    ∀ (list : List (Nat × Runner)) (r : Reload),
      (Reload.stopRunners r list).module =
          r.module.filter (fun e => !decide (e.1 ∈ list.map Prod.fst)) ∧
        (Reload.stopRunners r list).calls =
          r.calls ++ list.map (fun e => ReloadCall.stop e.1 e.2) ∧
        (Reload.stopRunners r list).configs = r.configs := by
  intro list
  induction list with
  | nil =>
    intro r
    simp [Reload.stopRunners]
  | cons e rest ih =>
    intro r
    obtain ⟨hash, runner⟩ := e
    rw [Reload.stopRunners, (ih _).1, (ih _).2.1, (ih _).2.2]
    refine ⟨?_, by simp, rfl⟩
    simp only [mapDelete, List.filter_filter, List.map_cons, List.mem_cons]
    congr 1
    funext e
    by_cases h1 : e.1 = hash <;> by_cases h2 : e.1 ∈ rest.map Prod.fst <;> simp [h1, h2]

theorem startRunners_spec :
    ∀ (list : List (Nat × Runner)) (r : Reload), (list.map Prod.fst).Nodup →
      (∀ k ∈ list.map Prod.fst, mapHas r.module k = false) →
      (Reload.startRunners r list).module = r.module ++ list ∧
        (Reload.startRunners r list).calls =
          r.calls ++ list.map (fun e => ReloadCall.start e.1 e.2) ∧
        (Reload.startRunners r list).configs = r.configs := by
  intro list
  induction list with
  | nil =>
    intro r _ _
    simp [Reload.startRunners]
  | cons e rest ih =>
    intro r hnd hnot
    obtain ⟨id, runner⟩ := e
    rw [List.map_cons, List.nodup_cons] at hnd
    have hid : mapHas r.module id = false := hnot id (by simp)
    have hset : mapSet r.module id runner = r.module ++ [(id, runner)] := by
      unfold mapSet
      rw [mapDelete_of_not_has _ _ hid]
    have hnot1 : ∀ k ∈ rest.map Prod.fst, mapHas (r.module ++ [(id, runner)]) k = false := by
      intro k hk
      have h1 := hnot k (by simp only [List.map_cons, List.mem_cons]; exact Or.inr hk)
      have hne : ¬ id = k := fun e => hnd.1 (e ▸ hk)
      unfold mapHas at h1 ⊢
      rw [List.any_append, h1]
      simp [hne]
    rw [Reload.startRunners, hset]
    obtain ⟨h1, h2, h3⟩ :=
      ih { r with module := r.module ++ [(id, runner)],
                  calls := r.calls ++ [ReloadCall.start id runner] } hnd.2 hnot1
    rw [h1, h2, h3]
    simp

theorem lastCreated_ne_none (configs : List ModuleConfig) (h : Nat)
    (hcr : ∀ c ∈ configs, effectiveHash c ≠ none → c.created ≠ none) :
    lastCreated configs h ≠ none ↔ h ∈ incomingHashes configs := by
  induction configs with
  | nil => simp [lastCreated, incomingHashes]
  | cons c rest ih =>
    have ih1 := ih (fun c1 hc1 => hcr c1 (List.mem_cons_of_mem _ hc1))
    have hc := hcr c (List.mem_cons_self _ _)
    rw [incomingHashes_cons]
    unfold lastCreated
    cases he : effectiveHash c with
    | none =>
      simp only []
      rw [← ih1]
      cases lastCreated rest h <;> simp
    | some hash =>
      simp only [List.mem_cons, ← ih1, Option.some.injEq]
      rw [he] at hc
      cases hl : lastCreated rest h with
      | some runner => simp
      | none =>
        simp only [ne_eq, not_true_eq_false, or_false]
        by_cases hh : hash = h
        · subst hh
          simp only [if_true, or_true, iff_true]
          exact hc (by simp)
        · have hh1 : ¬ h = hash := fun e => hh e.symm
          simp [hh, hh1]

/-- What the loop of `reloadModules` and the two calls after it do with the
configs held in `r.configs`: `Create` is called for every config whose hash is
not running, the runners whose hash is not among the hashes of the configs are
stopped, one runner is started for each hash that is not running, the one
created last for it, and the runners whose hash is among them stay. -/
theorem reloadModules_over_configs (r : Reload) (incoming : List ModuleConfig)
    (hcr : ∀ c ∈ r.configs, effectiveHash c ≠ none → c.created ≠ none) :
    ∃ startList : List (Nat × Runner),
      (reloadModules r (some incoming)).calls =
          r.calls ++ (notRunning r.module r.configs).map (fun c => ReloadCall.create c.created)
            ++ (r.module.filter (fun e => !decide (e.1 ∈ incomingHashes r.configs))).map
                (fun e => ReloadCall.stop e.1 e.2)
            ++ startList.map (fun e => ReloadCall.start e.1 e.2) ∧
        (reloadModules r (some incoming)).module =
          r.module.filter (fun e => decide (e.1 ∈ incomingHashes r.configs)) ++ startList ∧
        (reloadModules r (some incoming)).configs = r.configs ∧
        (startList.map Prod.fst).Nodup ∧
        (∀ (h : Nat) (run : Runner),
          (h, run) ∈ startList ↔
            mapHas r.module h = false ∧ lastCreated r.configs h = some run) ∧
        (∀ h : Nat,
          h ∈ startList.map Prod.fst ↔
            h ∈ incomingHashes r.configs ∧ mapHas r.module h = false) := by
  obtain ⟨hnd, hmem⟩ := reloadLoop_startList r.module r.configs [] r.module r.calls (by simp)
  have hstop := reloadLoop_stopList r.module r.configs [] r.module r.calls
  have hcalls := reloadLoop_calls r.module r.configs [] r.module r.calls
  generalize hres : reloadLoop r.module r.configs [] r.module r.calls = res
    at hnd hmem hstop hcalls
  obtain ⟨startList, stopList, calls⟩ := res
  simp only [] at hnd hmem hstop hcalls
  have hmem1 : ∀ (h : Nat) (run : Runner),
      (h, run) ∈ startList ↔
        mapHas r.module h = false ∧ lastCreated r.configs h = some run := by
    intro h run
    rw [hmem]
    simp
  have hkeys : ∀ h : Nat,
      h ∈ startList.map Prod.fst ↔
        h ∈ incomingHashes r.configs ∧ mapHas r.module h = false := by
    intro h
    rw [← lastCreated_ne_none r.configs h hcr]
    constructor
    · intro hin
      obtain ⟨e, he, rfl⟩ := List.mem_map.1 hin
      obtain ⟨h1, h2⟩ := (hmem1 e.1 e.2).1 he
      exact ⟨by rw [h2]; simp, h1⟩
    · rintro ⟨h1, h2⟩
      obtain ⟨run, hrun⟩ := Option.ne_none_iff_exists'.1 h1
      exact List.mem_map.2 ⟨(h, run), (hmem1 h run).2 ⟨h2, hrun⟩, rfl⟩
  have hstopped := stopRunners_spec stopList { r with calls := calls }
  simp only [] at hstopped
  have hkept : r.module.filter (fun e => !decide (e.1 ∈ stopList.map Prod.fst)) =
      r.module.filter (fun e => decide (e.1 ∈ incomingHashes r.configs)) := by
    apply List.filter_congr
    intro e he
    rw [hstop]
    by_cases hin : e.1 ∈ incomingHashes r.configs
    · simp [hin]
    · simp only [hin, decide_False, Bool.not_eq_eq_eq_not, Bool.not_false, decide_eq_true_eq]
      exact List.mem_map.2 ⟨e, List.mem_filter.2 ⟨he, by simp [hin]⟩, rfl⟩
  rw [hkept] at hstopped
  have hnot : ∀ k ∈ startList.map Prod.fst,
      mapHas (Reload.stopRunners { r with calls := calls } stopList).module k = false := by
    intro k hk
    have h1 := ((hkeys k).1 hk).2
    rw [hstopped.1]
    rw [Bool.eq_false_iff] at h1 ⊢
    intro h2
    apply h1
    rw [mapHas_iff] at h2 ⊢
    exact ((List.filter_sublist _).map Prod.fst).subset h2
  obtain ⟨hm2, hc2, hg2⟩ := startRunners_spec startList _ hnd hnot
  refine ⟨startList, ?_, ?_, ?_, hnd, hmem1, hkeys⟩
  · simp only [reloadModules]
    rw [hres]
    simp only []
    rw [hc2, hstopped.2.1, hcalls, hstop]
  · simp only [reloadModules]
    rw [hres]
    simp only []
    rw [hm2, hstopped.1]
  · simp only [reloadModules]
    rw [hres]
    simp only []
    rw [hg2, hstopped.2.2]

/-- C22, the code.  `newReload` leaves the field `configs` nil, `reloadModules`
hands it to `Unpack` by value and nothing assigns it, so the loop over
`r.configs` never sees a config of the stream.  With `r.configs` empty, a
config update whose stream cannot be loaded changes nothing, and any other
update, whatever the stream holds, calls no `Create` and no `Start`, stops
every running runner and leaves no runner running.  Starting from `newReload`
no runner is ever created: after any sequence of updates the module is empty
and no call was made.  An update with one enabled config of hash 7 on the
fresh `Reload` creates and starts nothing. -/
theorem reloadModules_never_creates (r : Reload) (stream : Option (List ModuleConfig))
    (streams : List (Option (List ModuleConfig))) (hcfg : r.configs = []) :
    (reloadModules r stream).configs = [] ∧
    (stream = none → reloadModules r stream = r) ∧
    (∀ incoming, stream = some incoming →
      reloadModules r stream =
        { r with module := [],
                 calls := r.calls ++ r.module.map (fun e => ReloadCall.stop e.1 e.2) }) ∧
    Reload.HandleMessages newReload streams = newReload ∧
    reloadModules newReload (some [moduleConfigX 7 70]) = newReload := by
  have hsome : ∀ (r0 : Reload) (incoming : List ModuleConfig), r0.configs = [] →
      reloadModules r0 (some incoming) =
        { r0 with module := [],
                  calls := r0.calls ++ r0.module.map (fun e => ReloadCall.stop e.1 e.2) } := by
    intro r0 incoming h0
    obtain ⟨h1, h2, h3⟩ := stopRunners_spec r0.module { r0 with calls := r0.calls }
    simp only [h0] at h1 h2 h3
    simp only [reloadModules, h0, reloadLoop, Reload.startRunners]
    apply Reload.eq_of_fields
    · rw [h1]
      simp only []
      rw [List.filter_eq_nil_iff]
      intro e he
      simp only [Bool.not_eq_true', decide_eq_false_iff_not, not_not]
      exact List.mem_map_of_mem Prod.fst he
    · rw [h3]
    · rw [h2]
  have hnew : ∀ s : Option (List ModuleConfig), reloadModules newReload s = newReload := by
    intro s
    cases s with
    | none => rfl
    | some incoming => rw [hsome newReload incoming rfl]; rfl
  refine ⟨?_, fun h => by rw [h]; rfl, fun incoming h => by rw [h]; exact hsome r incoming hcfg,
    ?_, hnew _⟩
  · cases stream with
    | none => exact hcfg
    | some incoming => rw [hsome r incoming hcfg]; exact hcfg
  · induction streams with
    | nil => rfl
    | cons s rest ih => rw [Reload.HandleMessages, hnew s, ih]

/-- C22, witness: two runners with the hashes 1 and 2 are running and the
stream holds configs with the hashes 2 and 3; the update stops both runners
and creates none. -/
theorem reloadModules_never_creates_witness :
    reloadModules { module := moduleX, configs := [], calls := [] }
        (some [moduleConfigX 2 21, moduleConfigX 3 30]) =
      { module := [], configs := [],
        calls := [ReloadCall.stop 1 ⟨10⟩, ReloadCall.stop 2 ⟨20⟩] } :=
  (reloadModules_never_creates { module := moduleX, configs := [], calls := [] }
    (some [moduleConfigX 2 21, moduleConfigX 3 30]) [] rfl).2.2.1
    [moduleConfigX 2 21, moduleConfigX 3 30] rfl

/-! ## Validate -/

/-- C23, the code.  `Validate` looks the scan sort up in `ValidScanSort` and
then again in `ValidScanOrder`, where it looks for the scan order; no value is
a key of both maps but none is needed for an empty sort.  So a configuration
that passes all other rules is accepted only with an empty `scan.sort`: with
`scan.sort` = modtime or filename it is rejected as "Invalid scan order", with
any other non-empty value as "Invalid scan sort", whatever `scan.order` is.
The configuration with `scan.sort` = modtime and `scan.order` = asc is
rejected. -/
theorem Validate_rejects_every_scan_sort (c : config) :
    (c.Scanner.Sort_ ≠ "" → c.Validate ≠ none) ∧
    (({ c with Scanner := { c.Scanner with Sort_ := "" } } : config).Validate = none →
      (c.Validate = none ↔ c.Scanner.Sort_ = "") ∧
      (c.Scanner.Sort_ = "modtime" ∨ c.Scanner.Sort_ = "filename" →
        c.Validate = some (ValidateError.invalidScanOrder c.Scanner.Sort_)) ∧
      (c.Scanner.Sort_ ≠ "" → c.Scanner.Sort_ ≠ "modtime" → c.Scanner.Sort_ ≠ "filename" →
        c.Validate = some (ValidateError.invalidScanSort c.Scanner.Sort_))) ∧
    (configX "modtime" "asc").Validate = some (ValidateError.invalidScanOrder "modtime") ∧
    (configX "filename" "desc").Validate = some (ValidateError.invalidScanOrder "filename") ∧
    (configX "" "asc").Validate = none := by
  have hnone : ∀ s : String, s ≠ "" → ValidScanSort.contains s = true →
      ValidScanOrder.contains s = false := by
    intro s hs h1
    simp only [ValidScanSort, List.contains_eq_any_beq, List.any_cons, List.any_nil,
      Bool.or_false, Bool.or_eq_true, beq_iff_eq] at h1
    rcases h1 with h | h | h
    · exact absurd h hs
    · subst h; decide
    · subst h; decide
  have hne : c.Scanner.Sort_ ≠ "" → c.Validate ≠ none := by
    intro hs
    have hb : (c.Scanner.Sort_ != "") = true := by simpa using hs
    unfold config.Validate
    rw [if_pos hb]
    split_ifs with h1 h2 h3 h4 h5 h6 h7 h8
    all_goals first
      | exact Option.some_ne_none _
      | (exfalso
         have h9 : ValidScanSort.contains c.Scanner.Sort_ = true := by simpa using h7
         have := hnone _ hs h9
         rw [this] at h8
         exact h8 rfl)
  refine ⟨hne, ?_, by decide, by decide, by decide⟩
  intro hother
  have hrest : c.Validate =
      (if (c.Scanner.Sort_ != "") = true then
        (if (!ValidScanSort.contains c.Scanner.Sort_) = true then
          some (ValidateError.invalidScanSort c.Scanner.Sort_)
        else if (!ValidScanOrder.contains c.Scanner.Sort_) = true then
          some (ValidateError.invalidScanOrder c.Scanner.Sort_)
        else none)
      else none) := by
    unfold config.Validate config.jsonWithoutKey at hother ⊢
    simp only at hother
    split_ifs at hother with h1 h2 h3 h4 h5 h6 h7
    · rw [if_neg h1, if_neg h2, if_neg h3, if_neg h4, if_neg h5, if_neg h6]
    · rw [if_neg h1, if_neg h2, if_neg h3, if_neg h4, if_neg h5, if_neg h6]
  refine ⟨⟨fun h => by_contra (fun hs => hne hs h), fun hs => ?_⟩, ?_, ?_⟩
  · rw [hrest]
    simp [hs]
  · intro hs
    rw [hrest]
    rcases hs with h | h <;> rw [h] <;> decide
  · intro h0 h1 h2
    rw [hrest]
    have hb : (c.Scanner.Sort_ != "") = true := by simpa using h0
    have : ValidScanSort.contains c.Scanner.Sort_ = false := by
      simp only [ValidScanSort, List.contains_eq_any_beq, List.any_cons, List.any_nil,
        Bool.or_false, Bool.or_eq_false_iff, beq_eq_false_iff_ne]
      exact ⟨h0, h1, h2⟩
    rw [if_pos hb, this]
    rfl

/-- C23, witness: `scan.sort` = modtime with `scan.order` = asc. -/
theorem Validate_rejects_every_scan_sort_witness :
    (configX "modtime" "asc").Validate ≠ none :=
  (Validate_rejects_every_scan_sort (configX "modtime" "asc")).1 (by decide)

/-- C24, counterexample: with `state.clean.inactive` = 10, `ignore.older` = -5
and `scan.frequency` = 1, `Validate` accepts, though `ignore.older` is not
greater than 0; with `state.clean.inactive` = -1 and `ignore.older` = 0 it
rejects under the clean-inactive rule, though `state.clean.inactive` <= 0. -/
theorem Validate_clean_inactive_signs :
    (configClean 10 (-5) 1).Validate = none ∧
    (configClean (-1) 0 10000000000).Validate = some ValidateError.ignoreOlderRequired := by
  decide

/-- C24, as amended.  For every configuration that passes the rule on paths,
`Validate` rejects it under the clean-inactive rule if and only if
`state.clean.inactive` is not 0 and either `ignore.older` is 0 or
clean_inactive <= ignore_older + scan_frequency, the sum taken as a
`time.Duration`; a configuration with `state.clean.inactive` = 0 is never
rejected by this rule.  When the three durations are not negative and the sum
does not overflow, the condition is that of the claim: `state.clean.inactive`
> 0 and either `ignore.older` is not greater than 0 or clean_inactive <=
ignore_older + scan_frequency. -/
theorem Validate_clean_inactive_rule (c : config)
    (hpaths : ¬ (c.Type_ = LogType ∧ c.Paths = [])) :
    ((c.Validate = some ValidateError.ignoreOlderRequired ∨
        c.Validate = some ValidateError.cleanInactiveTooSmall) ↔
      (c.StateClean.Inactive ≠ 0 ∧ (c.IgnoreOlder = 0 ∨
        c.StateClean.Inactive ≤ addDuration c.IgnoreOlder c.VisitorFrequency))) ∧
    (c.StateClean.Inactive = 0 → c.Validate ≠ some ValidateError.ignoreOlderRequired ∧
      c.Validate ≠ some ValidateError.cleanInactiveTooSmall) ∧
    (0 ≤ c.StateClean.Inactive → 0 ≤ c.IgnoreOlder → 0 ≤ c.VisitorFrequency →
      c.IgnoreOlder + c.VisitorFrequency ≤ maxDuration →
      ((c.Validate = some ValidateError.ignoreOlderRequired ∨
          c.Validate = some ValidateError.cleanInactiveTooSmall) ↔
        (c.StateClean.Inactive > 0 ∧ (¬ c.IgnoreOlder > 0 ∨
          c.StateClean.Inactive ≤ c.IgnoreOlder + c.VisitorFrequency)))) := by
  have hp : (c.Type_ = LogType && c.Paths.length == 0) = false := by
    cases hb : (c.Type_ = LogType && c.Paths.length == 0)
    · rfl
    · exfalso; apply hpaths
      simp only [Bool.and_eq_true, decide_eq_true_eq, beq_iff_eq, List.length_eq_zero] at hb
      exact hb
  have key : (c.Validate = some ValidateError.ignoreOlderRequired ∨
        c.Validate = some ValidateError.cleanInactiveTooSmall) ↔
      (c.StateClean.Inactive ≠ 0 ∧ (c.IgnoreOlder = 0 ∨
        c.StateClean.Inactive ≤ addDuration c.IgnoreOlder c.VisitorFrequency)) := by
    unfold config.Validate
    rw [hp]
    simp only [Bool.false_eq_true, if_false]
    by_cases h1 : c.StateClean.Inactive = 0
    · simp only [h1, bne_self_eq_false, Bool.false_and, Bool.false_eq_true, if_false, ne_eq,
        not_true_eq_false, false_and, iff_false, not_or]
      constructor <;> split_ifs <;> simp
    · by_cases h2 : c.IgnoreOlder = 0
      · simp [h1, h2]
      · by_cases h3 : c.StateClean.Inactive ≤ addDuration c.IgnoreOlder c.VisitorFrequency
        · simp [h1, h2, h3]
        · have e1 : (c.StateClean.Inactive != 0 && c.IgnoreOlder == 0) = false := by
            simp [h2]
          have e2 : (c.StateClean.Inactive != 0 &&
              decide (c.StateClean.Inactive ≤ addDuration c.IgnoreOlder c.VisitorFrequency))
              = false := by
            simp [h3]
          simp only [e1, e2, Bool.false_eq_true, if_false]
          refine iff_of_false ?_ (fun h => h.2.elim h2 h3)
          split_ifs <;> simp
  refine ⟨key, ?_, ?_⟩
  · intro h0
    have := key.not.2 (fun h => h.1 h0)
    exact ⟨fun h => this (Or.inl h), fun h => this (Or.inr h)⟩
  · intro h1 h2 h3 h4
    rw [key]
    have hadd : addDuration c.IgnoreOlder c.VisitorFrequency
        = c.IgnoreOlder + c.VisitorFrequency := by
      unfold addDuration
      unfold maxDuration at h4
      omega
    rw [hadd]
    constructor
    · rintro ⟨ha, hb⟩
      exact ⟨by omega, hb.imp (fun h => by omega) id⟩
    · rintro ⟨ha, hb⟩
      exact ⟨by omega, hb.imp (fun h => by omega) id⟩

/-- C24, witness: `state.clean.inactive` of one hour without `ignore.older`. -/
theorem Validate_clean_inactive_rule_witness :
    (configClean 3600000000000 0 10000000000).Validate
        = some ValidateError.ignoreOlderRequired ∨
      (configClean 3600000000000 0 10000000000).Validate
        = some ValidateError.cleanInactiveTooSmall :=
  (Validate_clean_inactive_rule (configClean 3600000000000 0 10000000000)
    (by decide)).1.2 ⟨by decide, Or.inl rfl⟩

/-! ## resolvePaths -/

theorem GlobPatterns_nonempty (fuel : Nat) (pattern : String) (depth : Nat)
    (patterns : List String) (h : GlobPatterns fuel pattern depth = some (Except.ok patterns)) :
    1 ≤ patterns.length := by
  unfold GlobPatterns at h
  split at h
  · simp only [Option.some.injEq, Except.ok.injEq] at h
    rw [← h]; simp
  · split at h
    · cases h
    · simp at h
    · split at h
      · simp only [Option.some.injEq, Except.ok.injEq] at h
        rw [← h]; simp
      · simp only [Option.some.injEq, Except.ok.injEq] at h
        rw [← h, List.length_map]
        omega

theorem resolveLoop_appends (fuel : Nat) : ∀ (ps acc r : List String),
    resolveLoop fuel ps acc = some (Except.ok r) →
    ∃ added, r = acc ++ added ∧ ps.length ≤ added.length := by
  intro ps
  induction ps with
  | nil =>
    intro acc r h
    simp only [resolveLoop, Option.some.injEq, Except.ok.injEq] at h
    exact ⟨[], by simp [h], le_refl _⟩
  | cons p rest ih =>
    intro acc r h
    unfold resolveLoop at h
    split at h
    · cases h
    · simp at h
    · rename_i patterns hg
      obtain ⟨added, hr, hlen⟩ := ih _ _ h
      have := GlobPatterns_nonempty fuel p recursiveGlobDepth patterns hg
      refine ⟨patterns ++ added, by rw [hr, List.append_assoc], ?_⟩
      simp only [List.length_cons, List.length_append]
      omega

/-- C30, the code.  With `recursive.enabled` false, `resolvePaths` starts from
the configured paths and then appends to them the patterns of every
configured path: when it returns without error the resulting `Paths` are the
input `Paths` followed by at least as many patterns again, so they equal the
input only when no path is configured.  The one path `/var/log/*.log` becomes
the list `/var/log/*.log`, `/var/log/*.log`. -/
theorem resolvePaths_disabled_appends (fuel : Nat) (c c1 : config)
    (hrec : c.RecursiveEnabled = false)
    (h : c.resolvePaths fuel = some (Except.ok c1)) :
    (∃ added, c1.Paths = c.Paths ++ added ∧ c.Paths.length ≤ added.length) ∧
    (c1.Paths = c.Paths ↔ c.Paths = []) ∧
    ((configX "" "asc").resolvePaths 20).map (fun r => r.toOption.map (fun c2 => c2.Paths))
      = some (some ["/var/log/*.log", "/var/log/*.log"]) := by
  unfold config.resolvePaths at h
  rw [hrec] at h
  simp only [Bool.not_false, if_true] at h
  split at h
  · cases h
  · simp at h
  · rename_i paths hloop
    simp only [Option.some.injEq, Except.ok.injEq] at h
    obtain ⟨added, hr, hlen⟩ := resolveLoop_appends fuel _ _ _ hloop
    have hp : c1.Paths = paths := by rw [← h]
    refine ⟨⟨added, by rw [hp, hr], hlen⟩, ?_, by decide⟩
    rw [hp, hr]
    constructor
    · intro heq
      have : added = [] := by simpa using heq
      rw [this] at hlen
      exact List.length_eq_zero.1 (by simpa using hlen)
    · intro hnil
      rw [hnil] at hr hloop ⊢
      simp only [resolveLoop, Option.some.injEq, Except.ok.injEq] at hloop
      rw [hr] at hloop
      simpa using hloop.symm

/-- C30, witness: the path `/var/log/*.log` with `recursive.enabled` false. -/
theorem resolvePaths_disabled_appends_witness :
    ∃ added, ({ configX "" "asc" with Paths := ["/var/log/*.log", "/var/log/*.log"] } : config).Paths
        = (configX "" "asc").Paths ++ added ∧ (configX "" "asc").Paths.length ≤ added.length :=
  (resolvePaths_disabled_appends 20 (configX "" "asc")
    { configX "" "asc" with Paths := ["/var/log/*.log", "/var/log/*.log"] } rfl rfl).1

/-- The patterns of `GlobPatterns` for a path with `**`, at the depth
`recursiveGlobDepth`; with `recursive.enabled` false `resolvePaths` appends
them to the path itself. -/
theorem GlobPatterns_double_star :
    (GlobPatterns 20 "/var/log/**/*.log" recursiveGlobDepth).map (fun r => r.toOption)
      = some (some ["/var/log/*.log", "/var/log/*/*.log", "/var/log/*/*/*.log",
          "/var/log/*/*/*/*.log", "/var/log/*/*/*/*/*.log", "/var/log/*/*/*/*/*/*.log",
          "/var/log/*/*/*/*/*/*/*.log", "/var/log/*/*/*/*/*/*/*/*.log",
          "/var/log/*/*/*/*/*/*/*/*/*.log"]) ∧
    (({ configX "" "asc" with Paths := ["/var/log/**/*.log"] } : config).resolvePaths 20).map
        (fun r => r.toOption.map (fun c2 => c2.Paths.length)) = some (some 10) := by
  decide!

/-! ## The length limiter -/

/-- C26.  For every component name and every version string that is not
empty, when the host name can be read, `New` returns an instance whose
`Info.Component` is the name and whose `Info.Version` is the version; a second
call with the same arguments returns the same two values, whatever host name
it reads. -/
theorem New_component_and_version (defaultVersion : String) (checksum : String → Nat)
    (name ver host host2 : String) (hver : ver ≠ "") :
    ∃ a b : Instance,
      New defaultVersion (Except.ok host) checksum name ver = Except.ok a ∧
      New defaultVersion (Except.ok host2) checksum name ver = Except.ok b ∧
      a.Info.Component = name ∧ a.Info.Version = ver ∧
      b.Info.Component = a.Info.Component ∧ b.Info.Version = a.Info.Version := by
  refine ⟨_, _, rfl, rfl, rfl, ?_, rfl, rfl⟩
  simp [hver]

/-- C26, witness: the call of the test `TestNewInstance`. -/
theorem New_component_and_version_witness :
    ∃ a b : Instance,
      New "1.0" (Except.ok "host") (fun _ => 0) "testSentry" "0.9" = Except.ok a ∧
      New "1.0" (Except.ok "host") (fun _ => 0) "testSentry" "0.9" = Except.ok b ∧
      a.Info.Component = "testSentry" ∧ a.Info.Version = "0.9" ∧
      b.Info.Component = a.Info.Component ∧ b.Info.Version = a.Info.Version :=
  New_component_and_version "1.0" (fun _ => 0) "testSentry" "0.9" "host" "host" (by decide)

/-! ## The count `Read` returns -/

theorem wait_offset (f : Log) (cancelled : Bool) : (f.wait cancelled).2.offset = f.offset := by
  unfold Log.wait
  simp only
  split_ifs <;> rfl

/-- The loop of `Read`: the offset advances by the bytes stored; the count
returned is the number of bytes stored, except on cancellation, where it is 0. -/
theorem readLoop_offset : ∀ (steps : List ReadStep) (f : Log) (space : Nat)
    (stored : List Nat) (slept : List Int) (r : ReadResult),
    readLoop steps f space stored slept = some r →
    r.log.offset - r.stored.length = f.offset - stored.length ∧
    (r.n = r.stored.length ∨ (r.n = 0 ∧ r.err = some ReadError.ErrClosed)) ∧
    ((∀ step ∈ steps, step.err ≠ none → step.data = []) → stored = [] →
      r.n = r.stored.length) := by
  intro steps
  induction steps with
  | nil => intro f space stored slept r h; cases h
  | cons step rest ih =>
    intro f space stored slept r h
    unfold readLoop at h
    split at h
    · simp only [Option.some.injEq] at h
      subst h
      exact ⟨rfl, Or.inr ⟨rfl, rfl⟩, fun _ hs => by simp [hs]⟩
    · have hoff : (if (step.data.take space).length > 0 then
            { f with offset := f.offset + (step.data.take space).length,
                     lastTimeRead := step.now } else f).offset
          = f.offset + (step.data.take space).length := by
        split
        · rfl
        · rename_i hz
          have : (step.data.take space).length = 0 := by omega
          rw [this]; simp
      simp only at h
      split at h
      · simp only [Option.some.injEq] at h
        subst h
        refine ⟨?_, Or.inl rfl, fun _ _ => rfl⟩
        simp only [List.length_append, Nat.cast_add]
        rw [hoff]
        omega
      · rename_i e herr
        split at h
        · simp only [Option.some.injEq] at h
          subst h
          refine ⟨?_, Or.inl rfl, fun _ _ => rfl⟩
          simp only [List.length_append, Nat.cast_add]
          rw [hoff]
          omega
        · split at h
          · simp only [Option.some.injEq] at h
            subst h
            refine ⟨?_, Or.inl rfl, fun _ _ => rfl⟩
            simp only [List.length_append, Nat.cast_add]
            rw [hoff]
            omega
          · have hw := wait_offset (if (step.data.take space).length > 0 then
                { f with offset := f.offset + (step.data.take space).length,
                         lastTimeRead := step.now } else f) step.waitCancelled
            rw [hoff] at hw
            have hrec : ∀ f2 slept2, readLoop rest f2 (space - (step.data.take space).length)
                (stored ++ step.data.take space) slept2 = some r →
                f2.offset = f.offset + (step.data.take space).length →
                r.log.offset - r.stored.length = f.offset - stored.length ∧
                (r.n = r.stored.length ∨ (r.n = 0 ∧ r.err = some ReadError.ErrClosed)) ∧
                ((∀ s ∈ step :: rest, s.err ≠ none → s.data = []) → stored = [] →
                  r.n = r.stored.length) := by
              intro f2 slept2 h2 hf2
              obtain ⟨h1, h3, h4⟩ := ih f2 _ _ slept2 r h2
              refine ⟨?_, h3, ?_⟩
              · rw [h1, hf2]
                simp only [List.length_append, Nat.cast_add]
                omega
              · intro hall hst
                apply h4 (fun s hs => hall s (List.mem_cons_of_mem _ hs))
                have := hall step (List.mem_cons_self _ _) (by rw [herr]; simp)
                rw [hst, this]; simp
            split at h
            · rename_i d f2 hwait
              rw [hwait] at hw
              exact hrec f2 _ h hw
            · rename_i f2 hwait
              rw [hwait] at hw
              exact hrec f2 _ h hw

/-- C27.  The source of a reader is the file that `os.OpenFile` opened, and the
`Read` of an `os.File` returns no bytes together with an error.  For every call
of `Log.Read` on such a source that returns (n, err), whatever the outcome
(success, a close-condition error, or cancellation with `ErrClosed`), the
offset of the reader has increased during the call by exactly n, and n is the
number of bytes the call stored in the buffer. -/
theorem Read_offset_and_count (f : Log) (space : Nat) (steps : List ReadStep) (r : ReadResult)
    (hsrc : ∀ step ∈ steps, step.err ≠ none → step.data = [])
    (h : Log.Read f space steps = some r) :
    r.log.offset = f.offset + r.n ∧ r.n = r.stored.length := by
  obtain ⟨h1, _, h3⟩ := readLoop_offset steps f space [] [] r h
  simp only [List.length_nil, Nat.cast_zero, sub_zero] at h1
  have hn := h3 hsrc rfl
  exact ⟨by omega, hn⟩

/-- C27, witness: two empty reads of an idle file and then a read of two
bytes return 2 with the offset advanced by 2; an empty read whose wait is
cancelled returns 0 with `ErrClosed` and the offset where it was. -/
theorem Read_offset_and_count_witness :
    (∃ r, Log.Read (NewLog 0 logConfigX 0) 4096
        [emptyRead 0 1, emptyRead 0 2, dataRead [97, 10] 3] = some r ∧
      (r.n, r.err) = (2, none) ∧ r.log.offset = (NewLog 0 logConfigX 0).offset + r.n) ∧
    (∃ r, Log.Read (NewLog 5 logConfigX 0) 4096
        [{ emptyRead 5 1 with waitCancelled := true }, { emptyRead 5 2 with doneClosed := true }]
          = some r ∧
      (r.n, r.err) = (0, some ReadError.ErrClosed) ∧
      r.log.offset = (NewLog 5 logConfigX 0).offset + r.n) :=
  ⟨match h : Log.Read (NewLog 0 logConfigX 0) 4096
      [emptyRead 0 1, emptyRead 0 2, dataRead [97, 10] 3] with
    | some r =>
      ⟨r, rfl, by
        have hn : (Log.Read (NewLog 0 logConfigX 0) 4096
            [emptyRead 0 1, emptyRead 0 2, dataRead [97, 10] 3]).map (fun r => (r.n, r.err))
              = some (2, none) := by
          decide
        rw [h] at hn
        exact Option.some.inj hn,
        (Read_offset_and_count (NewLog 0 logConfigX 0) 4096
          [emptyRead 0 1, emptyRead 0 2, dataRead [97, 10] 3] r (by decide) h).1⟩
    | none => absurd (congrArg Option.isSome h) (by decide),
   match h : Log.Read (NewLog 5 logConfigX 0) 4096
      [{ emptyRead 5 1 with waitCancelled := true }, { emptyRead 5 2 with doneClosed := true }] with
    | some r =>
      ⟨r, rfl, by
        have hn : (Log.Read (NewLog 5 logConfigX 0) 4096
            [{ emptyRead 5 1 with waitCancelled := true },
             { emptyRead 5 2 with doneClosed := true }]).map (fun r => (r.n, r.err))
              = some (0, some ReadError.ErrClosed) := by
          decide
        rw [h] at hn
        exact Option.some.inj hn,
        (Read_offset_and_count (NewLog 5 logConfigX 0) 4096
          [{ emptyRead 5 1 with waitCancelled := true }, { emptyRead 5 2 with doneClosed := true }]
          r (by decide) h).1⟩
    | none => absurd (congrArg Option.isSome h) (by decide)⟩

/-! ## The error the multiline reader keeps -/

/-- The reader under the multiline reader, `NewStripNewline(NewEncode(log))`,
returns no bytes together with an error: the message that comes with an error
has `Bytes` 0 and no content. -/
theorem upstream_error_empty (e e1 : Encode) (message : Message) (err : ReadError)
    (h : StripNewline.Next Encode.Next e = NextResult.msg message (some err) e1) :
    message.Bytes = 0 ∧ message.Content = [] := by
  unfold StripNewline.Next Encode.Next at h
  unfold Line.Next at h
  split at h
  · rename_i m err0 p1 hm
    simp only [NextResult.msg.injEq] at h
    obtain ⟨h1, _, _⟩ := h
    subst h1
    split at hm
    · cases hm
    · rename_i c sz errL l1 hl
      simp only [NextResult.msg.injEq] at hm
      obtain ⟨hm1, hm2, _⟩ := hm
      subst hm1
      split at hl
      · cases hl
      · split at hl
        · simp only [Option.some.injEq, Prod.mk.injEq] at hl
          obtain ⟨⟨_, _, hl3⟩, _⟩ := hl
          rw [← hl3] at hm2
          cases hm2
        · simp only [Option.some.injEq, Prod.mk.injEq] at hl
          obtain ⟨⟨hl1, hl2, _⟩, _⟩ := hl
          exact ⟨hl2.symm, hl1.symm⟩
      · simp only [Option.some.injEq, Prod.mk.injEq] at hl
        obtain ⟨⟨hl1, hl2, _⟩, _⟩ := hl
        exact ⟨hl2.symm, hl1.symm⟩
  · rename_i m p1 hm
    cases h
  · cases h
  · cases h

/-- The flush on the timeout signal, which is not an error of the upstream: a
reader in `readNext` that holds lines returns the accumulator, keeps no error
and goes to `readFirst`. -/
theorem readNext_timeout_flush {σ : Type} (next : σ → NextResult σ) (fuel : Nat)
    (mlr : Multiline σ) (message : Message) (reader1 : σ)
    (hst : mlr.state = MultilineState.readNext)
    (hnext : next mlr.reader
      = NextResult.msg message (some ReadError.sigMultilineTimeout) reader1)
    (hacc : mlr.numLines ≠ 0) :
    Multiline.Next next (fuel + 1) mlr = NextResult.msg mlr.message none
      { ({ mlr with reader := reader1 } : Multiline σ).clear with
        state := MultilineState.readFirst } := by
  have hN : Multiline.Next next (fuel + 1) mlr = readNextLoop next (fuel + 1) mlr := by
    unfold Multiline.Next; rw [hst]
  rw [hN]
  simp only [readNextLoop, hnext, if_true, beq_iff_eq, hacc, if_false, Multiline.finalize,
    Multiline.resetState]

/-- C28.  A multiline reader in `readNext` that holds lines, to which the
upstream returns an error `err`, other than the timeout signal, with an empty
message (as every reader under it does).  The call emits the accumulator
without error; the next call returns the empty message with exactly `err` and
leaves the reader in `readFirst` with no error kept, so that the error is
returned only once; the call after that is `readFirst`, which reads from the
upstream: what the upstream returns with an error then is handed on as it
is. -/
theorem readNext_error_kept_once {σ : Type} (next next2 next3 : σ → NextResult σ)
    (fuel fuel2 fuel3 : Nat) (mlr : Multiline σ) (message : Message) (err : ReadError)
    (reader1 : σ) (hst : mlr.state = MultilineState.readNext)
    (hnext : next mlr.reader = NextResult.msg message (some err) reader1)
    (herr : err ≠ ReadError.sigMultilineTimeout) (hmsg : message.Bytes = 0)
    (hacc : mlr.numLines ≠ 0) :
    ∃ mlr1 mlr2 : Multiline σ,
      Multiline.Next next (fuel + 1) mlr = NextResult.msg mlr.message none mlr1 ∧
      mlr1.state = MultilineState.readFailed ∧ mlr1.err = some err ∧
      Multiline.Next next2 fuel2 mlr1 = NextResult.msg Message.zero (some err) mlr2 ∧
      mlr2.state = MultilineState.readFirst ∧ mlr2.err = none ∧ mlr2.reader = reader1 ∧
      mlr2.numLines = 0 ∧ mlr2.message = Message.zero ∧
      Multiline.Next next3 fuel3 mlr2 = readFirstLoop next3 fuel3 mlr2 ∧
      (∀ (m : Message) (e : ReadError) (reader2 : σ), e ≠ ReadError.sigMultilineTimeout →
        next3 reader1 = NextResult.msg m (some e) reader2 →
        Multiline.Next next3 (fuel3 + 1) mlr2
          = NextResult.msg m (some e) { mlr2 with reader := reader2 }) := by
  have hN : Multiline.Next next (fuel + 1) mlr = readNextLoop next (fuel + 1) mlr := by
    unfold Multiline.Next; rw [hst]
  refine ⟨{ ({ mlr with reader := reader1 } : Multiline σ).clear with
      err := some err, state := MultilineState.readFailed },
    { ({ mlr with reader := reader1 } : Multiline σ).clear with
      err := none, state := MultilineState.readFirst }, ?_, rfl, rfl, ?_, rfl, rfl, rfl, rfl,
    rfl, rfl, ?_⟩
  · rw [hN]
    simp only [readNextLoop, hnext, herr, if_false, hmsg, beq_self_eq_true, if_true, beq_iff_eq,
      hacc, Multiline.finalize]
  · unfold Multiline.Next
    simp only [Multiline.readFailed, Multiline.resetState]
  · intro m e reader2 he hn3
    unfold Multiline.Next
    simp only [readFirstLoop]
    have hr : (({ ({ mlr with reader := reader1 } : Multiline σ).clear with
        err := none, state := MultilineState.readFirst } : Multiline σ)).reader = reader1 := rfl
    rw [hr, hn3]
    simp only [he, if_false]

/-- C28, witness: a reader that holds the line `a` meets the end of the file;
the call returns the line without error, the next call returns the empty
message with `io.EOF`, and the call after it reads from the upstream. -/
theorem readNext_error_kept_once_witness :
    ∃ mlr1 mlr2 : Multiline (List (Message × Option ReadError)),
      Multiline.Next replayNext 3 { mlrOver [(Message.zero, some ReadError.EOF)] with
          state := MultilineState.readNext, numLines := 1, message := lineOf [97] }
        = NextResult.msg (lineOf [97]) none mlr1 ∧
      Multiline.Next replayNext 3 mlr1 = NextResult.msg Message.zero (some ReadError.EOF) mlr2 ∧
      mlr2.state = MultilineState.readFirst ∧ mlr2.err = none :=
  match readNext_error_kept_once replayNext replayNext replayNext 2 3 0
      { mlrOver [(Message.zero, some ReadError.EOF)] with
        state := MultilineState.readNext, numLines := 1, message := lineOf [97] }
      Message.zero ReadError.EOF [] rfl rfl (by decide) rfl (by decide) with
  | ⟨mlr1, mlr2, h1, _, _, h2, h3, h4, _⟩ => ⟨mlr1, mlr2, h1, h2, h3, h4⟩

/-! ## The run loop of the registrar -/

theorem flushActions_append (a b : List RegistrarCall) :
    flushActions (a ++ b) = flushActions a ++ flushActions b := by
  induction a with
  | nil => rfl
  | cons x rest ih => cases x <;> simp [flushActions, ih]

theorem processEventStates_frame (clock : Nat → Int) : ∀ (states : List State) (r : Registrar),
    (r.processEventStates clock states).flushTimeout = r.flushTimeout ∧
    (r.processEventStates clock states).bufferedStateUpdates = r.bufferedStateUpdates ∧
    (r.processEventStates clock states).hasOut = r.hasOut ∧
    (r.processEventStates clock states).flushC = r.flushC ∧
    (r.processEventStates clock states).calls = r.calls := by
  intro states
  induction states with
  | nil => intro r; exact ⟨rfl, rfl, rfl, rfl, rfl⟩
  | cons s rest ih =>
    intro r
    unfold Registrar.processEventStates
    exact ih _

theorem onEvents_frame (clock : Nat → Int) (r : Registrar) (states : List State) :
    (r.onEvents clock states).flushTimeout = r.flushTimeout ∧
    (r.onEvents clock states).bufferedStateUpdates = r.bufferedStateUpdates + states.length ∧
    (r.onEvents clock states).hasOut = r.hasOut ∧
    (r.onEvents clock states).flushC = r.flushC ∧
    (r.onEvents clock states).calls = r.calls := by
  obtain ⟨h1, h2, h3, h4, h5⟩ := processEventStates_frame clock states r
  unfold Registrar.onEvents
  exact ⟨h1, by simp only [h2], h3, h4, h5⟩

theorem flushRegistrar_frame (r : Registrar) :
    r.flushRegistrar.flushTimeout = r.flushTimeout ∧
    r.flushRegistrar.bufferedStateUpdates = 0 ∧
    r.flushRegistrar.hasOut = r.hasOut ∧
    r.flushRegistrar.flushC = r.flushC ∧
    r.flushRegistrar.states = r.states ∧
    r.flushRegistrar.calls = r.calls ++ flushCalls r := by
  unfold Registrar.flushRegistrar flushCalls
  cases h : r.hasOut <;> simp [h]

theorem flushActions_flushCalls (r : Registrar) :
    flushActions (flushCalls r) = specFlush r.hasOut r.bufferedStateUpdates := by
  unfold flushCalls specFlush
  cases r.hasOut <;> simp [flushActions]

/-- One iteration of the loop of `Run`: what it adds to the calls, and how it
leaves the timer and the count of buffered states. -/
theorem step_spec (clock : Nat → Int) (r : Registrar) :
    (∀ states, ∃ r1, r.step clock (RegistrarEvent.batch states) = some r1 ∧
      r1.flushTimeout = r.flushTimeout ∧ r1.hasOut = r.hasOut ∧
      r1.states = (r.onEvents clock states).states ∧
      (r.flushTimeout ≤ 0 → r1.flushC = r.flushC ∧ r1.bufferedStateUpdates = 0 ∧
        r1.calls = r.calls ++ RegistrarCall.writeRegistrar r1.states ::
          (if r.hasOut then
            [RegistrarCall.Published (r.bufferedStateUpdates + states.length)] else [])) ∧
      (0 < r.flushTimeout → r1.flushC = true ∧
        r1.bufferedStateUpdates = r.bufferedStateUpdates + states.length ∧
        r1.calls = r.calls ++
          (if r.flushC then [] else [RegistrarCall.NewTimer r.flushTimeout]))) ∧
    (r.flushC = false → r.step clock RegistrarEvent.timer = none) ∧
    (r.flushC = true → ∃ r1, r.step clock RegistrarEvent.timer = some r1 ∧
      r1.flushTimeout = r.flushTimeout ∧ r1.hasOut = r.hasOut ∧ r1.flushC = false ∧
      r1.bufferedStateUpdates = 0 ∧ r1.states = r.states ∧
      r1.calls = r.calls ++ RegistrarCall.timerStop :: RegistrarCall.writeRegistrar r.states ::
        (if r.hasOut then [RegistrarCall.Published r.bufferedStateUpdates] else [])) := by
  refine ⟨?_, ?_, ?_⟩
  · intro states
    obtain ⟨h1, h2, h3, h4, h5⟩ := onEvents_frame clock r states
    unfold Registrar.step
    simp only
    by_cases ht : r.flushTimeout ≤ 0
    · obtain ⟨g1, g2, g3, g4, g5, g6⟩ := flushRegistrar_frame (r.onEvents clock states)
      rw [if_pos (by rw [h1]; exact ht)]
      refine ⟨_, rfl, by rw [g1, h1], by rw [g3, h3], g5,
        fun _ => ⟨by rw [g4, h4], g2, ?_⟩, fun hpos => absurd hpos (by omega)⟩
      rw [g6, h5, g5]
      unfold flushCalls
      rw [h3, h2]
    · rw [if_neg (by rw [h1]; exact ht)]
      cases hf : r.flushC
      · rw [if_pos (by rw [h4, hf]; rfl)]
        refine ⟨_, rfl, h1, h3, rfl, fun h => absurd h ht, fun _ => ⟨rfl, h2, ?_⟩⟩
        simp [h5, h1]
      · rw [if_neg (by rw [h4, hf]; decide)]
        refine ⟨_, rfl, h1, h3, rfl, fun h => absurd h ht,
          fun _ => ⟨by rw [h4, hf], h2, ?_⟩⟩
        simp [h5]
  · intro hf
    simp [Registrar.step, hf]
  · intro hf
    obtain ⟨g1, g2, g3, g4, g5, g6⟩ := flushRegistrar_frame
      { r with flushC := false, calls := r.calls ++ [RegistrarCall.timerStop] }
    refine ⟨_, by simp only [Registrar.step, hf, if_true], g1, g3, g4, g2, g5, ?_⟩
    rw [g6]
    simp [flushCalls]

/-- With `flush_timeout` > 0 the loop of `Run` does what the state machine of
the specification does, from any state the two agree on. -/
theorem loop_refines_specTimed (clock : Nat → Int) : ∀ (events : List RegistrarEvent)
    (r : Registrar), 0 < r.flushTimeout →
    (Registrar.loop clock r events).map
        (fun r1 => (flushActions r1.calls, r1.flushC, r1.bufferedStateUpdates)) =
      (specTimed r.hasOut r.flushC r.bufferedStateUpdates events).map
        (fun res => (flushActions r.calls ++ res.1, res.2)) := by
  intro events
  induction events with
  | nil => intro r _; simp [Registrar.loop, specTimed]
  | cons e rest ih =>
    intro r hpos
    obtain ⟨hb, ht0, ht1⟩ := step_spec clock r
    cases e with
    | batch states =>
      obtain ⟨r1, hstep, hft, ho, _, _, htimed⟩ := hb states
      obtain ⟨hfc, hbuf, hcalls⟩ := htimed hpos
      have := ih r1 (by rw [hft]; exact hpos)
      simp only [Registrar.loop, hstep, specTimed]
      rw [this, ho, hfc, hbuf, hcalls, flushActions_append, Option.map_map]
      congr 1
      funext res
      cases r.flushC <;> simp [flushActions]
    | timer =>
      cases hf : r.flushC
      · simp [Registrar.loop, ht0 hf, specTimed]
      · obtain ⟨r1, hstep, hft, ho, hfc, hbuf, _, hcalls⟩ := ht1 hf
        have := ih r1 (by rw [hft]; exact hpos)
        simp only [Registrar.loop, hstep, specTimed, if_true]
        rw [this, ho, hfc, hbuf, hcalls, flushActions_append, Option.map_map]
        congr 1
        funext res
        unfold specFlush
        cases r.hasOut <;> simp [flushActions]

/-- With `flush_timeout` <= 0 the loop of `Run` does what the state machine of
the specification does, from a state with no timer. -/
theorem loop_refines_specUntimed (clock : Nat → Int) : ∀ (events : List RegistrarEvent)
    (r : Registrar), r.flushTimeout ≤ 0 → r.flushC = false →
    (Registrar.loop clock r events).map
        (fun r1 => (flushActions r1.calls, r1.flushC, r1.bufferedStateUpdates)) =
      (specUntimed r.hasOut r.bufferedStateUpdates events).map
        (fun res => (flushActions r.calls ++ res.1, false, res.2)) := by
  intro events
  induction events with
  | nil => intro r _ hfc0; simp [Registrar.loop, specUntimed, hfc0]
  | cons e rest ih =>
    intro r hle hfc0
    obtain ⟨hb, ht0, _⟩ := step_spec clock r
    cases e with
    | batch states =>
      obtain ⟨r1, hstep, hft, ho, _, huntimed, _⟩ := hb states
      obtain ⟨hfc, hbuf, hcalls⟩ := huntimed hle
      have := ih r1 (by rw [hft]; exact hle) (by rw [hfc, hfc0])
      simp only [Registrar.loop, hstep, specUntimed]
      rw [this, ho, hbuf, hcalls, flushActions_append, Option.map_map]
      congr 1
      funext res
      unfold specFlush
      cases r.hasOut <;> simp [flushActions]
    | timer =>
      simp [Registrar.loop, ht0 hfc0, specUntimed]

/-- C29.  The loop of `Registrar.Run` as a state machine over the events
batch-received and timer-fired, a flush being one write of the registry
followed, when the registrar has a `successLogger`, by one `Published`.  With
`flush_timeout` <= 0 the run does what `specUntimed` does: every batch is
followed by exactly one flush before the next event is consumed, and no timer
is armed.  With `flush_timeout` > 0 it does what `specTimed` does: a timer is
armed only by the first batch after a flush (or the start), batches received
while the timer is armed neither flush nor arm, and each expiry of the timer
causes exactly one flush.  In both, the count of buffered states is the number
of states received since the previous flush, it is the n passed to `Published`
at a flush, and the flush sets it to 0; when `r.done` ends the run the registry
is written once more.  The last three parts give the calls of each kind of
iteration in full; an expiry cannot be received while no timer is armed. -/
theorem Run_loop_flushes (clock : Nat → Int) (r : Registrar) (events : List RegistrarEvent) :
    (r.flushTimeout ≤ 0 →
      (Registrar.Run clock r events).map
          (fun r1 => (flushActions r1.calls, r1.flushC, r1.bufferedStateUpdates)) =
        (specUntimed r.hasOut r.bufferedStateUpdates events).map
          (fun res => (flushActions r.calls ++ res.1 ++ [FlushAction.write], false, res.2))) ∧
    (0 < r.flushTimeout →
      (Registrar.Run clock r events).map
          (fun r1 => (flushActions r1.calls, r1.flushC, r1.bufferedStateUpdates)) =
        (specTimed r.hasOut false r.bufferedStateUpdates events).map
          (fun res => (flushActions r.calls ++ res.1 ++ [FlushAction.write], res.2))) ∧
    (∀ (r2 : Registrar) (states : List State), r2.flushTimeout ≤ 0 →
      ∃ r3, r2.step clock (RegistrarEvent.batch states) = some r3 ∧
        r3.states = (r2.onEvents clock states).states ∧
        r3.calls = r2.calls ++ RegistrarCall.writeRegistrar r3.states ::
          (if r2.hasOut then
            [RegistrarCall.Published (r2.bufferedStateUpdates + states.length)] else []) ∧
        r3.bufferedStateUpdates = 0 ∧ r3.flushC = r2.flushC) ∧
    (∀ (r2 : Registrar) (states : List State), 0 < r2.flushTimeout →
      ∃ r3, r2.step clock (RegistrarEvent.batch states) = some r3 ∧
        r3.calls = r2.calls ++
          (if r2.flushC then [] else [RegistrarCall.NewTimer r2.flushTimeout]) ∧
        r3.flushC = true ∧
        r3.bufferedStateUpdates = r2.bufferedStateUpdates + states.length) ∧
    (∀ r2 : Registrar,
      (r2.flushC = false → r2.step clock RegistrarEvent.timer = none) ∧
      (r2.flushC = true → ∃ r3, r2.step clock RegistrarEvent.timer = some r3 ∧
        r3.calls = r2.calls ++ RegistrarCall.timerStop ::
          RegistrarCall.writeRegistrar r2.states ::
          (if r2.hasOut then [RegistrarCall.Published r2.bufferedStateUpdates] else []) ∧
        r3.bufferedStateUpdates = 0 ∧ r3.flushC = false)) := by
  refine ⟨?_, ?_, ?_, ?_, ?_⟩
  · intro hle
    have := loop_refines_specUntimed clock events { r with flushC := false } hle rfl
    simp only [] at this
    unfold Registrar.Run
    cases hl : Registrar.loop clock { r with flushC := false } events with
    | none =>
      rw [hl] at this
      simp only [Option.map_none'] at this ⊢
      cases hs : specUntimed r.hasOut r.bufferedStateUpdates events with
      | none => rfl
      | some res => rw [hs] at this; simp at this
    | some r1 =>
      rw [hl] at this
      simp only [Option.map_some'] at this ⊢
      cases hs : specUntimed r.hasOut r.bufferedStateUpdates events with
      | none => rw [hs] at this; simp at this
      | some res =>
        rw [hs] at this
        simp only [Option.map_some', Option.some.injEq, Prod.mk.injEq] at this ⊢
        obtain ⟨h1, h2, h3⟩ := this
        refine ⟨?_, h2, h3⟩
        rw [flushActions_append, h1]
        simp [flushActions]
  · intro hpos
    have := loop_refines_specTimed clock events { r with flushC := false } hpos
    simp only [] at this
    unfold Registrar.Run
    cases hl : Registrar.loop clock { r with flushC := false } events with
    | none =>
      rw [hl] at this
      simp only [Option.map_none'] at this ⊢
      cases hs : specTimed r.hasOut false r.bufferedStateUpdates events with
      | none => rfl
      | some res => rw [hs] at this; simp at this
    | some r1 =>
      rw [hl] at this
      simp only [Option.map_some'] at this ⊢
      cases hs : specTimed r.hasOut false r.bufferedStateUpdates events with
      | none => rw [hs] at this; simp at this
      | some res =>
        rw [hs] at this
        simp only [Option.map_some', Option.some.injEq, Prod.mk.injEq] at this ⊢
        obtain ⟨h1, h2⟩ := this
        refine ⟨?_, h2⟩
        rw [flushActions_append, h1]
        simp [flushActions]
  · intro r2 states hle
    obtain ⟨r3, hstep, _, _, hst, hun, _⟩ := (step_spec clock r2).1 states
    obtain ⟨h1, h2, h3⟩ := hun hle
    exact ⟨r3, hstep, hst, h3, h2, h1⟩
  · intro r2 states hpos
    obtain ⟨r3, hstep, _, _, _, _, htimed⟩ := (step_spec clock r2).1 states
    obtain ⟨h1, h2, h3⟩ := htimed hpos
    exact ⟨r3, hstep, h3, h1, h2⟩
  · intro r2
    refine ⟨(step_spec clock r2).2.1, fun hf => ?_⟩
    obtain ⟨r3, hstep, _, _, h1, h2, _, h3⟩ := (step_spec clock r2).2.2 hf
    exact ⟨r3, hstep, h3, h2, h1⟩

/-- C29, witness: the events `eventsX` with `flush_timeout` of 5 nanoseconds.
The timer is armed by the first and by the fourth event and each expiry
writes the registry once; with a `successLogger` the two flushes publish 3
states and 1 state.  After the last event the registry is written once more. -/
theorem Run_loop_flushes_witness :
    (Registrar.Run (fun n => n) (registrarX [] 5) eventsX).map
        (fun r1 => (flushActions r1.calls, r1.flushC, r1.bufferedStateUpdates))
      = some ([FlushAction.arm, FlushAction.write, FlushAction.arm, FlushAction.write,
          FlushAction.write], false, 0) ∧
    (Registrar.Run (fun n => n) (registrarOutX [] 5) eventsX).map
        (fun r1 => (flushActions r1.calls, r1.flushC, r1.bufferedStateUpdates))
      = some ([FlushAction.arm, FlushAction.write, FlushAction.published 3, FlushAction.arm,
          FlushAction.write, FlushAction.published 1, FlushAction.write], false, 0) ∧
    (Registrar.Run (fun n => n) (registrarOutX [] 0)
        [RegistrarEvent.batch [stateA], RegistrarEvent.batch [stateB, stateC]]).map
        (fun r1 => (flushActions r1.calls, r1.flushC, r1.bufferedStateUpdates))
      = some ([FlushAction.write, FlushAction.published 1, FlushAction.write,
          FlushAction.published 2, FlushAction.write], false, 0) :=
  ⟨((Run_loop_flushes (fun n => n) (registrarX [] 5) eventsX).2.1 (by decide)).trans
      (by decide),
   ((Run_loop_flushes (fun n => n) (registrarOutX [] 5) eventsX).2.1 (by decide)).trans
      (by decide),
   ((Run_loop_flushes (fun n => n) (registrarOutX [] 0)
      [RegistrarEvent.batch [stateA], RegistrarEvent.batch [stateB, stateC]]).1 (by decide)).trans
      (by decide)⟩

end Agenx
